import Mathlib

/-!
# Keypad_Matrix: a shallow embedding of the matrix keypad scanner

The development follows `Keypad_Matrix.h` and `Keypad_Matrix.cpp`.

* Machine integers are natural numbers; `uint8_t` arithmetic is reduced modulo
  `256` and `unsigned long` subtraction modulo `2 ^ 32` where the source can wrap.
* Heap blocks are reached through `Ptr`: a pointer is null, points to a live block,
  or is dangling (non-null, but the block has been freed).
* Every memory access is checked: an access through a null or dangling pointer, or
  outside the bounds of an array, has no defined behaviour in C++ and makes the
  embedded function return `none`.
* The environment is explicit: `begin` receives the outcome of its two allocations,
  `scan` receives the value of `millis ()` and the level the read handler returns
  at each (row, column) position. Calls of handlers are recorded in a trace.
-/

set_option linter.dupNamespace false

namespace Keypad

/-! ## Constants of the platform -/

/-- Number of bits in a `char`. -/
def CHAR_BIT : Nat := 8

/-- Logic level `LOW`. -/
def LOW : Int := 0

/-- Logic level `HIGH`. -/
def HIGH : Int := 1

/-- Pin mode `INPUT`. -/
def INPUT : Nat := 0

/-- Pin mode `OUTPUT`. -/
def OUTPUT : Nat := 1

/-- Pin mode `INPUT_PULLUP`. -/
def INPUT_PULLUP : Nat := 2

/-- Number of values of a `uint8_t`. -/
def UINT8_MOD : Nat := 256

/-- Width in bits of an `unsigned long`. -/
def ULONG_BITS : Nat := 32

/-- Number of values of an `unsigned long`. -/
def ULONG_MOD : Nat := 2 ^ ULONG_BITS

/-- Subtraction of two `unsigned long` values, as in `now - lastKeyTime_ [keyNumber]`. -/
def ulongSub (a b : Nat) : Nat :=
  (a % ULONG_MOD + (ULONG_MOD - b % ULONG_MOD)) % ULONG_MOD

/-! ## Pointers and handlers -/

/-- A pointer to a heap block with contents of type `α`. -/
inductive Ptr (α : Type) where
  | null : Ptr α
  | live (block : α) : Ptr α
  | dangling : Ptr α
  deriving DecidableEq, Repr

/-- The block a pointer gives access to; `none` for a null or dangling pointer. -/
def Ptr.deref {α : Type} : Ptr α → Option α
  | Ptr.live block => some block
  | _ => none

/-- The test `p == NULL`. -/
def Ptr.isNull {α : Type} : Ptr α → Bool
  | Ptr.null => true
  | _ => false

/-- The effect of `free (p)` on the pointer variable `p`: its value is kept, the
block is gone. -/
def Ptr.free {α : Type} : Ptr α → Ptr α
  | Ptr.null => Ptr.null
  | _ => Ptr.dangling

/-- A function pointer `void (*) (const char which)`, identified by its address. -/
abbrev keyHandler := Nat

/-- A function pointer `int (*) (uint8_t)`, identified by its address. -/
abbrev colHandler := Nat

/-- A function pointer `void (*) (uint8_t)`, identified by its address. -/
abbrev rowHandler := Nat

/-- Address of the default start-of-row handler `Keypad_Matrix::startRow`. -/
def startRow : rowHandler := 1

/-- Address of the default end-of-row handler `Keypad_Matrix::endRow`. -/
def endRow : rowHandler := 2

/-- Address of `digitalRead`, the default read handler. -/
def digitalRead : colHandler := 3

/-- What the scanner does to its environment. `keyUp key which` and
`keyDown key which` are calls of the key handlers with argument `which`; `key` is the
value of the loop counter at the call and is not passed to the handler. -/
inductive Event where
  | pinMode (pin mode : Nat) : Event
  | startRow (pin : Nat) : Event
  | endRow (pin : Nat) : Event
  | readColumn (pin : Nat) : Event
  | keyUp (key : Nat) (which : Char) : Event
  | keyDown (key : Nat) (which : Char) : Event
  deriving DecidableEq, Repr

/-! ## The bit set macros of `Keypad_Matrix.h` -/

/-- `BITMASK(b)` is `1 << ((b) % CHAR_BIT)`. -/
def BITMASK (b : Nat) : Nat := 1 <<< (b % CHAR_BIT)

/-- `BITSLOT(b)` is `(b) / CHAR_BIT`. -/
def BITSLOT (b : Nat) : Nat := b / CHAR_BIT

/-- `BITSET(a, b)` is `a[BITSLOT(b)] |= BITMASK(b)`. -/
def BITSET (a : List Nat) (b : Nat) : Option (List Nat) :=
  match a[BITSLOT b]? with
  | some x => some (a.set (BITSLOT b) (x ||| BITMASK b))
  | none => none

/-- `BITCLEAR(a, b)` is `a[BITSLOT(b)] &= ~BITMASK(b)`; the complement is taken on
the eight bits of the stored byte. -/
def BITCLEAR (a : List Nat) (b : Nat) : Option (List Nat) :=
  match a[BITSLOT b]? with
  | some x => some (a.set (BITSLOT b) (x &&& (255 ^^^ BITMASK b)))
  | none => none

/-- `BITTEST(a, b)` is `a[BITSLOT(b)] & BITMASK(b)`. -/
def BITTEST (a : List Nat) (b : Nat) : Option Nat :=
  match a[BITSLOT b]? with
  | some x => some (x &&& BITMASK b)
  | none => none

/-! ## The class -/

/-- The data members of `class Keypad_Matrix`. -/
structure Keypad_Matrix where
  keyMap_ : List Char
  rowPins_ : List Nat
  colPins_ : List Nat
  numRows_ : Nat
  numCols_ : Nat
  enablePullups_ : Bool
  totalKeys_ : Nat
  lastKeySetting_ : Ptr (List Nat)
  lastKeyTime_ : Ptr (List Nat)
  debounce_Time_ : Nat
  keyDownHandler_ : Option keyHandler
  keyUpHandler_ : Option keyHandler
  startRowHandler_ : Option rowHandler
  endRowHandler_ : Option rowHandler
  readHandler_ : Option colHandler
  deriving DecidableEq, Repr

namespace Keypad_Matrix

/-- The constructor `Keypad_Matrix::Keypad_Matrix`. -/
def Keypad_Matrix (keyMap : List Char) (rowPins colPins : List Nat) (numRows numCols : Nat)
    (enablePullups : Bool) : Keypad.Keypad_Matrix :=
  { keyMap_ := keyMap
    rowPins_ := rowPins
    colPins_ := colPins
    numRows_ := numRows
    numCols_ := numCols
    enablePullups_ := enablePullups
    totalKeys_ := (numRows * numCols) % UINT8_MOD
    lastKeySetting_ := Ptr.null
    lastKeyTime_ := Ptr.null
    debounce_Time_ := 10
    keyDownHandler_ := none
    keyUpHandler_ := none
    startRowHandler_ := some startRow
    endRowHandler_ := some endRow
    readHandler_ := some digitalRead }

/-- The inline member `setKeyDownHandler`. -/
def setKeyDownHandler (s : Keypad.Keypad_Matrix) (handler : Option keyHandler) :
    Keypad.Keypad_Matrix :=
  { s with keyDownHandler_ := handler }

/-- The inline member `setKeyUpHandler`. -/
def setKeyUpHandler (s : Keypad.Keypad_Matrix) (handler : Option keyHandler) :
    Keypad.Keypad_Matrix :=
  { s with keyUpHandler_ := handler }

/-- The inline member `setRowHandlers`. -/
def setRowHandlers (s : Keypad.Keypad_Matrix) (start finish : Option rowHandler) :
    Keypad.Keypad_Matrix :=
  { s with startRowHandler_ := start, endRowHandler_ := finish }

/-- The inline member `setColumnReadHandler`. -/
def setColumnReadHandler (s : Keypad.Keypad_Matrix) (handler : Option colHandler) :
    Keypad.Keypad_Matrix :=
  { s with readHandler_ := handler }

/-- The inline member `setDebounceTime`. -/
def setDebounceTime (s : Keypad.Keypad_Matrix) (debounce_Time : Nat) : Keypad.Keypad_Matrix :=
  { s with debounce_Time_ := debounce_Time }

/-! ### Checked accesses to the two heap arrays -/

/-- The read `lastKeyTime_ [k]`. -/
def readTime (s : Keypad.Keypad_Matrix) (k : Nat) : Option Nat :=
  match s.lastKeyTime_.deref with
  | some times => times[k]?
  | none => none

/-- The assignment `lastKeyTime_ [k] = v`. -/
def writeTime (s : Keypad.Keypad_Matrix) (k v : Nat) : Option Keypad.Keypad_Matrix :=
  match s.lastKeyTime_.deref with
  | some times =>
    if k < times.length then some { s with lastKeyTime_ := Ptr.live (times.set k v) } else none
  | none => none

/-- The expression `BITTEST (lastKeySetting_, k)`. -/
def testSetting (s : Keypad.Keypad_Matrix) (k : Nat) : Option Nat :=
  match s.lastKeySetting_.deref with
  | some bits => BITTEST bits k
  | none => none

/-- The statement `BITSET (lastKeySetting_, k)`. -/
def setSetting (s : Keypad.Keypad_Matrix) (k : Nat) : Option Keypad.Keypad_Matrix :=
  match s.lastKeySetting_.deref with
  | some bits =>
    match BITSET bits k with
    | some bits1 => some { s with lastKeySetting_ := Ptr.live bits1 }
    | none => none
  | none => none

/-- The statement `BITCLEAR (lastKeySetting_, k)`. -/
def clearSetting (s : Keypad.Keypad_Matrix) (k : Nat) : Option Keypad.Keypad_Matrix :=
  match s.lastKeySetting_.deref with
  | some bits =>
    match BITCLEAR bits k with
    | some bits1 => some { s with lastKeySetting_ := Ptr.live bits1 }
    | none => none
  | none => none

/-! ### `begin` -/

/-- The loop `for (uint8_t i = 0; i < numCols_; i++) pinMode (colPins_ [i], mode)`,
started at `i` with `n` iterations to go. -/
def pinModeLoop (s : Keypad.Keypad_Matrix) (mode : Nat) : Nat → Nat → Option (List Event)
  | _, 0 => some []
  | i, n + 1 =>
    match s.colPins_[i]? with
    | none => none
    | some pin =>
      match pinModeLoop s mode (i + 1) n with
      | none => none
      | some rest => some (Event.pinMode pin mode :: rest)

/-- The member `Keypad_Matrix::begin`. `alloc1` and `alloc2` tell whether the first
and the second `calloc` succeed; the second is only called when the first succeeded. -/
def begin (s : Keypad.Keypad_Matrix) (alloc1 alloc2 : Bool) :
    Option (Keypad.Keypad_Matrix × List Event) :=
  -- if begin() already called, don't allocate memory again
  if s.lastKeySetting_.isNull = false then some (s, [])
  else
    -- allocate one bit per key, rounded up to next byte
    let s1 : Keypad.Keypad_Matrix :=
      { s with lastKeySetting_ :=
          if alloc1 then Ptr.live (List.replicate ((s.totalKeys_ + CHAR_BIT - 1) / CHAR_BIT) 0)
          else Ptr.null }
    -- allocate an unsigned long for the time the key last changed, for each key
    let s2 : Keypad.Keypad_Matrix :=
      if s1.lastKeySetting_.isNull = false then
        { s1 with lastKeyTime_ :=
            if alloc2 then Ptr.live (List.replicate s1.totalKeys_ 0) else Ptr.null }
      else s1
    -- give up if we couldn't allocate memory for both arrays
    if s2.lastKeyTime_.isNull then
      if s2.lastKeySetting_.isNull = false then
        some ({ s2 with lastKeySetting_ := s2.lastKeySetting_.free }, [])
      else some (s2, [])
    else
      -- set each column to input-pullup (optional)
      if s2.enablePullups_ then
        match pinModeLoop s2 INPUT_PULLUP 0 s2.numCols_ with
        | none => none
        | some tr => some (s2, tr)
      else some (s2, [])

/-! ### `scan` -/

/-- The variables `scan` works on: the object itself, the locals `keyNumber`,
`keyChanged` and `changed`, and the handler calls made so far. -/
structure ScanState where
  self : Keypad.Keypad_Matrix
  keyNumber : Nat
  keyChanged : List Nat
  changed : Bool
  trace : List Event
  deriving DecidableEq, Repr

/-- The body of the column loop of `scan`, for the position (`row`, `col`). -/
def scanKey (now : Nat) (levels : Nat → Nat → Int) (row col : Nat) (st : ScanState) :
    Option ScanState := do
  let lastTime ← st.self.readTime st.keyNumber
  let st1 ←
    -- debounce - ignore if not enough time has elapsed since last change
    if ulongSub now lastTime ≥ st.self.debounce_Time_ then do
      let pin ← st.self.colPins_[col]?
      let keyState : Bool := decide (levels row col = LOW)
      let trace1 := st.trace ++ [Event.readColumn pin]
      let old ← st.self.testSetting st.keyNumber
      if keyState != (old != 0) then do
        let self1 ← st.self.writeTime st.keyNumber now
        let keyChanged1 ← BITSET st.keyChanged st.keyNumber
        let self2 ← if keyState then self1.setSetting st.keyNumber
                    else self1.clearSetting st.keyNumber
        pure { st with self := self2, keyChanged := keyChanged1, changed := true,
                       trace := trace1 }
      else pure { st with trace := trace1 }
    else pure st
  pure { st1 with keyNumber := (st1.keyNumber + 1) % UINT8_MOD }

/-- The loop `for (uint8_t col = 0; col < numCols_; col++)`, started at `col` with
`n` iterations to go. -/
def colLoop (now : Nat) (levels : Nat → Nat → Int) (row : Nat) :
    Nat → Nat → ScanState → Option ScanState
  | _, 0, st => some st
  | col, n + 1, st =>
    match scanKey now levels row col st with
    | none => none
    | some st1 => colLoop now levels row (col + 1) n st1

/-- The loop `for (uint8_t row = 0; row < numRows_; row++)`, started at `row` with
`n` iterations to go. -/
def rowLoop (now : Nat) (levels : Nat → Nat → Int) : Nat → Nat → ScanState → Option ScanState
  | _, 0, st => some st
  | row, n + 1, st =>
    match st.self.rowPins_[row]? with
    | none => none
    | some pin =>
      match colLoop now levels row 0 st.self.numCols_
          { st with trace := st.trace ++ [Event.startRow pin] } with
      | none => none
      | some st1 =>
        rowLoop now levels (row + 1) n { st1 with trace := st1.trace ++ [Event.endRow pin] }

/-- The first handler loop of `scan` (key-ups), started at `i` with `n` iterations
to go. -/
def keyUpLoop (s : Keypad.Keypad_Matrix) (keyChanged : List Nat) :
    Nat → Nat → Option (List Event)
  | _, 0 => some []
  | i, n + 1 => do
    let c ← BITTEST keyChanged i
    let here ←
      if c ≠ 0 then do
        let b ← s.testSetting i
        if b = 0 then
          match s.keyUpHandler_ with
          | some _ => do
            let which ← s.keyMap_[i]?
            pure [Event.keyUp i which]
          | none => pure []
        else pure []
      else pure []
    let rest ← keyUpLoop s keyChanged (i + 1) n
    pure (here ++ rest)

/-- The second handler loop of `scan` (key-downs), started at `i` with `n`
iterations to go. -/
def keyDownLoop (s : Keypad.Keypad_Matrix) (keyChanged : List Nat) :
    Nat → Nat → Option (List Event)
  | _, 0 => some []
  | i, n + 1 => do
    let c ← BITTEST keyChanged i
    let here ←
      if c ≠ 0 then do
        let b ← s.testSetting i
        if b ≠ 0 then
          match s.keyDownHandler_ with
          | some _ => do
            let which ← s.keyMap_[i]?
            pure [Event.keyDown i which]
          | none => pure []
        else pure []
      else pure []
    let rest ← keyDownLoop s keyChanged (i + 1) n
    pure (here ++ rest)

/-- The member `Keypad_Matrix::scan`. `now` is the value returned by `millis ()`,
`levels row col` the value the read handler returns when it is called for column
index `col` while row index `row` is being scanned. -/
def scan (s : Keypad.Keypad_Matrix) (now : Nat) (levels : Nat → Nat → Int) :
    Option (Keypad.Keypad_Matrix × List Event) :=
  if s.lastKeySetting_.isNull ∨ s.startRowHandler_ = none ∨ s.endRowHandler_ = none ∨
      s.readHandler_ = none then some (s, [])
  else
    let st0 : ScanState :=
      { self := s
        keyNumber := 0
        keyChanged := List.replicate ((s.totalKeys_ + CHAR_BIT - 1) / CHAR_BIT) 0
        changed := false
        trace := [] }
    match rowLoop now levels 0 s.numRows_ st0 with
    | none => none
    | some st =>
      if st.changed then
        match keyUpLoop st.self st.keyChanged 0 st.self.totalKeys_ with
        | none => none
        | some ups =>
          match keyDownLoop st.self st.keyChanged 0 st.self.totalKeys_ with
          | none => none
          | some downs => some (st.self, st.trace ++ ups ++ downs)
      else some (st.self, st.trace)

/-! ### `isKeyDown` -/

/-- The search loop of `isKeyDown`, started at `i` with `n` iterations to go. -/
def isKeyDownLoop (s : Keypad.Keypad_Matrix) (which : Char) : Nat → Nat → Option Bool
  | _, 0 => some false
  | i, n + 1 =>
    match s.keyMap_[i]? with
    | none => none
    | some c =>
      if c = which then
        match s.testSetting i with
        | none => none
        | some b => some (b != 0)
      else isKeyDownLoop s which (i + 1) n

/-- The member `Keypad_Matrix::isKeyDown`. -/
def isKeyDown (s : Keypad.Keypad_Matrix) (which : Char) : Option Bool :=
  if s.lastKeySetting_.isNull then some false
  else isKeyDownLoop s which 0 s.totalKeys_

end Keypad_Matrix

/-! ## Observers, specification functions and examples -/

/-! ### Observers -/

/-- Bit `k` of a bit set, read the way `BITTEST (a, k) != 0` reads it; `false` when
the slot is outside the array. -/
def bitOf (a : List Nat) (k : Nat) : Bool :=
  match BITTEST a k with
  | some v => v != 0
  | none => false

/-- The stored down/up flag of key `k`: `true` means down. -/
def keyFlag (s : Keypad_Matrix) (k : Nat) : Bool :=
  match s.testSetting k with
  | some v => v != 0
  | none => false

/-- The stored time of the last transition of key `k`. -/
def keyTime (s : Keypad_Matrix) (k : Nat) : Nat :=
  match s.readTime k with
  | some t => t
  | none => 0

/-! ### The effect of one scan on one key -/

/-- The scanner `s` with the contents of its two heap arrays replaced. -/
def withArrays (s : Keypad_Matrix) (bits times : List Nat) : Keypad_Matrix :=
  { s with lastKeySetting_ := Ptr.live bits, lastKeyTime_ := Ptr.live times }

/-- The debounce guard `now - lastKeyTime_ [keyNumber] >= debounce_Time_`. -/
def guardOpen (d now t : Nat) : Bool := decide (ulongSub now t ≥ d)

/-- The comparison `readHandler_ (...) == LOW`. -/
def pressed (level : Int) : Bool := decide (level = LOW)

/-- Whether a key with flag `f` and time `t` changes when `level` is read at `now`. -/
def flips (d now t : Nat) (f : Bool) (level : Int) : Bool :=
  guardOpen d now t && (pressed level != f)

/-- The flag of a key after the body of the column loop. -/
def nextFlag (d now t : Nat) (f : Bool) (level : Int) : Bool :=
  if guardOpen d now t then pressed level else f

/-- The time of a key after the body of the column loop. -/
def nextTime (d now t : Nat) (f : Bool) (level : Int) : Nat :=
  if flips d now t f level then now else t

/-! ### Events and the loop invariant -/

/-- Whether an event is a call of a key handler. -/
def Event.isKey : Event → Bool
  | Event.keyUp _ _ => true
  | Event.keyDown _ _ => true
  | _ => false

/-- The state of the scanning loops when the keys below `n` have been handled,
starting from the arrays `b0` and `t0`; `lv k` is the level read for key `k`. -/
def ScanInv (s : Keypad_Matrix) (b0 t0 : List Nat) (now : Nat) (lv : Nat → Int) (n : Nat)
    (st : Keypad_Matrix.ScanState) : Prop :=
  ∃ b t kc ch tr, st = ⟨withArrays s b t, n, kc, ch, tr⟩ ∧
    b.length = b0.length ∧ t.length = t0.length ∧ kc.length = b0.length ∧
    (∀ j, bitOf b j = if j < n
      then nextFlag s.debounce_Time_ now (t0.getD j 0) (bitOf b0 j) (lv j) else bitOf b0 j) ∧
    (∀ j, t.getD j 0 = if j < n
      then nextTime s.debounce_Time_ now (t0.getD j 0) (bitOf b0 j) (lv j) else t0.getD j 0) ∧
    (∀ j, bitOf kc j =
      (decide (j < n) && flips s.debounce_Time_ now (t0.getD j 0) (bitOf b0 j) (lv j))) ∧
    (ch = false → ∀ j, bitOf kc j = false) ∧
    (∀ e ∈ tr, e.isKey = false)

/-- The symbol `keyMap_ [i]`. -/
def symbolOf (s : Keypad_Matrix) (i : Nat) : Char := s.keyMap_.getD i default

/-! ### Conditions on a scanner -/

/-- Both heap arrays are live and have the sizes `begin` allocates. -/
def initialized (s : Keypad_Matrix) : Bool :=
  match s.lastKeySetting_, s.lastKeyTime_ with
  | Ptr.live bits, Ptr.live times =>
    decide (bits.length = (s.totalKeys_ + CHAR_BIT - 1) / CHAR_BIT) &&
      decide (times.length = s.totalKeys_)
  | _, _ => false

/-- The arguments of the constructor fit together: the number of keys fits in the
`uint8_t` member `totalKeys_`, and the pin arrays and the keymap are long enough. -/
def wellFormed (s : Keypad_Matrix) : Bool :=
  decide (s.numRows_ * s.numCols_ < UINT8_MOD) &&
  decide (s.totalKeys_ = s.numRows_ * s.numCols_) &&
  decide (s.numRows_ ≤ s.rowPins_.length) &&
  decide (s.numCols_ ≤ s.colPins_.length) &&
  decide (s.totalKeys_ ≤ s.keyMap_.length)

/-- The three handlers `scan` needs are set. -/
def handlersSet (s : Keypad_Matrix) : Bool :=
  s.startRowHandler_.isSome && s.endRowHandler_.isSome && s.readHandler_.isSome

/-! ### The effect of one scan -/

/-- The level read for key `k`: column `k % numCols_` while row `k / numCols_` is
being scanned. -/
def levelOf (s : Keypad_Matrix) (levels : Nat → Nat → Int) (k : Nat) : Int :=
  levels (k / s.numCols_) (k % s.numCols_)

/-- Whether key `k` changes in a scan at `now`. -/
def keyFlips (s : Keypad_Matrix) (now : Nat) (levels : Nat → Nat → Int) (k : Nat) : Bool :=
  flips s.debounce_Time_ now (keyTime s k) (keyFlag s k) (levelOf s levels k)

/-- The flag of key `k` after a scan at `now`. -/
def keyNextFlag (s : Keypad_Matrix) (now : Nat) (levels : Nat → Nat → Int) (k : Nat) : Bool :=
  nextFlag s.debounce_Time_ now (keyTime s k) (keyFlag s k) (levelOf s levels k)

/-- The time of key `k` after a scan at `now`. -/
def keyNextTime (s : Keypad_Matrix) (now : Nat) (levels : Nat → Nat → Int) (k : Nat) : Nat :=
  nextTime s.debounce_Time_ now (keyTime s k) (keyFlag s k) (levelOf s levels k)

/-- The calls of the key-up handler a scan at `now` makes. -/
def upEvents (s : Keypad_Matrix) (now : Nat) (levels : Nat → Nat → Int) : List Event :=
  if s.keyUpHandler_.isSome then
    ((List.range s.totalKeys_).filter
      (fun k => keyFlips s now levels k && !keyNextFlag s now levels k)).map
      (fun k => Event.keyUp k (symbolOf s k))
  else []

/-- The calls of the key-down handler a scan at `now` makes. -/
def downEvents (s : Keypad_Matrix) (now : Nat) (levels : Nat → Nat → Int) : List Event :=
  if s.keyDownHandler_.isSome then
    ((List.range s.totalKeys_).filter
      (fun k => keyFlips s now levels k && keyNextFlag s now levels k)).map
      (fun k => Event.keyDown k (symbolOf s k))
  else []

/-- The value of the loop counter at a call of a key handler. -/
def Event.key : Event → Nat
  | Event.keyUp k _ => k
  | Event.keyDown k _ => k
  | _ => 0

/-- Whether an event is a call of the key-up handler. -/
def Event.isKeyUp : Event → Bool
  | Event.keyUp _ _ => true
  | _ => false

/-- Whether an event is a call of the key-down handler. -/
def Event.isKeyDown : Event → Bool
  | Event.keyDown _ _ => true
  | _ => false

/-- Whether an event is a call of a key handler made for key `k`. -/
def Event.isKeyOf (k : Nat) (e : Event) : Bool := e.isKey && e.key == k

/-! ### Examples and sequences of scans -/

/-- A 2x2 keypad after `begin`, with both key handlers registered, on which the key
at index 3 has been recorded as down at time 20. -/
def keypad2x2 : Keypad_Matrix :=
  withArrays
    (Keypad_Matrix.setKeyUpHandler
      (Keypad_Matrix.setKeyDownHandler
        (Keypad_Matrix.Keypad_Matrix ['1', '2', '3', '4'] [6, 7] [2, 3] 2 2 true) (some 10))
      (some 11))
    [8] [0, 0, 0, 20]

/-- Column levels at which only the key at index 0 (row 0, column 0) is pressed. -/
def onlyKey0 : Nat → Nat → Int :=
  fun row col => if row = 0 ∧ col = 0 then LOW else HIGH

/-- Successive calls of `scan`, each with its own clock value and column levels;
the handler calls of all of them, in order. -/
def scanAll : Keypad_Matrix → List (Nat × (Nat → Nat → Int)) →
    Option (Keypad_Matrix × List Event)
  | s, [] => some (s, [])
  | s, (now, levels) :: rest =>
    match s.scan now levels with
    | none => none
    | some (s1, tr) =>
      match scanAll s1 rest with
      | none => none
      | some (s2, tr2) => some (s2, tr ++ tr2)

/-- A 1x1 keypad with the symbol `'A'`, as constructed. -/
def keypadA : Keypad_Matrix :=
  Keypad_Matrix.Keypad_Matrix ['A'] [6] [2] 1 1 true

/-- The 1x1 keypad after a successful `begin`, with both key handlers registered. -/
def keypadAReady : Keypad_Matrix :=
  withArrays (Keypad_Matrix.setKeyUpHandler (Keypad_Matrix.setKeyDownHandler keypadA (some 7))
    (some 8)) [0] [0]

/-- Column levels at which every key is pressed. -/
def allPressed : Nat → Nat → Int := fun _ _ => LOW

/-- Column levels at which every key is released. -/
def allReleased : Nat → Nat → Int := fun _ _ => HIGH

/-! ### Definitions for the later sections -/

/-- Subtraction of two unsigned values of `w` bits; `ulongSub` is the case `w = 32`. -/
def wrapSub (w a b : Nat) : Nat :=
  (a % 2 ^ w + (2 ^ w - b % 2 ^ w)) % 2 ^ w

/-- A 2x2 keypad after `begin` whose keymap has the symbol `'A'` at the indices 0 and
2; the key at index 2 is recorded as down, the key at index 0 is up. -/
def keypadTwice : Keypad_Matrix :=
  withArrays (Keypad_Matrix.Keypad_Matrix ['A', 'B', 'A', 'C'] [6, 7] [2, 3] 2 2 true)
    [4] [0, 0, 20, 0]

/-- The 1x1 keypad after `begin`, its key up, with a recorded time 6 below the
largest `unsigned long` plus one. -/
def keypadLate : Keypad_Matrix :=
  withArrays keypadAReady [0] [4294967290]

/-- A 16x16 keypad as constructed: 256 keys. -/
def keypad16x16 : Keypad_Matrix :=
  Keypad_Matrix.Keypad_Matrix (List.replicate 256 'K') (List.range 16)
    ((List.range 16).map (fun c => c + 16)) 16 16 false

/-- A call of a public member of the class, with what the environment supplies to
it. -/
inductive Call where
  | begin (alloc1 alloc2 : Bool) : Call
  | scan (now : Nat) (levels : Nat → Nat → Int) : Call
  | isKeyDown (which : Char) : Call
  | setKeyDownHandler (handler : Option keyHandler) : Call
  | setKeyUpHandler (handler : Option keyHandler) : Call
  | setRowHandlers (start finish : Option rowHandler) : Call
  | setColumnReadHandler (handler : Option colHandler) : Call
  | setDebounceTime (debounce_Time : Nat) : Call

/-- The scanner after one call; `none` when the call has no defined behaviour. -/
def Call.run (s : Keypad_Matrix) : Call → Option Keypad_Matrix
  | Call.begin alloc1 alloc2 => (s.begin alloc1 alloc2).map Prod.fst
  | Call.scan now levels => (s.scan now levels).map Prod.fst
  | Call.isKeyDown which => (s.isKeyDown which).map (fun _ => s)
  | Call.setKeyDownHandler handler => some (s.setKeyDownHandler handler)
  | Call.setKeyUpHandler handler => some (s.setKeyUpHandler handler)
  | Call.setRowHandlers start finish => some (s.setRowHandlers start finish)
  | Call.setColumnReadHandler handler => some (s.setColumnReadHandler handler)
  | Call.setDebounceTime debounce_Time => some (s.setDebounceTime debounce_Time)

/-- The scanner after a sequence of calls. -/
def runCalls : Keypad_Matrix → List Call → Option Keypad_Matrix
  | s, [] => some s
  | s, c :: rest =>
    match c.run s with
    | none => none
    | some s1 => runCalls s1 rest

/-- The clock value a call reads, if it is a scan. -/
def Call.clock : Call → Option Nat
  | Call.scan now _ => some now
  | _ => none

/-- The clock value of the latest scan of a sequence of calls, `c0` when it has no
scan. -/
def latestClock (c0 : Nat) : List Call → Nat
  | [] => c0
  | c :: rest =>
    latestClock (match c.clock with
      | some now => now
      | none => c0) rest

/-- The time array is allocated only together with the flag array. -/
def timesWithFlags (s : Keypad_Matrix) : Prop :=
  s.lastKeySetting_.isNull = true → s.lastKeyTime_ = Ptr.null

/-- Whether an event is a call of the read handler. -/
def Event.isRead : Event → Bool
  | Event.readColumn _ => true
  | _ => false

/-- The calls of the read handler a scan at `now` makes while row `row` is scanned:
one for each column, in increasing order, whose key passes the debounce guard. -/
def rowReads (s : Keypad_Matrix) (now row : Nat) : List Event :=
  ((List.range s.numCols_).filter
    (fun col => guardOpen s.debounce_Time_ now (keyTime s (row * s.numCols_ + col)))).map
    (fun col => Event.readColumn (s.colPins_.getD col 0))

/-- The handler calls of the scanning loops of a scan at `now`: for each row in
increasing order the start-row call, the reads of the row, the end-row call. -/
def scanTrace (s : Keypad_Matrix) (now : Nat) : List Event :=
  (List.range s.numRows_).flatMap
    (fun row => Event.startRow (s.rowPins_.getD row 0) ::
      (rowReads s now row ++ [Event.endRow (s.rowPins_.getD row 0)]))

/-- The 1x1 keypad after a `begin` whose first allocation succeeded and whose second
allocation failed: the flag array has been freed, its pointer is left dangling. -/
def keypadAFailed : Keypad_Matrix :=
  { keypadA with lastKeySetting_ := Ptr.dangling }

/-! ## The bit set macros act on independent flags -/

theorem and_BITMASK_ne_zero (x k : Nat) : (x &&& BITMASK k != 0) = x.testBit (k % 8) := by
  unfold BITMASK CHAR_BIT
  rw [Nat.one_shiftLeft, Nat.and_two_pow]
  cases h : x.testBit (k % 8) <;> simp [Bool.toNat]

theorem bitOf_eq_testBit (a : List Nat) (k : Nat) :
    bitOf a k = (a.getD (k / 8) 0).testBit (k % 8) := by
  unfold bitOf BITTEST BITSLOT CHAR_BIT
  cases h : a[k / 8]? with
  | none => simp [List.getD_eq_getElem?_getD, h]
  | some x =>
    rw [List.getD_eq_getElem?_getD, h]
    exact and_BITMASK_ne_zero x k

theorem BITTEST_of_lt (a : List Nat) (k : Nat) (h : k / 8 < a.length) :
    ∃ v, BITTEST a k = some v ∧ (v != 0) = bitOf a k := by
  unfold bitOf BITTEST BITSLOT CHAR_BIT
  simp [List.getElem?_eq_getElem h]

theorem key_eq_of_slot_bit {j k : Nat} (h1 : j / 8 = k / 8) (h2 : j % 8 = k % 8) : j = k := by
  omega

theorem BITSET_of_lt (a : List Nat) (k : Nat) (h : k / 8 < a.length) :
    ∃ a1, BITSET a k = some a1 ∧ a1.length = a.length ∧
      ∀ j, bitOf a1 j = if j = k then true else bitOf a j := by
  unfold BITSET BITSLOT CHAR_BIT
  rw [List.getElem?_eq_getElem h]
  refine ⟨_, rfl, by simp, ?_⟩
  intro j
  rw [bitOf_eq_testBit, bitOf_eq_testBit]
  by_cases hs : j / 8 = k / 8
  · have : (a.set (k / 8) (a[k / 8] ||| BITMASK k)).getD (j / 8) 0 = a[k / 8] ||| BITMASK k := by
      rw [hs]; simp [List.getD, List.getElem?_set_self h]
    rw [this, Nat.testBit_or]
    have hm : (BITMASK k).testBit (j % 8) = decide (k % 8 = j % 8) := by
      unfold BITMASK CHAR_BIT; rw [Nat.one_shiftLeft, Nat.testBit_two_pow]
    rw [hm]
    have ha : a.getD (j / 8) 0 = a[k / 8] := by
      rw [hs]; simp [List.getD, List.getElem?_eq_getElem h]
    rw [ha]
    by_cases hb : j % 8 = k % 8
    · have := key_eq_of_slot_bit hs hb
      simp [this]
    · have hne : j ≠ k := fun e => hb (by rw [e])
      have hb2 : ¬ k % 8 = j % 8 := fun e => hb e.symm
      simp [hne, hb2]
  · have hne : j ≠ k := fun e => hs (by rw [e])
    have : (a.set (k / 8) (a[k / 8] ||| BITMASK k)).getD (j / 8) 0 = a.getD (j / 8) 0 := by
      simp [List.getD, List.getElem?_set_ne (Ne.symm hs)]
    rw [this]; simp [hne]

theorem BITCLEAR_of_lt (a : List Nat) (k : Nat) (h : k / 8 < a.length) :
    ∃ a1, BITCLEAR a k = some a1 ∧ a1.length = a.length ∧
      ∀ j, bitOf a1 j = if j = k then false else bitOf a j := by
  unfold BITCLEAR BITSLOT CHAR_BIT
  rw [List.getElem?_eq_getElem h]
  refine ⟨_, rfl, by simp, ?_⟩
  intro j
  rw [bitOf_eq_testBit, bitOf_eq_testBit]
  by_cases hs : j / 8 = k / 8
  · have : (a.set (k / 8) (a[k / 8] &&& (255 ^^^ BITMASK k))).getD (j / 8) 0
        = a[k / 8] &&& (255 ^^^ BITMASK k) := by
      rw [hs]; simp [List.getD, List.getElem?_set_self h]
    rw [this, Nat.testBit_and, Nat.testBit_xor]
    have hm : (BITMASK k).testBit (j % 8) = decide (k % 8 = j % 8) := by
      unfold BITMASK CHAR_BIT; rw [Nat.one_shiftLeft, Nat.testBit_two_pow]
    have h255 : Nat.testBit 255 (j % 8) = true := by
      have e : (255 : Nat) = 2 ^ 8 - 1 := by norm_num
      rw [e, Nat.testBit_two_pow_sub_one]
      exact decide_eq_true (Nat.mod_lt _ (by norm_num))
    rw [hm, h255]
    have ha : a.getD (j / 8) 0 = a[k / 8] := by
      rw [hs]; simp [List.getD, List.getElem?_eq_getElem h]
    rw [ha]
    by_cases hb : j % 8 = k % 8
    · have := key_eq_of_slot_bit hs hb
      simp [this]
    · have hne : j ≠ k := fun e => hb (by rw [e])
      have hb2 : ¬ k % 8 = j % 8 := fun e => hb e.symm
      simp [hne, hb2]
  · have hne : j ≠ k := fun e => hs (by rw [e])
    have : (a.set (k / 8) (a[k / 8] &&& (255 ^^^ BITMASK k))).getD (j / 8) 0
        = a.getD (j / 8) 0 := by
      simp [List.getD, List.getElem?_set_ne (Ne.symm hs)]
    rw [this]; simp [hne]

theorem bitOf_replicate_zero (n k : Nat) : bitOf (List.replicate n 0) k = false := by
  rw [bitOf_eq_testBit]
  by_cases h : k / 8 < n
  · simp [List.getD, List.getElem?_replicate, h]
  · simp [List.getD, List.getElem?_replicate, h]

/-! ## One key of one scan -/

@[simp]
theorem readTime_withArrays (s : Keypad_Matrix) (b t : List Nat) (k : Nat) :
    (withArrays s b t).readTime k = t[k]? := rfl

@[simp]
theorem testSetting_withArrays (s : Keypad_Matrix) (b t : List Nat) (k : Nat) :
    (withArrays s b t).testSetting k = BITTEST b k := rfl

@[simp]
theorem writeTime_withArrays (s : Keypad_Matrix) (b t : List Nat) (k v : Nat) :
    (withArrays s b t).writeTime k v =
      if k < t.length then some (withArrays s b (t.set k v)) else none := rfl

@[simp]
theorem setSetting_withArrays (s : Keypad_Matrix) (b t : List Nat) (k : Nat) :
    (withArrays s b t).setSetting k = (BITSET b k).map (fun b1 => withArrays s b1 t) := by
  unfold Keypad_Matrix.setSetting withArrays
  simp only [Ptr.deref]
  cases BITSET b k <;> rfl

@[simp]
theorem clearSetting_withArrays (s : Keypad_Matrix) (b t : List Nat) (k : Nat) :
    (withArrays s b t).clearSetting k = (BITCLEAR b k).map (fun b1 => withArrays s b1 t) := by
  unfold Keypad_Matrix.clearSetting withArrays
  simp only [Ptr.deref]
  cases BITCLEAR b k <;> rfl

@[simp]
theorem colPins_withArrays (s : Keypad_Matrix) (b t : List Nat) :
    (withArrays s b t).colPins_ = s.colPins_ := rfl

@[simp]
theorem rowPins_withArrays (s : Keypad_Matrix) (b t : List Nat) :
    (withArrays s b t).rowPins_ = s.rowPins_ := rfl

@[simp]
theorem keyMap_withArrays (s : Keypad_Matrix) (b t : List Nat) :
    (withArrays s b t).keyMap_ = s.keyMap_ := rfl

@[simp]
theorem numCols_withArrays (s : Keypad_Matrix) (b t : List Nat) :
    (withArrays s b t).numCols_ = s.numCols_ := rfl

@[simp]
theorem numRows_withArrays (s : Keypad_Matrix) (b t : List Nat) :
    (withArrays s b t).numRows_ = s.numRows_ := rfl

@[simp]
theorem totalKeys_withArrays (s : Keypad_Matrix) (b t : List Nat) :
    (withArrays s b t).totalKeys_ = s.totalKeys_ := rfl

@[simp]
theorem debounce_withArrays (s : Keypad_Matrix) (b t : List Nat) :
    (withArrays s b t).debounce_Time_ = s.debounce_Time_ := rfl

@[simp]
theorem keyUpHandler_withArrays (s : Keypad_Matrix) (b t : List Nat) :
    (withArrays s b t).keyUpHandler_ = s.keyUpHandler_ := rfl

@[simp]
theorem keyDownHandler_withArrays (s : Keypad_Matrix) (b t : List Nat) :
    (withArrays s b t).keyDownHandler_ = s.keyDownHandler_ := rfl

@[simp]
theorem withArrays_withArrays (s : Keypad_Matrix) (b t b1 t1 : List Nat) :
    withArrays (withArrays s b t) b1 t1 = withArrays s b1 t1 := rfl

theorem keyFlag_withArrays (s : Keypad_Matrix) (b t : List Nat) (k : Nat) :
    keyFlag (withArrays s b t) k = bitOf b k := rfl

theorem keyTime_withArrays (s : Keypad_Matrix) (b t : List Nat) (k : Nat) :
    keyTime (withArrays s b t) k = t.getD k 0 := by
  unfold keyTime
  rw [readTime_withArrays, List.getD_eq_getElem?_getD]
  cases t[k]? <;> rfl

/-- The body of the column loop, on a scanner whose arrays are live and large
enough for key `n`: it succeeds, and touches key `n` only. -/
theorem scanKey_spec (s : Keypad_Matrix) (b t kc : List Nat) (n : Nat) (ch : Bool)
    (tr : List Event) (now : Nat) (levels : Nat → Nat → Int) (row col : Nat)
    (hn : n < t.length) (hb : n / 8 < b.length) (hkc : n / 8 < kc.length)
    (hcol : col < s.colPins_.length) :
    ∃ b1 t1 kc1,
      Keypad_Matrix.scanKey now levels row col ⟨withArrays s b t, n, kc, ch, tr⟩ =
        some ⟨withArrays s b1 t1, (n + 1) % UINT8_MOD, kc1,
          ch || flips s.debounce_Time_ now (t.getD n 0) (bitOf b n) (levels row col),
          tr ++ (if guardOpen s.debounce_Time_ now (t.getD n 0)
                 then [Event.readColumn (s.colPins_.getD col 0)] else [])⟩ ∧
      b1.length = b.length ∧ t1.length = t.length ∧ kc1.length = kc.length ∧
      (∀ j, bitOf b1 j = if j = n
          then nextFlag s.debounce_Time_ now (t.getD n 0) (bitOf b n) (levels row col)
          else bitOf b j) ∧
      (∀ j, t1.getD j 0 = if j = n
          then nextTime s.debounce_Time_ now (t.getD n 0) (bitOf b n) (levels row col)
          else t.getD j 0) ∧
      (∀ j, bitOf kc1 j = if j = n
          then (flips s.debounce_Time_ now (t.getD n 0) (bitOf b n) (levels row col)
                || bitOf kc n)
          else bitOf kc j) := by
  have htn : t.getD n 0 = t[n] := by
    rw [List.getD_eq_getElem?_getD, List.getElem?_eq_getElem hn]; rfl
  have hpin : s.colPins_.getD col 0 = s.colPins_[col] := by
    rw [List.getD_eq_getElem?_getD, List.getElem?_eq_getElem hcol]; rfl
  obtain ⟨v, hv, hvb⟩ := BITTEST_of_lt b n hb
  obtain ⟨kc1, hkc1, hkl, hkb⟩ := BITSET_of_lt kc n hkc
  obtain ⟨bs, hbs, hbsl, hbsb⟩ := BITSET_of_lt b n hb
  obtain ⟨bc, hbc, hbcl, hbcb⟩ := BITCLEAR_of_lt b n hb
  rw [htn, hpin]
  have hset : ∀ (x j : Nat), (t.set n x).getD j 0 = if j = n then x else t.getD j 0 := by
    intro x j
    by_cases hj : j = n
    · subst hj
      simp [List.getD_eq_getElem?_getD, List.getElem?_set_self hn]
    · simp [List.getD_eq_getElem?_getD, List.getElem?_set_ne (Ne.symm hj), hj]
  by_cases hg : s.debounce_Time_ ≤ ulongSub now t[n]
  · by_cases hf : (decide (levels row col = LOW) != (v != 0)) = true
    · have hfl : flips s.debounce_Time_ now t[n] (bitOf b n) (levels row col) = true := by
        simpa [flips, guardOpen, pressed, hg, ← hvb] using hf
      by_cases hl : levels row col = LOW
      · have hv0 : v = 0 := by simpa [hl] using hf
        have hfl2 := hfl
        rw [hl] at hfl2
        refine ⟨bs, t.set n now, kc1, ?_, hbsl, by simp, hkl, ?_, ?_, ?_⟩
        · simp [Keypad_Matrix.scanKey, List.getElem?_eq_getElem hn,
            List.getElem?_eq_getElem hcol, hg, hv, hl, hkc1, hbs, guardOpen, hfl2, hn, hv0]
        · intro j
          rw [hbsb j]
          simp [nextFlag, guardOpen, pressed, hg, hl]
        · intro j
          rw [hset now j]
          simp [nextTime, hfl]
        · intro j
          rw [hkb j]
          simp [hfl]
      · have hv0 : ¬ v = 0 := by simpa [hl] using hf
        refine ⟨bc, t.set n now, kc1, ?_, hbcl, by simp, hkl, ?_, ?_, ?_⟩
        · simp [Keypad_Matrix.scanKey, List.getElem?_eq_getElem hn,
            List.getElem?_eq_getElem hcol, hg, hv, hl, hkc1, hbc, guardOpen, hfl, hn, hv0]
        · intro j
          rw [hbcb j]
          simp [nextFlag, guardOpen, pressed, hg, hl]
        · intro j
          rw [hset now j]
          simp [nextTime, hfl]
        · intro j
          rw [hkb j]
          simp [hfl]
    · have hfl : flips s.debounce_Time_ now t[n] (bitOf b n) (levels row col) = false := by
        simpa [flips, guardOpen, pressed, hg, ← hvb] using hf
      have hsame1 : decide (levels row col = LOW) = (v != 0) := by simpa using hf
      have hsame : decide (levels row col = LOW) = bitOf b n := by rw [← hvb]; exact hsame1
      refine ⟨b, t, kc, ?_, rfl, rfl, rfl, ?_, ?_, ?_⟩
      · simp only [Keypad_Matrix.scanKey, readTime_withArrays, List.getElem?_eq_getElem hn,
          colPins_withArrays, List.getElem?_eq_getElem hcol, testSetting_withArrays, hv,
          debounce_withArrays, bind, Option.bind, pure, ge_iff_le, hg, if_true, hsame1,
          bne_self_eq_false, Bool.false_eq_true, if_false, guardOpen, decide_True, hfl,
          Bool.or_false]
      · intro j
        by_cases hj : j = n
        · rw [hj, if_pos rfl]; simp [nextFlag, guardOpen, pressed, hg, hsame]
        · rw [if_neg hj]
      · intro j
        by_cases hj : j = n
        · rw [hj, if_pos rfl, htn]; simp [nextTime, hfl]
        · rw [if_neg hj]
      · intro j
        by_cases hj : j = n
        · rw [hj, if_pos rfl]; simp [hfl]
        · rw [if_neg hj]
  · have hfl : flips s.debounce_Time_ now t[n] (bitOf b n) (levels row col) = false := by
      simp [flips, guardOpen, hg]
    refine ⟨b, t, kc, ?_, rfl, rfl, rfl, ?_, ?_, ?_⟩
    · simp [Keypad_Matrix.scanKey, List.getElem?_eq_getElem hn, hg, guardOpen, hfl]
    · intro j
      by_cases hj : j = n
      · rw [hj, if_pos rfl]; simp [nextFlag, guardOpen, hg]
      · rw [if_neg hj]
    · intro j
      by_cases hj : j = n
      · rw [hj, if_pos rfl, htn]; simp [nextTime, hfl]
      · rw [if_neg hj]
    · intro j
      by_cases hj : j = n
      · rw [hj, if_pos rfl]; simp [hfl]
      · rw [if_neg hj]

/-! ## The scanning loops -/

theorem ScanInv_trace (s : Keypad_Matrix) (b0 t0 : List Nat) (now : Nat) (lv : Nat → Int)
    (n : Nat) (st : Keypad_Matrix.ScanState) (e : Event) (he : e.isKey = false)
    (h : ScanInv s b0 t0 now lv n st) :
    ScanInv s b0 t0 now lv n { st with trace := st.trace ++ [e] } := by
  obtain ⟨b, t, kc, ch, tr, rfl, h1, h2, h3, h4, h5, h6, h7, h8⟩ := h
  refine ⟨b, t, kc, ch, tr ++ [e], rfl, h1, h2, h3, h4, h5, h6, h7, ?_⟩
  intro x hx
  rcases List.mem_append.1 hx with hx | hx
  · exact h8 x hx
  · rw [List.mem_singleton.1 hx]; exact he

theorem ScanInv_self (s : Keypad_Matrix) (b0 t0 : List Nat) (now : Nat) (lv : Nat → Int)
    (n : Nat) (st : Keypad_Matrix.ScanState) (h : ScanInv s b0 t0 now lv n st) :
    st.self.numCols_ = s.numCols_ ∧ st.self.rowPins_ = s.rowPins_ := by
  obtain ⟨b, t, kc, ch, tr, rfl, _⟩ := h
  exact ⟨rfl, rfl⟩

theorem scanKey_inv (s : Keypad_Matrix) (b0 t0 : List Nat) (now : Nat) (lv : Nat → Int)
    (levels : Nat → Nat → Int) (row col n : Nat) (st : Keypad_Matrix.ScanState)
    (hlen : b0.length = (t0.length + 7) / 8) (hfit : t0.length < UINT8_MOD)
    (hn : n < t0.length) (hcol : col < s.colPins_.length) (hlv : levels row col = lv n)
    (h : ScanInv s b0 t0 now lv n st) :
    ∃ st1, Keypad_Matrix.scanKey now levels row col st = some st1 ∧
      ScanInv s b0 t0 now lv (n + 1) st1 := by
  obtain ⟨b, t, kc, ch, tr, rfl, h1, h2, h3, h4, h5, h6, h7, h8⟩ := h
  have hslot : n / 8 < b0.length := by rw [hlen]; omega
  obtain ⟨b1, t1, kc1, hrun, hb1, ht1, hkc1, hbit, htime, hkc⟩ :=
    scanKey_spec s b t kc n ch tr now levels row col (by omega) (by omega) (by omega) hcol
  have etn : t.getD n 0 = t0.getD n 0 := by rw [h5 n]; simp
  have ebn : bitOf b n = bitOf b0 n := by rw [h4 n]; simp
  have ekn : bitOf kc n = false := by rw [h6 n]; simp
  have hmod : (n + 1) % UINT8_MOD = n + 1 := Nat.mod_eq_of_lt (by omega)
  rw [etn, ebn, hlv, hmod] at hrun
  rw [etn, ebn, hlv] at hbit htime
  rw [etn, ebn, hlv, ekn] at hkc
  refine ⟨_, hrun, _, _, _, _, _, rfl, by omega, by omega, by omega, ?_, ?_, ?_, ?_, ?_⟩
  · intro j
    rw [hbit j]
    by_cases hj : j = n
    · subst hj; simp
    · rw [if_neg hj, h4 j]
      by_cases hlt : j < n
      · rw [if_pos hlt, if_pos (by omega)]
      · rw [if_neg hlt, if_neg (by omega)]
  · intro j
    rw [htime j]
    by_cases hj : j = n
    · subst hj; simp
    · rw [if_neg hj, h5 j]
      by_cases hlt : j < n
      · rw [if_pos hlt, if_pos (by omega)]
      · rw [if_neg hlt, if_neg (by omega)]
  · intro j
    rw [hkc j]
    by_cases hj : j = n
    · subst hj; simp
    · rw [if_neg hj, h6 j]
      have : decide (j < n) = decide (j < n + 1) := by
        by_cases hlt : j < n
        · simp [hlt]; omega
        · simp [hlt]; omega
      rw [this]
  · intro hch j
    have hc2 : ch = false := by
      cases ch
      · rfl
      · simp at hch
    have hfl : flips s.debounce_Time_ now (t0.getD n 0) (bitOf b0 n) (lv n) = false := by
      cases hx : flips s.debounce_Time_ now (t0.getD n 0) (bitOf b0 n) (lv n)
      · rfl
      · rw [hx] at hch; simp at hch
    rw [hkc j]
    by_cases hj : j = n
    · rw [if_pos hj, hfl]; rfl
    · rw [if_neg hj]; exact h7 hc2 j
  · intro e he
    rcases List.mem_append.1 he with he | he
    · exact h8 e he
    · by_cases hg : guardOpen s.debounce_Time_ now (t0.getD n 0) = true
      · rw [if_pos hg] at he
        rw [List.mem_singleton.1 he]; rfl
      · rw [if_neg hg] at he
        cases he

theorem colLoop_inv (s : Keypad_Matrix) (b0 t0 : List Nat) (now : Nat) (lv : Nat → Int)
    (levels : Nat → Nat → Int) (row base : Nat)
    (hlen : b0.length = (t0.length + 7) / 8) (hfit : t0.length < UINT8_MOD) :
    ∀ (m col : Nat) (st : Keypad_Matrix.ScanState),
      col + m ≤ s.colPins_.length → base + col + m ≤ t0.length →
      (∀ c, col ≤ c → c < col + m → levels row c = lv (base + c)) →
      ScanInv s b0 t0 now lv (base + col) st →
      ∃ st1, Keypad_Matrix.colLoop now levels row col m st = some st1 ∧
        ScanInv s b0 t0 now lv (base + col + m) st1 := by
  intro m
  induction m with
  | zero =>
    intro col st _ _ _ h
    exact ⟨st, rfl, h⟩
  | succ m ih =>
    intro col st hc hn hlv h
    obtain ⟨st1, hrun, hinv⟩ := scanKey_inv s b0 t0 now lv levels row col (base + col) st hlen
      hfit (by omega) (by omega) (hlv col (Nat.le_refl _) (by omega)) h
    obtain ⟨st2, hrun2, hinv2⟩ := ih (col + 1) st1 (by omega) (by omega)
      (fun c h1 h2 => hlv c (by omega) (by omega)) hinv
    refine ⟨st2, ?_, ?_⟩
    · simp only [Keypad_Matrix.colLoop, hrun]; exact hrun2
    · have e : base + col + (m + 1) = base + (col + 1) + m := by omega
      rw [e]; exact hinv2

theorem rowLoop_inv (s : Keypad_Matrix) (b0 t0 : List Nat) (now : Nat)
    (levels : Nat → Nat → Int)
    (hlen : b0.length = (t0.length + 7) / 8) (hfit : t0.length < UINT8_MOD)
    (hcols : s.numCols_ ≤ s.colPins_.length) :
    ∀ (m row : Nat) (st : Keypad_Matrix.ScanState),
      row + m ≤ s.rowPins_.length → (row + m) * s.numCols_ ≤ t0.length →
      ScanInv s b0 t0 now (fun k => levels (k / s.numCols_) (k % s.numCols_))
        (row * s.numCols_) st →
      ∃ st1, Keypad_Matrix.rowLoop now levels row m st = some st1 ∧
        ScanInv s b0 t0 now (fun k => levels (k / s.numCols_) (k % s.numCols_))
          ((row + m) * s.numCols_) st1 := by
  intro m
  induction m with
  | zero =>
    intro row st _ _ h
    exact ⟨st, rfl, h⟩
  | succ m ih =>
    intro row st hr hn h
    obtain ⟨hnc, hrp⟩ := ScanInv_self _ _ _ _ _ _ _ h
    have hrow : row < s.rowPins_.length := by omega
    have hmul : (row + (m + 1)) * s.numCols_ = row * s.numCols_ + s.numCols_ +
        m * s.numCols_ := by ring
    have h1 := ScanInv_trace _ _ _ _ _ _ _ (Event.startRow s.rowPins_[row]) rfl h
    obtain ⟨st1, hrun1, hinv1⟩ := colLoop_inv s b0 t0 now
      (fun k => levels (k / s.numCols_) (k % s.numCols_)) levels row (row * s.numCols_)
      hlen hfit s.numCols_ 0 _ (by omega) (by omega)
      (by
        intro c _ hc
        have hc2 : c < s.numCols_ := by omega
        have hpos : 0 < s.numCols_ := by omega
        show levels row c = levels ((row * s.numCols_ + c) / s.numCols_)
          ((row * s.numCols_ + c) % s.numCols_)
        have e1 : (row * s.numCols_ + c) / s.numCols_ = row := by
          rw [Nat.mul_comm, Nat.mul_add_div hpos, Nat.div_eq_of_lt hc2, Nat.add_zero]
        have e2 : (row * s.numCols_ + c) % s.numCols_ = c := by
          rw [Nat.mul_comm, Nat.mul_add_mod, Nat.mod_eq_of_lt hc2]
        rw [e1, e2])
      h1
    have h2 := ScanInv_trace _ _ _ _ _ _ _ (Event.endRow s.rowPins_[row]) rfl hinv1
    have e3 : row * s.numCols_ + 0 + s.numCols_ = (row + 1) * s.numCols_ := by ring
    rw [e3] at h2
    obtain ⟨st2, hrun2, hinv2⟩ := ih (row + 1) _ (by omega)
      (by have : (row + 1 + m) * s.numCols_ = (row + (m + 1)) * s.numCols_ := by ring
          omega) h2
    refine ⟨st2, ?_, ?_⟩
    · simp only [Keypad_Matrix.rowLoop, hrp, hnc, List.getElem?_eq_getElem hrow, hrun1]
      exact hrun2
    · have e : (row + (m + 1)) * s.numCols_ = (row + 1 + m) * s.numCols_ := by ring
      rw [e]; exact hinv2

/-! ## The handler calls of the scanning loops -/

theorem scanKey_trace (s : Keypad_Matrix) (b0 t0 : List Nat) (now : Nat) (lv : Nat → Int)
    (levels : Nat → Nat → Int) (row col n : Nat) (st st1 : Keypad_Matrix.ScanState)
    (hlen : b0.length = (t0.length + 7) / 8)
    (hn : n < t0.length) (hcol : col < s.colPins_.length)
    (h : ScanInv s b0 t0 now lv n st)
    (hrun : Keypad_Matrix.scanKey now levels row col st = some st1) :
    st1.trace = st.trace ++
      (if guardOpen s.debounce_Time_ now (t0.getD n 0)
       then [Event.readColumn (s.colPins_.getD col 0)] else []) := by
  obtain ⟨b, t, kc, ch, tr, rfl, h1, h2, h3, h4, h5, h6, h7, h8⟩ := h
  have hslot : n / 8 < b0.length := by rw [hlen]; omega
  obtain ⟨b1, t1, kc1, hrun1, _⟩ :=
    scanKey_spec s b t kc n ch tr now levels row col (by omega) (by omega) (by omega) hcol
  have etn : t.getD n 0 = t0.getD n 0 := by rw [h5 n]; simp
  rw [hrun1] at hrun
  simp only [Option.some.injEq] at hrun
  rw [← hrun, etn]

theorem colLoop_trace (s : Keypad_Matrix) (b0 t0 : List Nat) (now : Nat) (lv : Nat → Int)
    (levels : Nat → Nat → Int) (row base : Nat)
    (hlen : b0.length = (t0.length + 7) / 8) (hfit : t0.length < UINT8_MOD) :
    ∀ (m col : Nat) (st st1 : Keypad_Matrix.ScanState),
      col + m ≤ s.colPins_.length → base + col + m ≤ t0.length →
      (∀ c, col ≤ c → c < col + m → levels row c = lv (base + c)) →
      ScanInv s b0 t0 now lv (base + col) st →
      Keypad_Matrix.colLoop now levels row col m st = some st1 →
      st1.trace = st.trace ++
        ((List.range' col m).filter
          (fun c => guardOpen s.debounce_Time_ now (t0.getD (base + c) 0))).map
          (fun c => Event.readColumn (s.colPins_.getD c 0)) := by
  intro m
  induction m with
  | zero =>
    intro col st st1 _ _ _ _ hrun
    simp only [Keypad_Matrix.colLoop, Option.some.injEq] at hrun
    rw [← hrun]
    simp
  | succ m ih =>
    intro col st st1 hc hn hlv h hrun
    obtain ⟨st2, hrun2, hinv2⟩ := scanKey_inv s b0 t0 now lv levels row col (base + col) st
      hlen hfit (by omega) (by omega) (hlv col (Nat.le_refl _) (by omega)) h
    have htr2 := scanKey_trace s b0 t0 now lv levels row col (base + col) st st2 hlen
      (by omega) (by omega) h hrun2
    simp only [Keypad_Matrix.colLoop, hrun2] at hrun
    have htr1 := ih (col + 1) st2 st1 (by omega) (by omega)
      (fun c h1 h2 => hlv c (by omega) (by omega)) hinv2 hrun
    rw [htr1, htr2, List.range'_succ, List.filter_cons]
    by_cases hg : guardOpen s.debounce_Time_ now (t0.getD (base + col) 0) = true
    · rw [if_pos hg, if_pos hg, List.map_cons, List.append_assoc]
      rfl
    · rw [if_neg hg, if_neg hg, List.append_nil]

theorem rowReads_withArrays (s : Keypad_Matrix) (b0 t0 : List Nat) (now row : Nat) :
    rowReads (withArrays s b0 t0) now row =
      ((List.range' 0 s.numCols_).filter
        (fun c => guardOpen s.debounce_Time_ now (t0.getD (row * s.numCols_ + c) 0))).map
        (fun c => Event.readColumn (s.colPins_.getD c 0)) := by
  unfold rowReads
  rw [← List.range_eq_range']
  have : (fun col => guardOpen (withArrays s b0 t0).debounce_Time_ now
      (keyTime (withArrays s b0 t0) (row * (withArrays s b0 t0).numCols_ + col))) =
      (fun c => guardOpen s.debounce_Time_ now (t0.getD (row * s.numCols_ + c) 0)) := by
    funext c
    rw [keyTime_withArrays]
    rfl
  rw [this]
  rfl

theorem rowLoop_trace (s : Keypad_Matrix) (b0 t0 : List Nat) (now : Nat)
    (levels : Nat → Nat → Int)
    (hlen : b0.length = (t0.length + 7) / 8) (hfit : t0.length < UINT8_MOD)
    (hcols : s.numCols_ ≤ s.colPins_.length) :
    ∀ (m row : Nat) (st st1 : Keypad_Matrix.ScanState),
      row + m ≤ s.rowPins_.length → (row + m) * s.numCols_ ≤ t0.length →
      ScanInv s b0 t0 now (fun k => levels (k / s.numCols_) (k % s.numCols_))
        (row * s.numCols_) st →
      Keypad_Matrix.rowLoop now levels row m st = some st1 →
      st1.trace = st.trace ++
        (List.range' row m).flatMap
          (fun r => Event.startRow (s.rowPins_.getD r 0) ::
            (rowReads (withArrays s b0 t0) now r ++ [Event.endRow (s.rowPins_.getD r 0)])) := by
  intro m
  induction m with
  | zero =>
    intro row st st1 _ _ _ hrun
    simp only [Keypad_Matrix.rowLoop, Option.some.injEq] at hrun
    rw [← hrun]
    simp
  | succ m ih =>
    intro row st st1 hr hn h hrun
    obtain ⟨hnc, hrp⟩ := ScanInv_self _ _ _ _ _ _ _ h
    have hrow : row < s.rowPins_.length := by omega
    have hmul : (row + (m + 1)) * s.numCols_ = row * s.numCols_ + s.numCols_ +
        m * s.numCols_ := by ring
    have hpin : s.rowPins_.getD row 0 = s.rowPins_[row] := by
      rw [List.getD_eq_getElem?_getD, List.getElem?_eq_getElem hrow]; rfl
    have hlv : ∀ c, 0 ≤ c → c < 0 + s.numCols_ →
        levels row c = (fun k => levels (k / s.numCols_) (k % s.numCols_))
          (row * s.numCols_ + c) := by
      intro c _ hc
      have hc2 : c < s.numCols_ := by omega
      have hpos : 0 < s.numCols_ := by omega
      show levels row c = levels ((row * s.numCols_ + c) / s.numCols_)
        ((row * s.numCols_ + c) % s.numCols_)
      have e1 : (row * s.numCols_ + c) / s.numCols_ = row := by
        rw [Nat.mul_comm, Nat.mul_add_div hpos, Nat.div_eq_of_lt hc2, Nat.add_zero]
      have e2 : (row * s.numCols_ + c) % s.numCols_ = c := by
        rw [Nat.mul_comm, Nat.mul_add_mod, Nat.mod_eq_of_lt hc2]
      rw [e1, e2]
    have h1 := ScanInv_trace _ _ _ _ _ _ _ (Event.startRow s.rowPins_[row]) rfl h
    obtain ⟨st2, hrun2, hinv2⟩ := colLoop_inv s b0 t0 now
      (fun k => levels (k / s.numCols_) (k % s.numCols_)) levels row (row * s.numCols_)
      hlen hfit s.numCols_ 0 _ (by omega) (by omega) hlv h1
    have htr2 := colLoop_trace s b0 t0 now
      (fun k => levels (k / s.numCols_) (k % s.numCols_)) levels row (row * s.numCols_)
      hlen hfit s.numCols_ 0 _ st2 (by omega) (by omega) hlv h1 hrun2
    have h2 := ScanInv_trace _ _ _ _ _ _ _ (Event.endRow s.rowPins_[row]) rfl hinv2
    have e3 : row * s.numCols_ + 0 + s.numCols_ = (row + 1) * s.numCols_ := by ring
    rw [e3] at h2
    simp only [Keypad_Matrix.rowLoop, hrp, hnc, List.getElem?_eq_getElem hrow, hrun2] at hrun
    have htr1 := ih (row + 1) _ st1 (by omega)
      (by have : (row + 1 + m) * s.numCols_ = (row + (m + 1)) * s.numCols_ := by ring
          omega) h2 hrun
    rw [htr1, List.range'_succ, List.flatMap_cons, rowReads_withArrays, hpin]
    simp only [htr2, List.append_assoc, List.cons_append, List.nil_append,
      List.singleton_append]

/-! ## The handler loops -/

theorem keyUpLoop_spec (s : Keypad_Matrix) (b t kc : List Nat) :
    ∀ (n i : Nat), i + n ≤ s.keyMap_.length → (i + n + 7) / 8 ≤ kc.length →
      (i + n + 7) / 8 ≤ b.length →
      Keypad_Matrix.keyUpLoop (withArrays s b t) kc i n =
        some (if s.keyUpHandler_.isSome
          then ((List.range' i n).filter (fun j => bitOf kc j && !bitOf b j)).map
            (fun j => Event.keyUp j (symbolOf s j))
          else []) := by
  intro n
  induction n with
  | zero => intro i _ _ _; simp [Keypad_Matrix.keyUpLoop]
  | succ n ih =>
    intro i hm hk hb
    have hi : i < s.keyMap_.length := by omega
    obtain ⟨c, hc, hcb⟩ := BITTEST_of_lt kc i (by omega)
    obtain ⟨v, hv, hvb⟩ := BITTEST_of_lt b i (by omega)
    have hrest := ih (i + 1) (by omega) (by omega) (by omega)
    have hsym : symbolOf s i = s.keyMap_[i] := by
      unfold symbolOf
      rw [List.getD_eq_getElem?_getD, List.getElem?_eq_getElem hi]; rfl
    rw [List.range'_succ, List.filter_cons, ← hcb, ← hvb]
    cases hh : s.keyUpHandler_ with
    | none =>
      rw [hh] at hrest
      by_cases hc0 : c = 0 <;> by_cases hv0 : v = 0 <;>
        simp [Keypad_Matrix.keyUpLoop, hc, hv, hrest, hh, hc0, hv0]
    | some f =>
      rw [hh] at hrest
      by_cases hc0 : c = 0 <;> by_cases hv0 : v = 0 <;>
        simp [Keypad_Matrix.keyUpLoop, hc, hv, hrest, hh, hc0, hv0, hsym,
          List.getElem?_eq_getElem hi]

theorem keyDownLoop_spec (s : Keypad_Matrix) (b t kc : List Nat) :
    ∀ (n i : Nat), i + n ≤ s.keyMap_.length → (i + n + 7) / 8 ≤ kc.length →
      (i + n + 7) / 8 ≤ b.length →
      Keypad_Matrix.keyDownLoop (withArrays s b t) kc i n =
        some (if s.keyDownHandler_.isSome
          then ((List.range' i n).filter (fun j => bitOf kc j && bitOf b j)).map
            (fun j => Event.keyDown j (symbolOf s j))
          else []) := by
  intro n
  induction n with
  | zero => intro i _ _ _; simp [Keypad_Matrix.keyDownLoop]
  | succ n ih =>
    intro i hm hk hb
    have hi : i < s.keyMap_.length := by omega
    obtain ⟨c, hc, hcb⟩ := BITTEST_of_lt kc i (by omega)
    obtain ⟨v, hv, hvb⟩ := BITTEST_of_lt b i (by omega)
    have hrest := ih (i + 1) (by omega) (by omega) (by omega)
    have hsym : symbolOf s i = s.keyMap_[i] := by
      unfold symbolOf
      rw [List.getD_eq_getElem?_getD, List.getElem?_eq_getElem hi]; rfl
    rw [List.range'_succ, List.filter_cons, ← hcb, ← hvb]
    cases hh : s.keyDownHandler_ with
    | none =>
      rw [hh] at hrest
      by_cases hc0 : c = 0 <;> by_cases hv0 : v = 0 <;>
        simp [Keypad_Matrix.keyDownLoop, hc, hv, hrest, hh, hc0, hv0]
    | some f =>
      rw [hh] at hrest
      by_cases hc0 : c = 0 <;> by_cases hv0 : v = 0 <;>
        simp [Keypad_Matrix.keyDownLoop, hc, hv, hrest, hh, hc0, hv0, hsym,
          List.getElem?_eq_getElem hi]

/-! ## One whole scan -/

theorem initialized_withArrays (s : Keypad_Matrix) (b t : List Nat) :
    initialized (withArrays s b t) =
      (decide (b.length = (s.totalKeys_ + 7) / 8) && decide (t.length = s.totalKeys_)) := by
  simp [initialized, withArrays, CHAR_BIT]

theorem initialized_elim (s : Keypad_Matrix) (h : initialized s = true) :
    ∃ b t, s = withArrays s b t ∧
      b.length = (s.totalKeys_ + 7) / 8 ∧ t.length = s.totalKeys_ := by
  cases s with
  | mk km rp cp nr nc ep tk lks lkt d kd ku sr er rh =>
    cases lks with
    | null => simp [initialized] at h
    | dangling => simp [initialized] at h
    | live b =>
      cases lkt with
      | null => simp [initialized] at h
      | dangling => simp [initialized] at h
      | live t =>
        simp only [initialized, CHAR_BIT, Bool.and_eq_true, decide_eq_true_eq] at h
        exact ⟨b, t, rfl, h.1, h.2⟩

theorem scan_withArrays (s : Keypad_Matrix) (b0 t0 : List Nat) (now : Nat)
    (levels : Nat → Nat → Int)
    (hb0 : b0.length = (s.totalKeys_ + 7) / 8) (ht0 : t0.length = s.totalKeys_)
    (hw : wellFormed s = true) (hh : handlersSet s = true) :
    ∃ b t pre,
      (withArrays s b0 t0).scan now levels =
        some (withArrays s b t, pre ++ upEvents (withArrays s b0 t0) now levels ++
          downEvents (withArrays s b0 t0) now levels) ∧
      b.length = b0.length ∧ t.length = t0.length ∧
      (∀ j, j < s.totalKeys_ → bitOf b j = keyNextFlag (withArrays s b0 t0) now levels j) ∧
      (∀ j, j < s.totalKeys_ → t.getD j 0 = keyNextTime (withArrays s b0 t0) now levels j) ∧
      (∀ e ∈ pre, e.isKey = false) ∧
      pre = scanTrace (withArrays s b0 t0) now := by
  simp only [wellFormed, Bool.and_eq_true, decide_eq_true_eq] at hw
  obtain ⟨⟨⟨⟨hfit, htk⟩, hrows⟩, hcols⟩, hkm⟩ := hw
  simp only [handlersSet, Bool.and_eq_true, Option.isSome_iff_exists] at hh
  obtain ⟨⟨⟨f1, hf1⟩, ⟨f2, hf2⟩⟩, ⟨f3, hf3⟩⟩ := hh
  have hlen : b0.length = (t0.length + 7) / 8 := by rw [hb0, ht0]
  have hfit2 : t0.length < UINT8_MOD := by rw [ht0, htk]; exact hfit
  have hinv0 : ScanInv s b0 t0 now (fun k => levels (k / s.numCols_) (k % s.numCols_))
      (0 * s.numCols_)
      ⟨withArrays s b0 t0, 0, List.replicate ((s.totalKeys_ + CHAR_BIT - 1) / CHAR_BIT) 0,
        false, []⟩ := by
    refine ⟨b0, t0, List.replicate ((s.totalKeys_ + CHAR_BIT - 1) / CHAR_BIT) 0, false, [],
      ?_, rfl, rfl, ?_, ?_, ?_, ?_, ?_, ?_⟩
    · rw [Nat.zero_mul]
    · simp [CHAR_BIT, hb0]
    · intro j; simp
    · intro j; simp
    · intro j; rw [bitOf_replicate_zero]; simp
    · intro _ j; exact bitOf_replicate_zero _ _
    · intro e he; cases he
  obtain ⟨st1, hrun, hinv⟩ := rowLoop_inv s b0 t0 now levels hlen hfit2 hcols s.numRows_ 0 _
    (by omega) (by rw [Nat.zero_add, ht0, htk]) hinv0
  have htrace := rowLoop_trace s b0 t0 now levels hlen hfit2 hcols s.numRows_ 0 _ st1
    (by omega) (by rw [Nat.zero_add, ht0, htk]) hinv0 hrun
  obtain ⟨b, t, kc, ch, tr, rfl, h1, h2, h3, h4, h5, h6, h7, h8⟩ := hinv
  have htr : tr = scanTrace (withArrays s b0 t0) now := by
    have e : tr = [] ++ (List.range' 0 s.numRows_).flatMap
        (fun r => Event.startRow (s.rowPins_.getD r 0) ::
          (rowReads (withArrays s b0 t0) now r ++ [Event.endRow (s.rowPins_.getD r 0)])) :=
      htrace
    rw [e, List.nil_append, ← List.range_eq_range']
    rfl
  rw [Nat.zero_add, ← htk] at h4 h5 h6
  have hflag : ∀ j, j < s.totalKeys_ →
      bitOf b j = keyNextFlag (withArrays s b0 t0) now levels j := by
    intro j hj
    rw [h4 j, if_pos hj]
    simp only [keyNextFlag, keyTime_withArrays, keyFlag_withArrays, levelOf,
      debounce_withArrays, numCols_withArrays]
  have htime : ∀ j, j < s.totalKeys_ →
      t.getD j 0 = keyNextTime (withArrays s b0 t0) now levels j := by
    intro j hj
    rw [h5 j, if_pos hj]
    simp only [keyNextTime, keyTime_withArrays, keyFlag_withArrays, levelOf,
      debounce_withArrays, numCols_withArrays]
  have hchg : ∀ j, j < s.totalKeys_ →
      bitOf kc j = keyFlips (withArrays s b0 t0) now levels j := by
    intro j hj
    rw [h6 j]
    simp only [keyFlips, keyTime_withArrays, keyFlag_withArrays, levelOf,
      debounce_withArrays, numCols_withArrays, hj, decide_True, Bool.true_and]
  have hup : ((List.range' 0 s.totalKeys_).filter (fun j => bitOf kc j && !bitOf b j)) =
      (List.range s.totalKeys_).filter (fun k => keyFlips (withArrays s b0 t0) now levels k &&
        !keyNextFlag (withArrays s b0 t0) now levels k) := by
    rw [← List.range_eq_range']
    apply List.filter_congr
    intro j hj
    have hj2 := List.mem_range.1 hj
    rw [hchg j hj2, hflag j hj2]
  have hdown : ((List.range' 0 s.totalKeys_).filter (fun j => bitOf kc j && bitOf b j)) =
      (List.range s.totalKeys_).filter (fun k => keyFlips (withArrays s b0 t0) now levels k &&
        keyNextFlag (withArrays s b0 t0) now levels k) := by
    rw [← List.range_eq_range']
    apply List.filter_congr
    intro j hj
    have hj2 := List.mem_range.1 hj
    rw [hchg j hj2, hflag j hj2]
  have hU := keyUpLoop_spec s b t kc s.totalKeys_ 0 (by omega) (by omega) (by omega)
  have hD := keyDownLoop_spec s b t kc s.totalKeys_ 0 (by omega) (by omega) (by omega)
  rw [hup] at hU
  rw [hdown] at hD
  have hUe : (if s.keyUpHandler_.isSome then
      ((List.range s.totalKeys_).filter (fun k => keyFlips (withArrays s b0 t0) now levels k &&
        !keyNextFlag (withArrays s b0 t0) now levels k)).map
        (fun j => Event.keyUp j (symbolOf s j)) else []) =
      upEvents (withArrays s b0 t0) now levels := rfl
  have hDe : (if s.keyDownHandler_.isSome then
      ((List.range s.totalKeys_).filter (fun k => keyFlips (withArrays s b0 t0) now levels k &&
        keyNextFlag (withArrays s b0 t0) now levels k)).map
        (fun j => Event.keyDown j (symbolOf s j)) else []) =
      downEvents (withArrays s b0 t0) now levels := rfl
  rw [hUe] at hU
  rw [hDe] at hD
  refine ⟨b, t, tr, ?_, h1, h2, hflag, htime, h8, htr⟩
  have hguard : ¬ (((withArrays s b0 t0).lastKeySetting_.isNull = true) ∨
      (withArrays s b0 t0).startRowHandler_ = none ∨
      (withArrays s b0 t0).endRowHandler_ = none ∨
      (withArrays s b0 t0).readHandler_ = none) := by
    simp [withArrays, Ptr.isNull, hf1, hf2, hf3]
  unfold Keypad_Matrix.scan
  rw [if_neg hguard]
  simp only [numRows_withArrays, totalKeys_withArrays, hrun]
  cases ch with
  | true =>
    simp only [if_true, hU, hD]
  | false =>
    have hno : ∀ j, j < s.totalKeys_ → keyFlips (withArrays s b0 t0) now levels j = false := by
      intro j hj
      rw [← hchg j hj]; exact h7 rfl j
    have hU0 : upEvents (withArrays s b0 t0) now levels = [] := by
      unfold upEvents
      split
      · rw [List.map_eq_nil_iff, List.filter_eq_nil_iff]
        intro j hj
        rw [hno j (List.mem_range.1 hj)]; simp
      · rfl
    have hD0 : downEvents (withArrays s b0 t0) now levels = [] := by
      unfold downEvents
      split
      · rw [List.map_eq_nil_iff, List.filter_eq_nil_iff]
        intro j hj
        rw [hno j (List.mem_range.1 hj)]; simp
      · rfl
    rw [hU0, hD0]
    simp

/-- What one scan of an initialised scanner does: it returns, the flag and the time
of every key are the ones `keyNextFlag` and `keyNextTime` give, and the handler
calls are those of the scanning loops followed by the key-ups and the key-downs. -/
theorem scan_spec (s : Keypad_Matrix) (now : Nat) (levels : Nat → Nat → Int)
    (hi : initialized s = true) (hw : wellFormed s = true) (hh : handlersSet s = true) :
    ∃ s1 pre,
      s.scan now levels = some (s1, pre ++ upEvents s now levels ++ downEvents s now levels) ∧
      (∃ b t, s1 = withArrays s b t) ∧ initialized s1 = true ∧
      (∀ j, j < s.totalKeys_ → keyFlag s1 j = keyNextFlag s now levels j) ∧
      (∀ j, j < s.totalKeys_ → keyTime s1 j = keyNextTime s now levels j) ∧
      (∀ e ∈ pre, e.isKey = false) := by
  obtain ⟨b0, t0, hs, hb0, ht0⟩ := initialized_elim s hi
  obtain ⟨b, t, pre, hrun, hb, ht, hflag, htime, hpre, _⟩ :=
    scan_withArrays s b0 t0 now levels hb0 ht0 hw hh
  rw [← hs] at hrun hflag htime
  refine ⟨withArrays s b t, pre, hrun, ⟨b, t, rfl⟩, ?_, ?_, ?_, hpre⟩
  · rw [initialized_withArrays, hb, ht, hb0, ht0]; simp
  · intro j hj; rw [keyFlag_withArrays]; exact hflag j hj
  · intro j hj; rw [keyTime_withArrays]; exact htime j hj

/-- Without one of its three handlers `scan` returns at once. -/
theorem scan_idle (s : Keypad_Matrix) (now : Nat) (levels : Nat → Nat → Int)
    (hh : handlersSet s = false) : s.scan now levels = some (s, []) := by
  unfold Keypad_Matrix.scan
  have : s.startRowHandler_ = none ∨ s.endRowHandler_ = none ∨ s.readHandler_ = none := by
    unfold handlersSet at hh
    cases h1 : s.startRowHandler_ with
    | none => exact Or.inl rfl
    | some f1 =>
      cases h2 : s.endRowHandler_ with
      | none => exact Or.inr (Or.inl rfl)
      | some f2 =>
        cases h3 : s.readHandler_ with
        | none => exact Or.inr (Or.inr rfl)
        | some f3 => rw [h1, h2, h3] at hh; cases hh
  rw [if_pos (Or.inr this)]

/-- The whole trace of one scan of an initialised scanner: the calls of the scanning
loops, then the key-ups, then the key-downs. -/
theorem scan_trace_spec (s : Keypad_Matrix) (now : Nat) (levels : Nat → Nat → Int)
    (hi : initialized s = true) (hw : wellFormed s = true) (hh : handlersSet s = true) :
    ∃ s1, s.scan now levels =
      some (s1, scanTrace s now ++ upEvents s now levels ++ downEvents s now levels) := by
  obtain ⟨b0, t0, hs, hb0, ht0⟩ := initialized_elim s hi
  obtain ⟨b, t, pre, hrun, _, _, _, _, _, hpre⟩ :=
    scan_withArrays s b0 t0 now levels hb0 ht0 hw hh
  rw [hpre, ← hs] at hrun
  exact ⟨withArrays s b t, hrun⟩

/-! ## Calls of the key handlers -/

theorem filter_nonKey (k : Nat) (l : List Event) (h : ∀ e ∈ l, e.isKey = false) :
    l.filter (Event.isKeyOf k) = [] := by
  rw [List.filter_eq_nil_iff]
  intro e he
  simp [Event.isKeyOf, h e he]

theorem filter_isKey_nonKey (l : List Event) (h : ∀ e ∈ l, e.isKey = false) :
    l.filter Event.isKey = [] := by
  rw [List.filter_eq_nil_iff]
  intro e he
  simp [h e he]

theorem filter_range_eq (p : Nat → Bool) (k : Nat) :
    ∀ n, (List.range n).filter (fun j => p j && j == k) =
      if k < n ∧ p k = true then [k] else [] := by
  intro n
  induction n with
  | zero => simp
  | succ n ih =>
    rw [List.range_succ, List.filter_append, ih]
    by_cases hk : k < n
    · by_cases hp : p k = true
      · have hne : ¬ n = k := by omega
        simp [hk, hp, hne, Nat.lt_succ_of_lt hk]
      · have hne : ¬ n = k := by omega
        simp [hp, hne]
    · by_cases hn : n = k
      · subst hn
        by_cases hp : p n = true
        · simp [hp]
        · simp [hp]
      · have : ¬ k < n + 1 := by omega
        simp [hk, hn, this]

theorem upEvents_filter (s : Keypad_Matrix) (now : Nat) (levels : Nat → Nat → Int) (k : Nat) :
    (upEvents s now levels).filter (Event.isKeyOf k) =
      if s.keyUpHandler_.isSome = true ∧ k < s.totalKeys_ ∧
          (keyFlips s now levels k && !keyNextFlag s now levels k) = true
      then [Event.keyUp k (symbolOf s k)] else [] := by
  unfold upEvents
  by_cases hh : s.keyUpHandler_.isSome = true
  · rw [if_pos hh, List.filter_map, List.filter_filter]
    have : (fun a => (Event.isKeyOf k ∘ fun k => Event.keyUp k (symbolOf s k)) a &&
        (keyFlips s now levels a && !keyNextFlag s now levels a)) =
        (fun j => (keyFlips s now levels j && !keyNextFlag s now levels j) && j == k) := by
      funext a
      simp only [Function.comp, Event.isKeyOf, Event.isKey, Event.key, Bool.true_and]
      rw [Bool.and_comm]
    rw [this, filter_range_eq]
    by_cases hc : k < s.totalKeys_ ∧
        (keyFlips s now levels k && !keyNextFlag s now levels k) = true
    · rw [if_pos hc, if_pos ⟨hh, hc⟩]; rfl
    · rw [if_neg hc, if_neg (fun h => hc h.2)]; rfl
  · rw [if_neg hh, if_neg (fun h => hh h.1)]; rfl

theorem downEvents_filter (s : Keypad_Matrix) (now : Nat) (levels : Nat → Nat → Int)
    (k : Nat) :
    (downEvents s now levels).filter (Event.isKeyOf k) =
      if s.keyDownHandler_.isSome = true ∧ k < s.totalKeys_ ∧
          (keyFlips s now levels k && keyNextFlag s now levels k) = true
      then [Event.keyDown k (symbolOf s k)] else [] := by
  unfold downEvents
  by_cases hh : s.keyDownHandler_.isSome = true
  · rw [if_pos hh, List.filter_map, List.filter_filter]
    have : (fun a => (Event.isKeyOf k ∘ fun k => Event.keyDown k (symbolOf s k)) a &&
        (keyFlips s now levels a && keyNextFlag s now levels a)) =
        (fun j => (keyFlips s now levels j && keyNextFlag s now levels j) && j == k) := by
      funext a
      simp only [Function.comp, Event.isKeyOf, Event.isKey, Event.key, Bool.true_and]
      rw [Bool.and_comm]
    rw [this, filter_range_eq]
    by_cases hc : k < s.totalKeys_ ∧
        (keyFlips s now levels k && keyNextFlag s now levels k) = true
    · rw [if_pos hc, if_pos ⟨hh, hc⟩]; rfl
    · rw [if_neg hc, if_neg (fun h => hc h.2)]; rfl
  · rw [if_neg hh, if_neg (fun h => hh h.1)]; rfl

theorem upEvents_isKeyUp (s : Keypad_Matrix) (now : Nat) (levels : Nat → Nat → Int) :
    ∀ e ∈ upEvents s now levels, e.isKeyUp = true := by
  intro e he
  unfold upEvents at he
  split at he
  · obtain ⟨j, _, rfl⟩ := List.mem_map.1 he
    rfl
  · cases he

theorem downEvents_isKeyDown (s : Keypad_Matrix) (now : Nat) (levels : Nat → Nat → Int) :
    ∀ e ∈ downEvents s now levels, e.isKeyDown = true := by
  intro e he
  unfold downEvents at he
  split at he
  · obtain ⟨j, _, rfl⟩ := List.mem_map.1 he
    rfl
  · cases he

theorem upEvents_sorted (s : Keypad_Matrix) (now : Nat) (levels : Nat → Nat → Int) :
    ((upEvents s now levels).map Event.key).Pairwise (· < ·) := by
  unfold upEvents
  split
  · rw [List.map_map]
    have : (Event.key ∘ fun k => Event.keyUp k (symbolOf s k)) = id := by
      funext k; rfl
    rw [this, List.map_id]
    exact List.Pairwise.sublist (List.filter_sublist _) (List.pairwise_lt_range _)
  · exact List.Pairwise.nil

theorem downEvents_sorted (s : Keypad_Matrix) (now : Nat) (levels : Nat → Nat → Int) :
    ((downEvents s now levels).map Event.key).Pairwise (· < ·) := by
  unfold downEvents
  split
  · rw [List.map_map]
    have : (Event.key ∘ fun k => Event.keyDown k (symbolOf s k)) = id := by
      funext k; rfl
    rw [this, List.map_id]
    exact List.Pairwise.sublist (List.filter_sublist _) (List.pairwise_lt_range _)
  · exact List.Pairwise.nil

/-! ## The ordering contract -/

/-- C1: one call of `scan` on an initialised scanner (arrays allocated by `begin`,
constructor arguments fitting together), at any clock value and with any column
levels, returns, and the handler calls
it makes are those of the scanning loops (no key handler among them), followed by
calls of the key-up handler only, followed by calls of the key-down handler only;
the key-up calls and the key-down calls are each made in strictly increasing order
of key index. No key-up call therefore comes after a key-down call. -/
theorem scan_keyUps_before_keyDowns (s : Keypad_Matrix) (now : Nat)
    (levels : Nat → Nat → Int) (hi : initialized s = true) (hw : wellFormed s = true) :
    ∃ s1 pre ups downs,
      s.scan now levels = some (s1, pre ++ ups ++ downs) ∧
      (∀ e ∈ pre, e.isKey = false) ∧
      (∀ e ∈ ups, e.isKeyUp = true) ∧
      (∀ e ∈ downs, e.isKeyDown = true) ∧
      (ups.map Event.key).Pairwise (· < ·) ∧
      (downs.map Event.key).Pairwise (· < ·) := by
  cases hh : handlersSet s with
  | false =>
    refine ⟨s, [], [], [], ?_, ?_, ?_, ?_, List.Pairwise.nil, List.Pairwise.nil⟩
    · exact scan_idle s now levels hh
    · intro e he; cases he
    · intro e he; cases he
    · intro e he; cases he
  | true =>
    obtain ⟨s1, pre, hrun, _, _, _, _, hpre⟩ := scan_spec s now levels hi hw hh
    exact ⟨s1, pre, upEvents s now levels, downEvents s now levels, hrun, hpre,
      upEvents_isKeyUp s now levels, downEvents_isKeyDown s now levels,
      upEvents_sorted s now levels, downEvents_sorted s now levels⟩

/-- Witness of C1 on the 2x2 keypad: in one scan the key at index 3 is released and
the key at index 0 is pressed; the key-up call for index 3 comes before the
key-down call for index 0. -/
theorem scan_keyUps_before_keyDowns_witness :
    (initialized keypad2x2 = true ∧ wellFormed keypad2x2 = true) ∧
    (∃ s1 pre ups downs,
      keypad2x2.scan 50 onlyKey0 = some (s1, pre ++ ups ++ downs) ∧
      (∀ e ∈ pre, e.isKey = false) ∧
      (∀ e ∈ ups, e.isKeyUp = true) ∧
      (∀ e ∈ downs, e.isKeyDown = true) ∧
      (ups.map Event.key).Pairwise (· < ·) ∧
      (downs.map Event.key).Pairwise (· < ·)) ∧
    (keypad2x2.scan 50 onlyKey0).map (fun r => r.2.filter Event.isKey) =
      some [Event.keyUp 3 '4', Event.keyDown 0 '1'] :=
  ⟨⟨by decide, by decide⟩,
   scan_keyUps_before_keyDowns keypad2x2 50 onlyKey0 (by decide) (by decide),
   by decide⟩

/-! ## The debounce guard and the state update -/

theorem flips_eq (d now t : Nat) (f : Bool) (level : Int) :
    flips d now t f level = (nextFlag d now t f level != f) := by
  unfold flips nextFlag
  cases guardOpen d now t <;> simp

theorem guardOpen_false (d now t : Nat) (h : ulongSub now t < d) : guardOpen d now t = false := by
  unfold guardOpen
  simp only [ge_iff_le, decide_eq_false_iff_not, Nat.not_le]
  exact h

theorem guardOpen_true (d now t : Nat) (h : d ≤ ulongSub now t) : guardOpen d now t = true := by
  unfold guardOpen
  simp only [ge_iff_le, decide_eq_true_eq]
  exact h

theorem keyFlips_closed (s : Keypad_Matrix) (now : Nat) (levels : Nat → Nat → Int) (k : Nat)
    (hg : ulongSub now (keyTime s k) < s.debounce_Time_) :
    keyFlips s now levels k = false ∧ keyNextFlag s now levels k = keyFlag s k ∧
      keyNextTime s now levels k = keyTime s k := by
  have h := guardOpen_false _ _ _ hg
  simp [keyFlips, keyNextFlag, keyNextTime, flips, nextFlag, nextTime, h]

/-- The handler calls one scan makes for key `k`. -/
theorem scan_events_of_key (s : Keypad_Matrix) (now : Nat) (levels : Nat → Nat → Int)
    (k : Nat) (hi : initialized s = true) (hw : wellFormed s = true)
    (hh : handlersSet s = true) (hk : k < s.totalKeys_) :
    ∃ s1 tr, s.scan now levels = some (s1, tr) ∧
      (∃ b t, s1 = withArrays s b t) ∧ initialized s1 = true ∧
      keyFlag s1 k = keyNextFlag s now levels k ∧
      keyTime s1 k = keyNextTime s now levels k ∧
      tr.filter (Event.isKeyOf k) =
        (if s.keyUpHandler_.isSome = true ∧
            (keyFlips s now levels k && !keyNextFlag s now levels k) = true
          then [Event.keyUp k (symbolOf s k)] else []) ++
        (if s.keyDownHandler_.isSome = true ∧
            (keyFlips s now levels k && keyNextFlag s now levels k) = true
          then [Event.keyDown k (symbolOf s k)] else []) := by
  obtain ⟨s1, pre, hrun, hs1, hi1, hflag, htime, hpre⟩ := scan_spec s now levels hi hw hh
  refine ⟨s1, _, hrun, hs1, hi1, hflag k hk, htime k hk, ?_⟩
  rw [List.filter_append, List.filter_append, filter_nonKey k pre hpre, upEvents_filter,
    downEvents_filter, List.nil_append]
  simp only [hk, true_and]

/-- C2: on an initialised scanner (arrays allocated by `begin`, constructor
arguments fitting together), a scan whose clock value `now` is less than the
debounce interval after the recorded transition time of key `k` (in `unsigned long`
arithmetic, `now - T < d`; this is so for `now = T + d - 1` when `d >= 1`) returns,
leaves the flag and the time of `k` unchanged and calls no key handler for `k`,
whatever level the column of `k` is at. -/
theorem scan_debounce_guard (s : Keypad_Matrix) (now : Nat) (levels : Nat → Nat → Int)
    (k : Nat) (hi : initialized s = true) (hw : wellFormed s = true)
    (hk : k < s.totalKeys_) (hg : ulongSub now (keyTime s k) < s.debounce_Time_) :
    ∃ s1 tr, s.scan now levels = some (s1, tr) ∧
      keyFlag s1 k = keyFlag s k ∧ keyTime s1 k = keyTime s k ∧
      tr.filter (Event.isKeyOf k) = [] := by
  cases hh : handlersSet s with
  | false => exact ⟨s, [], scan_idle s now levels hh, rfl, rfl, rfl⟩
  | true =>
    obtain ⟨s1, tr, hrun, _, _, hflag, htime, hev⟩ :=
      scan_events_of_key s now levels k hi hw hh hk
    obtain ⟨h1, h2, h3⟩ := keyFlips_closed s now levels k hg
    refine ⟨s1, tr, hrun, by rw [hflag, h2], by rw [htime, h3], ?_⟩
    rw [hev, h1]
    simp

/-- Witness of C2 on the 1x1 keypad (debounce interval 10, the key up since time 0):
at clock value `0 + 10 - 1` the column reads pressed and is ignored. -/
theorem scan_debounce_guard_witness :
    (initialized keypadAReady = true ∧ wellFormed keypadAReady = true ∧
      0 < keypadAReady.totalKeys_ ∧
      ulongSub (0 + 10 - 1) (keyTime keypadAReady 0) < keypadAReady.debounce_Time_ ∧
      pressed (levelOf keypadAReady allPressed 0) ≠ keyFlag keypadAReady 0) ∧
    ∃ s1 tr, keypadAReady.scan (0 + 10 - 1) allPressed = some (s1, tr) ∧
      keyFlag s1 0 = keyFlag keypadAReady 0 ∧ keyTime s1 0 = keyTime keypadAReady 0 ∧
      tr.filter (Event.isKeyOf 0) = [] :=
  ⟨⟨by decide, by decide, by decide, by decide, by decide⟩,
   scan_debounce_guard keypadAReady (0 + 10 - 1) allPressed 0 (by decide) (by decide)
     (by decide) (by decide)⟩

/-- C6: a scan of an initialised scanner (arrays allocated by `begin`, constructor
arguments fitting together) with its three handlers set returns, and for
every key `k`: when the guard passes (`now - lastTime[k] >= debounce`) the flag of
`k` becomes the sampled state of its column (pressed exactly when the read handler
returned `LOW`), and its time becomes `now` if the flag changed and is unchanged
otherwise; when the guard does not pass, flag and time are unchanged. -/
theorem scan_state_update (s : Keypad_Matrix) (now : Nat) (levels : Nat → Nat → Int)
    (hi : initialized s = true) (hw : wellFormed s = true) (hh : handlersSet s = true) :
    ∃ s1 tr, s.scan now levels = some (s1, tr) ∧
      ∀ k, k < s.totalKeys_ →
        (s.debounce_Time_ ≤ ulongSub now (keyTime s k) →
          keyFlag s1 k = decide (levels (k / s.numCols_) (k % s.numCols_) = LOW) ∧
          keyTime s1 k = if keyFlag s1 k = keyFlag s k then keyTime s k else now) ∧
        (ulongSub now (keyTime s k) < s.debounce_Time_ →
          keyFlag s1 k = keyFlag s k ∧ keyTime s1 k = keyTime s k) := by
  obtain ⟨s1, pre, hrun, _, _, hflag, htime, _⟩ := scan_spec s now levels hi hw hh
  refine ⟨s1, _, hrun, ?_⟩
  intro k hk
  constructor
  · intro hg
    have hgo := guardOpen_true _ _ _ hg
    have hf : keyFlag s1 k = decide (levels (k / s.numCols_) (k % s.numCols_) = LOW) := by
      rw [hflag k hk]
      simp [keyNextFlag, nextFlag, hgo, pressed, levelOf]
    refine ⟨hf, ?_⟩
    rw [htime k hk]
    unfold keyNextTime nextTime
    rw [flips_eq]
    have : nextFlag s.debounce_Time_ now (keyTime s k) (keyFlag s k) (levelOf s levels k) =
        keyFlag s1 k := (hflag k hk).symm
    rw [this]
    by_cases he : keyFlag s1 k = keyFlag s k
    · simp [he]
    · simp [he]
  · intro hg
    obtain ⟨_, h2, h3⟩ := keyFlips_closed s now levels k hg
    exact ⟨by rw [hflag k hk, h2], by rw [htime k hk, h3]⟩

/-- Witness of C6 on the 2x2 keypad at clock value 50. -/
theorem scan_state_update_witness :
    (initialized keypad2x2 = true ∧ wellFormed keypad2x2 = true ∧
      handlersSet keypad2x2 = true) ∧
    ∃ s1 tr, keypad2x2.scan 50 onlyKey0 = some (s1, tr) ∧
      ∀ k, k < keypad2x2.totalKeys_ →
        (keypad2x2.debounce_Time_ ≤ ulongSub 50 (keyTime keypad2x2 k) →
          keyFlag s1 k =
            decide (onlyKey0 (k / keypad2x2.numCols_) (k % keypad2x2.numCols_) = LOW) ∧
          keyTime s1 k =
            if keyFlag s1 k = keyFlag keypad2x2 k then keyTime keypad2x2 k else 50) ∧
        (ulongSub 50 (keyTime keypad2x2 k) < keypad2x2.debounce_Time_ →
          keyFlag s1 k = keyFlag keypad2x2 k ∧ keyTime s1 k = keyTime keypad2x2 k) :=
  ⟨⟨by decide, by decide, by decide⟩,
   scan_state_update keypad2x2 50 onlyKey0 (by decide) (by decide) (by decide)⟩

/-! ## Which handlers are called -/

theorem upEvents_filter_isKey (s : Keypad_Matrix) (now : Nat) (levels : Nat → Nat → Int) :
    (upEvents s now levels).filter Event.isKey = upEvents s now levels := by
  rw [List.filter_eq_self]
  intro e he
  have := upEvents_isKeyUp s now levels e he
  cases e <;> first | rfl | simp [Event.isKeyUp] at this

theorem downEvents_filter_isKey (s : Keypad_Matrix) (now : Nat) (levels : Nat → Nat → Int) :
    (downEvents s now levels).filter Event.isKey = downEvents s now levels := by
  rw [List.filter_eq_self]
  intro e he
  have := downEvents_isKeyDown s now levels e he
  cases e <;> first | rfl | simp [Event.isKeyDown] at this

/-- C4: one scan of an initialised scanner (arrays allocated by `begin`, constructor
arguments fitting together) returns, and its calls of key handlers
are exactly these, in this order: for every key index `i` (in increasing order)
whose stored flag the scan changed and which is now up, one call of the key-up
handler with `keyMap_ [i]`, if a key-up handler is registered; then for every key
index `i` (in increasing order) whose stored flag the scan changed and which is now
down, one call of the key-down handler with `keyMap_ [i]`, if a key-down handler is
registered. A key whose flag did not change gets no call. -/
theorem scan_callbacks_iff_changed (s : Keypad_Matrix) (now : Nat)
    (levels : Nat → Nat → Int) (hi : initialized s = true) (hw : wellFormed s = true) :
    ∃ s1 tr, s.scan now levels = some (s1, tr) ∧
      tr.filter Event.isKey =
        (if s.keyUpHandler_.isSome then
          ((List.range s.totalKeys_).filter
            (fun i => (keyFlag s1 i != keyFlag s i) && !keyFlag s1 i)).map
            (fun i => Event.keyUp i (symbolOf s i))
         else []) ++
        (if s.keyDownHandler_.isSome then
          ((List.range s.totalKeys_).filter
            (fun i => (keyFlag s1 i != keyFlag s i) && keyFlag s1 i)).map
            (fun i => Event.keyDown i (symbolOf s i))
         else []) := by
  cases hh : handlersSet s with
  | false =>
    refine ⟨s, [], scan_idle s now levels hh, ?_⟩
    have h1 : (List.range s.totalKeys_).filter
        (fun i => (keyFlag s i != keyFlag s i) && !keyFlag s i) = [] := by
      rw [List.filter_eq_nil_iff]; intro i _; simp
    have h2 : (List.range s.totalKeys_).filter
        (fun i => (keyFlag s i != keyFlag s i) && keyFlag s i) = [] := by
      rw [List.filter_eq_nil_iff]; intro i _; simp
    rw [h1, h2]
    simp
  | true =>
    obtain ⟨s1, pre, hrun, _, _, hflag, _, hpre⟩ := scan_spec s now levels hi hw hh
    refine ⟨s1, _, hrun, ?_⟩
    rw [List.filter_append, List.filter_append, filter_isKey_nonKey pre hpre,
      upEvents_filter_isKey, downEvents_filter_isKey, List.nil_append]
    have h1 : (List.range s.totalKeys_).filter
        (fun i => (keyFlag s1 i != keyFlag s i) && !keyFlag s1 i) =
        (List.range s.totalKeys_).filter
          (fun k => keyFlips s now levels k && !keyNextFlag s now levels k) := by
      apply List.filter_congr
      intro i hi2
      have hlt := List.mem_range.1 hi2
      rw [hflag i hlt]
      simp only [keyFlips, keyNextFlag, flips_eq]
    have h2 : (List.range s.totalKeys_).filter
        (fun i => (keyFlag s1 i != keyFlag s i) && keyFlag s1 i) =
        (List.range s.totalKeys_).filter
          (fun k => keyFlips s now levels k && keyNextFlag s now levels k) := by
      apply List.filter_congr
      intro i hi2
      have hlt := List.mem_range.1 hi2
      rw [hflag i hlt]
      simp only [keyFlips, keyNextFlag, flips_eq]
    rw [h1, h2]
    rfl

/-- Witness of C4 on the 2x2 keypad: key 3 is released and key 0 is pressed. -/
theorem scan_callbacks_iff_changed_witness :
    (initialized keypad2x2 = true ∧ wellFormed keypad2x2 = true) ∧
    ∃ s1 tr, keypad2x2.scan 50 onlyKey0 = some (s1, tr) ∧
      tr.filter Event.isKey =
        (if keypad2x2.keyUpHandler_.isSome then
          ((List.range keypad2x2.totalKeys_).filter
            (fun i => (keyFlag s1 i != keyFlag keypad2x2 i) && !keyFlag s1 i)).map
            (fun i => Event.keyUp i (symbolOf keypad2x2 i))
         else []) ++
        (if keypad2x2.keyDownHandler_.isSome then
          ((List.range keypad2x2.totalKeys_).filter
            (fun i => (keyFlag s1 i != keyFlag keypad2x2 i) && keyFlag s1 i)).map
            (fun i => Event.keyDown i (symbolOf keypad2x2 i))
         else []) :=
  ⟨⟨by decide, by decide⟩,
   scan_callbacks_iff_changed keypad2x2 50 onlyKey0 (by decide) (by decide)⟩

/-! ## A key held down over several scans -/

theorem ulongSub_of_le (a b : Nat) (hab : b ≤ a) (ha : a < ULONG_MOD) : ulongSub a b = a - b := by
  unfold ulongSub
  have hb : b < ULONG_MOD := by omega
  rw [Nat.mod_eq_of_lt ha, Nat.mod_eq_of_lt hb]
  have : a + (ULONG_MOD - b) = (a - b) + ULONG_MOD := by omega
  rw [this, Nat.add_mod_right, Nat.mod_eq_of_lt (by omega)]

theorem scanAll_held_down (k : Nat) :
    ∀ (scans : List (Nat × (Nat → Nat → Int))) (s : Keypad_Matrix),
      initialized s = true → wellFormed s = true → handlersSet s = true →
      k < s.totalKeys_ → keyFlag s k = true →
      (∀ p ∈ scans, p.2 (k / s.numCols_) (k % s.numCols_) = LOW) →
      ∃ s1 tr, scanAll s scans = some (s1, tr) ∧ tr.filter (Event.isKeyOf k) = [] := by
  intro scans
  induction scans with
  | nil => intro s _ _ _ _ _ _; exact ⟨s, [], rfl, rfl⟩
  | cons p rest ih =>
    intro s hi hw hh hk hf hlow
    obtain ⟨now, levels⟩ := p
    obtain ⟨s1, tr, hrun, ⟨b, t, hs1⟩, hi1, hflag, _, hev⟩ :=
      scan_events_of_key s now levels k hi hw hh hk
    have hl : levels (k / s.numCols_) (k % s.numCols_) = LOW :=
      hlow (now, levels) (List.mem_cons_self _ _)
    have hnext : keyNextFlag s now levels k = true := by
      unfold keyNextFlag nextFlag levelOf
      rw [hl, hf]
      cases guardOpen s.debounce_Time_ now (keyTime s k) <;> simp [pressed]
    have hfl : keyFlips s now levels k = false := by
      unfold keyFlips
      rw [flips_eq]
      have : nextFlag s.debounce_Time_ now (keyTime s k) (keyFlag s k) (levelOf s levels k) =
          true := hnext
      rw [this, hf]; rfl
    rw [hfl] at hev
    have hev2 : tr.filter (Event.isKeyOf k) = [] := by rw [hev]; simp
    have hw1 : wellFormed s1 = true := by rw [hs1]; exact hw
    have hh1 : handlersSet s1 = true := by rw [hs1]; exact hh
    have hk1 : k < s1.totalKeys_ := by rw [hs1]; exact hk
    have hnc : s1.numCols_ = s.numCols_ := by rw [hs1]; rfl
    obtain ⟨s2, tr2, hrun2, hev3⟩ := ih s1 hi1 hw1 hh1 hk1 (by rw [hflag, hnext])
      (fun q hq => by rw [hnc]; exact hlow q (List.mem_cons_of_mem _ hq))
    refine ⟨s2, tr ++ tr2, ?_, ?_⟩
    · simp only [scanAll, hrun, hrun2]
    · rw [List.filter_append, hev2, hev3]; rfl

theorem scanAll_pressed_once (k : Nat) :
    ∀ (scans : List (Nat × (Nat → Nat → Int))) (s : Keypad_Matrix),
      initialized s = true → wellFormed s = true → handlersSet s = true →
      s.keyDownHandler_.isSome = true →
      k < s.totalKeys_ → keyFlag s k = false →
      (∀ p ∈ scans, p.2 (k / s.numCols_) (k % s.numCols_) = LOW) →
      (∃ p ∈ scans, s.debounce_Time_ ≤ ulongSub p.1 (keyTime s k)) →
      ∃ s1 tr, scanAll s scans = some (s1, tr) ∧
        tr.filter (Event.isKeyOf k) = [Event.keyDown k (symbolOf s k)] := by
  intro scans
  induction scans with
  | nil =>
    intro s _ _ _ _ _ _ _ hex
    obtain ⟨p, hp, _⟩ := hex
    cases hp
  | cons p rest ih =>
    intro s hi hw hh hd hk hf hlow hex
    obtain ⟨now, levels⟩ := p
    obtain ⟨s1, tr, hrun, ⟨b, t, hs1⟩, hi1, hflag, htime, hev⟩ :=
      scan_events_of_key s now levels k hi hw hh hk
    have hl : levels (k / s.numCols_) (k % s.numCols_) = LOW :=
      hlow (now, levels) (List.mem_cons_self _ _)
    have hw1 : wellFormed s1 = true := by rw [hs1]; exact hw
    have hh1 : handlersSet s1 = true := by rw [hs1]; exact hh
    have hd1 : s1.keyDownHandler_.isSome = true := by rw [hs1]; exact hd
    have hk1 : k < s1.totalKeys_ := by rw [hs1]; exact hk
    have hnc : s1.numCols_ = s.numCols_ := by rw [hs1]; rfl
    have hdb : s1.debounce_Time_ = s.debounce_Time_ := by rw [hs1]; rfl
    have hsym : symbolOf s1 k = symbolOf s k := by rw [hs1]; rfl
    have hlow1 : ∀ q ∈ rest, q.2 (k / s1.numCols_) (k % s1.numCols_) = LOW :=
      fun q hq => by rw [hnc]; exact hlow q (List.mem_cons_of_mem _ hq)
    by_cases hg : s.debounce_Time_ ≤ ulongSub now (keyTime s k)
    · have hgo := guardOpen_true _ _ _ hg
      have hnext : keyNextFlag s now levels k = true := by
        unfold keyNextFlag nextFlag levelOf
        rw [hl, hgo]; simp [pressed]
      have hfl : keyFlips s now levels k = true := by
        unfold keyFlips
        rw [flips_eq]
        have : nextFlag s.debounce_Time_ now (keyTime s k) (keyFlag s k)
            (levelOf s levels k) = true := hnext
        rw [this, hf]; rfl
      rw [hfl, hnext] at hev
      have hev2 : tr.filter (Event.isKeyOf k) = [Event.keyDown k (symbolOf s k)] := by
        rw [hev]; simp [hd]
      obtain ⟨s2, tr2, hrun2, hev3⟩ := scanAll_held_down k rest s1 hi1 hw1 hh1 hk1
        (by rw [hflag, hnext]) hlow1
      refine ⟨s2, tr ++ tr2, ?_, ?_⟩
      · simp only [scanAll, hrun, hrun2]
      · rw [List.filter_append, hev2, hev3]; rfl
    · have hg2 : ulongSub now (keyTime s k) < s.debounce_Time_ := Nat.lt_of_not_le hg
      obtain ⟨h1, h2, h3⟩ := keyFlips_closed s now levels k hg2
      rw [h1] at hev
      have hev2 : tr.filter (Event.isKeyOf k) = [] := by rw [hev]; simp
      have hex1 : ∃ q ∈ rest, s1.debounce_Time_ ≤ ulongSub q.1 (keyTime s1 k) := by
        obtain ⟨q, hq, hq2⟩ := hex
        rcases List.mem_cons.1 hq with rfl | hq3
        · exact absurd hq2 hg
        · exact ⟨q, hq3, by rw [hdb, htime, h3]; exact hq2⟩
      obtain ⟨s2, tr2, hrun2, hev3⟩ := ih s1 hi1 hw1 hh1 hd1 hk1 (by rw [hflag, h2, hf])
        hlow1 hex1
      refine ⟨s2, tr ++ tr2, ?_, ?_⟩
      · simp only [scanAll, hrun, hrun2]
      · rw [List.filter_append, hev2, hev3, hsym]; rfl

/-- C3: take an initialised scanner (arrays allocated by `begin`, constructor
arguments fitting together) with its handlers and a key-down handler set, a
key `k` that is up, and any finite sequence of scans in each of which the column of
`k` reads pressed (`LOW`); if one of the scans happens, without clock wraparound, at
a clock value at least the debounce interval after the recorded transition time of
`k`, then all the scans return, and over the whole sequence the calls of key
handlers made for `k` are exactly one call of the key-down handler, with the
symbol of `k`; the key-up handler is never called for `k`. -/
theorem held_key_one_keyDown (s : Keypad_Matrix) (k : Nat)
    (scans : List (Nat × (Nat → Nat → Int)))
    (hi : initialized s = true) (hw : wellFormed s = true) (hh : handlersSet s = true)
    (hd : s.keyDownHandler_.isSome = true)
    (hk : k < s.totalKeys_) (hup : keyFlag s k = false)
    (hlow : ∀ p ∈ scans, p.2 (k / s.numCols_) (k % s.numCols_) = LOW)
    (hheld : ∃ p ∈ scans, p.1 < ULONG_MOD ∧ keyTime s k + s.debounce_Time_ ≤ p.1) :
    ∃ s1 tr, scanAll s scans = some (s1, tr) ∧
      tr.filter (Event.isKeyOf k) = [Event.keyDown k (symbolOf s k)] := by
  apply scanAll_pressed_once k scans s hi hw hh hd hk hup hlow
  obtain ⟨p, hp, hlt, hle⟩ := hheld
  refine ⟨p, hp, ?_⟩
  rw [ulongSub_of_le p.1 (keyTime s k) (by omega) hlt]
  omega

/-! ## A scan keeps the flag array allocated -/

theorem setSetting_nonnull (s s1 : Keypad_Matrix) (k : Nat)
    (h : s.setSetting k = some s1) : s1.lastKeySetting_.isNull = false := by
  unfold Keypad_Matrix.setSetting at h
  split at h
  · split at h
    · cases h; rfl
    · cases h
  · cases h

theorem clearSetting_nonnull (s s1 : Keypad_Matrix) (k : Nat)
    (h : s.clearSetting k = some s1) : s1.lastKeySetting_.isNull = false := by
  unfold Keypad_Matrix.clearSetting at h
  split at h
  · split at h
    · cases h; rfl
    · cases h
  · cases h

theorem scanKey_nonnull (now : Nat) (levels : Nat → Nat → Int) (row col : Nat)
    (st st1 : Keypad_Matrix.ScanState)
    (h : Keypad_Matrix.scanKey now levels row col st = some st1)
    (hn : st.self.lastKeySetting_.isNull = false) :
    st1.self.lastKeySetting_.isNull = false := by
  unfold Keypad_Matrix.scanKey at h
  simp only [bind, Option.bind, pure] at h
  cases h1 : st.self.readTime st.keyNumber with
  | none => rw [h1] at h; cases h
  | some lastTime =>
    rw [h1] at h
    simp only [] at h
    by_cases hg : ulongSub now lastTime ≥ st.self.debounce_Time_
    · rw [if_pos hg] at h
      cases h2 : st.self.colPins_[col]? with
      | none => rw [h2] at h; cases h
      | some pin =>
        rw [h2] at h
        simp only [] at h
        cases h3 : st.self.testSetting st.keyNumber with
        | none => rw [h3] at h; cases h
        | some old =>
          rw [h3] at h
          simp only [] at h
          by_cases hf : (decide (levels row col = LOW) != (old != 0)) = true
          · rw [if_pos hf] at h
            cases h4 : st.self.writeTime st.keyNumber now with
            | none => rw [h4] at h; cases h
            | some self1 =>
              rw [h4] at h
              simp only [] at h
              cases h5 : BITSET st.keyChanged st.keyNumber with
              | none => rw [h5] at h; cases h
              | some kc1 =>
                rw [h5] at h
                simp only [] at h
                by_cases hl : decide (levels row col = LOW) = true
                · rw [if_pos hl] at h
                  cases h6 : self1.setSetting st.keyNumber with
                  | none => rw [h6] at h; cases h
                  | some self2 =>
                    rw [h6] at h
                    simp only [Option.some.injEq] at h
                    rw [← h]
                    exact setSetting_nonnull _ _ _ h6
                · rw [if_neg hl] at h
                  cases h6 : self1.clearSetting st.keyNumber with
                  | none => rw [h6] at h; cases h
                  | some self2 =>
                    rw [h6] at h
                    simp only [Option.some.injEq] at h
                    rw [← h]
                    exact clearSetting_nonnull _ _ _ h6
          · rw [if_neg hf] at h
            simp only [Option.some.injEq] at h
            rw [← h]; exact hn
    · rw [if_neg hg] at h
      simp only [Option.some.injEq] at h
      rw [← h]; exact hn

theorem colLoop_nonnull (now : Nat) (levels : Nat → Nat → Int) (row : Nat) :
    ∀ (m col : Nat) (st st1 : Keypad_Matrix.ScanState),
      Keypad_Matrix.colLoop now levels row col m st = some st1 →
      st.self.lastKeySetting_.isNull = false → st1.self.lastKeySetting_.isNull = false := by
  intro m
  induction m with
  | zero =>
    intro col st st1 h hn
    simp only [Keypad_Matrix.colLoop, Option.some.injEq] at h
    rw [← h]; exact hn
  | succ m ih =>
    intro col st st1 h hn
    simp only [Keypad_Matrix.colLoop] at h
    cases h1 : Keypad_Matrix.scanKey now levels row col st with
    | none => rw [h1] at h; cases h
    | some st2 =>
      rw [h1] at h
      exact ih (col + 1) st2 st1 h (scanKey_nonnull now levels row col st st2 h1 hn)

theorem rowLoop_nonnull (now : Nat) (levels : Nat → Nat → Int) :
    ∀ (m row : Nat) (st st1 : Keypad_Matrix.ScanState),
      Keypad_Matrix.rowLoop now levels row m st = some st1 →
      st.self.lastKeySetting_.isNull = false → st1.self.lastKeySetting_.isNull = false := by
  intro m
  induction m with
  | zero =>
    intro row st st1 h hn
    simp only [Keypad_Matrix.rowLoop, Option.some.injEq] at h
    rw [← h]; exact hn
  | succ m ih =>
    intro row st st1 h hn
    simp only [Keypad_Matrix.rowLoop] at h
    cases h1 : st.self.rowPins_[row]? with
    | none => rw [h1] at h; cases h
    | some pin =>
      rw [h1] at h
      simp only [] at h
      cases h2 : Keypad_Matrix.colLoop now levels row 0 st.self.numCols_
          { st with trace := st.trace ++ [Event.startRow pin] } with
      | none => rw [h2] at h; cases h
      | some st2 =>
        rw [h2] at h
        have hn2 := colLoop_nonnull now levels row _ _ _ _ h2 hn
        exact ih (row + 1) _ st1 h hn2

/-- A scan that returns leaves the flag array allocated if it was. -/
theorem scan_nonnull (s s1 : Keypad_Matrix) (now : Nat) (levels : Nat → Nat → Int)
    (tr : List Event) (h : s.scan now levels = some (s1, tr))
    (hn : s.lastKeySetting_.isNull = false) : s1.lastKeySetting_.isNull = false := by
  unfold Keypad_Matrix.scan at h
  split at h
  · simp only [Option.some.injEq, Prod.mk.injEq] at h
    rw [← h.1]; exact hn
  · simp only [] at h
    split at h
    · cases h
    · rename_i st hrun
      have hst := rowLoop_nonnull now levels _ _ _ _ hrun hn
      split at h
      · split at h
        · cases h
        · split at h
          · cases h
          · simp only [Option.some.injEq, Prod.mk.injEq] at h
            rw [← h.1]; exact hst
      · simp only [Option.some.injEq, Prod.mk.injEq] at h
        rw [← h.1]; exact hst

theorem scanAll_nonnull :
    ∀ (scans : List (Nat × (Nat → Nat → Int))) (s s1 : Keypad_Matrix) (tr : List Event),
      scanAll s scans = some (s1, tr) → s.lastKeySetting_.isNull = false →
      s1.lastKeySetting_.isNull = false := by
  intro scans
  induction scans with
  | nil =>
    intro s s1 tr h hn
    simp only [scanAll, Option.some.injEq, Prod.mk.injEq] at h
    rw [← h.1]; exact hn
  | cons p rest ih =>
    intro s s1 tr h hn
    obtain ⟨now, levels⟩ := p
    simp only [scanAll] at h
    cases h1 : s.scan now levels with
    | none => rw [h1] at h; cases h
    | some r =>
      obtain ⟨s2, tr2⟩ := r
      rw [h1] at h
      simp only [] at h
      cases h2 : scanAll s2 rest with
      | none => rw [h2] at h; cases h
      | some r2 =>
        obtain ⟨s3, tr3⟩ := r2
        rw [h2] at h
        simp only [Option.some.injEq, Prod.mk.injEq] at h
        rw [← h.1]
        exact ih s2 s3 tr3 h2 (scan_nonnull s s2 now levels tr2 h1 hn)

/-- When both allocations succeed and `begin` returns, the flag array is allocated. -/
theorem begin_nonnull (s s1 : Keypad_Matrix) (tr : List Event)
    (h : s.begin true true = some (s1, tr)) : s1.lastKeySetting_.isNull = false := by
  unfold Keypad_Matrix.begin at h
  by_cases hn : s.lastKeySetting_.isNull = false
  · rw [if_pos hn] at h
    simp only [Option.some.injEq, Prod.mk.injEq] at h
    rw [← h.1]; exact hn
  · rw [if_neg hn] at h
    simp only [if_true, Ptr.isNull, Bool.false_eq_true, if_false] at h
    split at h
    · split at h
      · cases h
      · simp only [Option.some.injEq, Prod.mk.injEq] at h
        rw [← h.1]; rfl
    · simp only [Option.some.injEq, Prod.mk.injEq] at h
      rw [← h.1]; rfl

/-! ## The query isKeyDown -/

theorem isKeyDownLoop_absent (s : Keypad_Matrix) (c : Char) :
    ∀ (n i : Nat), i + n ≤ s.keyMap_.length →
      (∀ j, i ≤ j → j < i + n → s.keyMap_[j]? ≠ some c) →
      Keypad_Matrix.isKeyDownLoop s c i n = some false := by
  intro n
  induction n with
  | zero => intro i _ _; rfl
  | succ n ih =>
    intro i hlen habs
    have hi : i < s.keyMap_.length := by omega
    have hne : ¬ s.keyMap_[i] = c := by
      intro e
      apply habs i (Nat.le_refl _) (by omega)
      rw [List.getElem?_eq_getElem hi, e]
    simp only [Keypad_Matrix.isKeyDownLoop, List.getElem?_eq_getElem hi, if_neg hne]
    exact ih (i + 1) (by omega) (fun j h1 h2 => habs j (by omega) (by omega))

/-- C9: on a scanner whose flag array pointer is null, as the constructor leaves it
until `begin` is called, `isKeyDown` returns false for every symbol. -/
theorem isKeyDown_before_begin (s : Keypad_Matrix) (c : Char)
    (h : s.lastKeySetting_ = Ptr.null) : s.isKeyDown c = some false := by
  unfold Keypad_Matrix.isKeyDown
  rw [h]
  rfl

/-- Witness of C9: a constructed 4x4 keypad on which `begin` has not been called. -/
theorem isKeyDown_before_begin_witness :
    (Keypad_Matrix.Keypad_Matrix
        ['1', '2', '3', 'A', '4', '5', '6', 'B', '7', '8', '9', 'C', '*', '0', '#', 'D']
        [6, 7, 8, 9] [2, 3, 4, 5] 4 4 true).lastKeySetting_ = Ptr.null ∧
    (Keypad_Matrix.Keypad_Matrix
        ['1', '2', '3', 'A', '4', '5', '6', 'B', '7', '8', '9', 'C', '*', '0', '#', 'D']
        [6, 7, 8, 9] [2, 3, 4, 5] 4 4 true).isKeyDown '5' = some false :=
  ⟨rfl, isKeyDown_before_begin _ '5' rfl⟩

/-- C10: in every scanner state, initialised or not, `isKeyDown` returns false for a
symbol that does not occur among the first `totalKeys_` entries of the keymap. -/
theorem isKeyDown_absent (s : Keypad_Matrix) (c : Char)
    (hlen : s.totalKeys_ ≤ s.keyMap_.length)
    (habs : c ∉ s.keyMap_.take s.totalKeys_) : s.isKeyDown c = some false := by
  unfold Keypad_Matrix.isKeyDown
  split
  · rfl
  · apply isKeyDownLoop_absent s c s.totalKeys_ 0 (by omega)
    intro j _ hj e
    apply habs
    rw [List.mem_take_iff_getElem]
    have hj2 : j < s.keyMap_.length := by omega
    refine ⟨j, by omega, ?_⟩
    rw [List.getElem?_eq_getElem hj2] at e
    exact Option.some.inj e

/-- Witness of C10 on the 2x2 keypad, whose key at index 3 is down: the symbol `'9'`
is not in its keymap. -/
theorem isKeyDown_absent_witness :
    (keypad2x2.totalKeys_ ≤ keypad2x2.keyMap_.length ∧
      '9' ∉ keypad2x2.keyMap_.take keypad2x2.totalKeys_) ∧
    keypad2x2.isKeyDown '9' = some false :=
  ⟨⟨by decide, by decide⟩, isKeyDown_absent keypad2x2 '9' (by decide) (by decide)⟩

/-! ## The member begin -/

theorem pinModeLoop_total (s : Keypad_Matrix) (mode : Nat) :
    ∀ (n i : Nat), i + n ≤ s.colPins_.length →
      ∃ tr, Keypad_Matrix.pinModeLoop s mode i n = some tr := by
  intro n
  induction n with
  | zero => intro i _; exact ⟨[], rfl⟩
  | succ n ih =>
    intro i h
    have hi : i < s.colPins_.length := by omega
    obtain ⟨rest, hrest⟩ := ih (i + 1) (by omega)
    exact ⟨Event.pinMode s.colPins_[i] mode :: rest,
      by simp only [Keypad_Matrix.pinModeLoop, List.getElem?_eq_getElem hi, hrest]⟩

/-- A successful `begin` on a constructed scanner whose arguments fit together gives
an initialised scanner with every flag and every time zero. -/
theorem begin_constructed (keyMap : List Char) (rowPins colPins : List Nat)
    (numRows numCols : Nat) (enablePullups : Bool)
    (hfit : numRows * numCols < UINT8_MOD) (hrows : numRows ≤ rowPins.length)
    (hcols : numCols ≤ colPins.length) (hkeys : numRows * numCols ≤ keyMap.length) :
    ∃ tr,
      (Keypad_Matrix.Keypad_Matrix keyMap rowPins colPins numRows numCols enablePullups).begin
          true true =
        some (withArrays
          (Keypad_Matrix.Keypad_Matrix keyMap rowPins colPins numRows numCols enablePullups)
          (List.replicate ((numRows * numCols + 7) / 8) 0)
          (List.replicate (numRows * numCols) 0), tr) ∧
      initialized (withArrays
          (Keypad_Matrix.Keypad_Matrix keyMap rowPins colPins numRows numCols enablePullups)
          (List.replicate ((numRows * numCols + 7) / 8) 0)
          (List.replicate (numRows * numCols) 0)) = true ∧
      wellFormed (withArrays
          (Keypad_Matrix.Keypad_Matrix keyMap rowPins colPins numRows numCols enablePullups)
          (List.replicate ((numRows * numCols + 7) / 8) 0)
          (List.replicate (numRows * numCols) 0)) = true := by
  have hmod : numRows * numCols % UINT8_MOD = numRows * numCols := Nat.mod_eq_of_lt hfit
  have hinit : initialized (withArrays
      (Keypad_Matrix.Keypad_Matrix keyMap rowPins colPins numRows numCols enablePullups)
      (List.replicate ((numRows * numCols + 7) / 8) 0)
      (List.replicate (numRows * numCols) 0)) = true := by
    rw [initialized_withArrays]
    simp [Keypad_Matrix.Keypad_Matrix, hmod]
  have hwf : wellFormed (withArrays
      (Keypad_Matrix.Keypad_Matrix keyMap rowPins colPins numRows numCols enablePullups)
      (List.replicate ((numRows * numCols + 7) / 8) 0)
      (List.replicate (numRows * numCols) 0)) = true := by
    simp [wellFormed, withArrays, Keypad_Matrix.Keypad_Matrix, hmod, hfit, hrows, hcols, hkeys]
  cases enablePullups with
  | false =>
    refine ⟨[], ?_, hinit, hwf⟩
    simp [Keypad_Matrix.begin, Keypad_Matrix.Keypad_Matrix, Ptr.isNull, withArrays, hmod,
      CHAR_BIT]
  | true =>
    obtain ⟨tr, htr⟩ := pinModeLoop_total
      (withArrays (Keypad_Matrix.Keypad_Matrix keyMap rowPins colPins numRows numCols true)
        (List.replicate ((numRows * numCols + 7) / 8) 0)
        (List.replicate (numRows * numCols) 0)) INPUT_PULLUP numCols 0
      (by simp [Keypad_Matrix.Keypad_Matrix]; exact hcols)
    refine ⟨tr, ?_, hinit, hwf⟩
    simp only [withArrays, Keypad_Matrix.Keypad_Matrix, hmod] at htr
    simp [Keypad_Matrix.begin, Keypad_Matrix.Keypad_Matrix, Ptr.isNull, withArrays, hmod,
      CHAR_BIT, htr]

/-- C8: on a scanner that has been initialised by a successful `begin` and then
scanned any number of times, a further call of `begin`, whatever its allocations
would do, returns the scanner unchanged (every flag, every time, every other member)
and makes no call; so `isKeyDown` answers after it as before. -/
theorem begin_idempotent (s0 s1 s2 : Keypad_Matrix) (tr1 tr2 : List Event)
    (scans : List (Nat × (Nat → Nat → Int))) (alloc1 alloc2 : Bool)
    (h1 : s0.begin true true = some (s1, tr1)) (h2 : scanAll s1 scans = some (s2, tr2)) :
    s2.begin alloc1 alloc2 = some (s2, []) := by
  have hn := scanAll_nonnull scans s1 s2 tr2 h2 (begin_nonnull s0 s1 tr1 h1)
  unfold Keypad_Matrix.begin
  rw [if_pos hn]

/-- Witness of C8 on the 1x1 keypad: after `begin` and a scan that records the key as
down, a second `begin` changes nothing and the key is still reported down. -/
theorem begin_idempotent_witness :
    ((Keypad_Matrix.setKeyUpHandler (Keypad_Matrix.setKeyDownHandler keypadA (some 7))
        (some 8)).begin true true = some (keypadAReady, [Event.pinMode 2 INPUT_PULLUP]) ∧
      scanAll keypadAReady [(10, allPressed)] =
        some (withArrays keypadAReady [1] [10],
          [Event.startRow 6, Event.readColumn 2, Event.endRow 6, Event.keyDown 0 'A'])) ∧
    (withArrays keypadAReady [1] [10]).begin true true =
      some (withArrays keypadAReady [1] [10], []) ∧
    (withArrays keypadAReady [1] [10]).isKeyDown 'A' = some true :=
  ⟨⟨by decide, by decide⟩,
   begin_idempotent
     (Keypad_Matrix.setKeyUpHandler (Keypad_Matrix.setKeyDownHandler keypadA (some 7)) (some 8))
     keypadAReady (withArrays keypadAReady [1] [10]) [Event.pinMode 2 INPUT_PULLUP]
     [Event.startRow 6, Event.readColumn 2, Event.endRow 6, Event.keyDown 0 'A']
     [(10, allPressed)] true true (by decide) (by decide),
   by decide⟩

/-- C7 (evaluation of the code): when the first allocation of `begin` succeeds and
the second fails, the flag array is freed but its pointer is not reset: it is left
dangling, not null. On the 1x1 keypad, `isKeyDown` and `scan` then pass their null
test and access freed memory (no defined result) instead of returning false and
doing nothing. When the first allocation fails both pointers stay null. -/
theorem begin_allocation_failure (keyMap : List Char) (rowPins colPins : List Nat)
    (numRows numCols : Nat) (enablePullups : Bool) :
    ((Keypad_Matrix.Keypad_Matrix keyMap rowPins colPins numRows numCols enablePullups).begin
        true false =
      some ({ Keypad_Matrix.Keypad_Matrix keyMap rowPins colPins numRows numCols enablePullups
                with lastKeySetting_ := Ptr.dangling }, [])) ∧
    ((Keypad_Matrix.Keypad_Matrix keyMap rowPins colPins numRows numCols enablePullups).begin
        false false =
      some (Keypad_Matrix.Keypad_Matrix keyMap rowPins colPins numRows numCols enablePullups,
        [])) ∧
    ({ keypadA with lastKeySetting_ := Ptr.dangling } : Keypad_Matrix).isKeyDown 'A' = none ∧
    ({ keypadA with lastKeySetting_ := Ptr.dangling } : Keypad_Matrix).scan 0 allReleased =
      none :=
  ⟨rfl, rfl, by decide, by decide⟩

/-! ## The worked example -/

/-- C5 (as stated, refuted): on the 1x1 keypad `'A'` with debounce interval 10,
initialised by `begin` and with both key handlers registered, a scan at clock value 0
in which the column reads pressed is blocked by the guard, because the time recorded
by `begin` is 0 and `0 - 0 < 10`: afterwards `isKeyDown ('A')` returns false and no
key handler has been called. -/
theorem worked_example_at_clock_zero :
    (keypadA.begin true true).map
        (fun r => Keypad_Matrix.setKeyUpHandler
          (Keypad_Matrix.setKeyDownHandler r.1 (some 7)) (some 8)) = some keypadAReady ∧
    keypadAReady.debounce_Time_ = 10 ∧
    (keypadAReady.scan 0 allPressed).map
        (fun r => (r.1.isKeyDown 'A', r.2.filter Event.isKey)) = some (some false, []) ∧
    (keypadAReady.scan 0 allPressed).map
        (fun r => (r.1.isKeyDown 'A', r.2.filter Event.isKey)) ≠
      some (some true, [Event.keyDown 0 'A']) := by
  decide

/-- C5 (amended): on the 1x1 keypad `'A'` with debounce interval 10, initialised by
`begin` and with both key handlers registered: (1) a scan at clock value 10 in which
the column reads pressed makes `isKeyDown ('A')` return true and calls the key-down
handler exactly once, with `'A'`; (2) a following scan at clock value 15 in which the
column reads released is blocked by the guard: no key handler is called and
`isKeyDown ('A')` still returns true; (3) a following scan at clock value 25 in which
the column reads released is accepted: `isKeyDown ('A')` returns false and the key-up
handler is called exactly once, with `'A'`. -/
theorem worked_example_shifted :
    (keypadA.begin true true).map
        (fun r => Keypad_Matrix.setKeyUpHandler
          (Keypad_Matrix.setKeyDownHandler r.1 (some 7)) (some 8)) = some keypadAReady ∧
    keypadAReady.debounce_Time_ = 10 ∧
    keypadAReady.scan 10 allPressed =
      some (withArrays keypadAReady [1] [10],
        [Event.startRow 6, Event.readColumn 2, Event.endRow 6, Event.keyDown 0 'A']) ∧
    (withArrays keypadAReady [1] [10]).isKeyDown 'A' = some true ∧
    (withArrays keypadAReady [1] [10]).scan 15 allReleased =
      some (withArrays keypadAReady [1] [10], [Event.startRow 6, Event.endRow 6]) ∧
    (withArrays keypadAReady [1] [10]).scan 25 allReleased =
      some (withArrays keypadAReady [0] [25],
        [Event.startRow 6, Event.readColumn 2, Event.endRow 6, Event.keyUp 0 'A']) ∧
    (withArrays keypadAReady [0] [25]).isKeyDown 'A' = some false := by
  decide

/-- Witness of C3 on the 1x1 keypad (debounce interval 10, the key up since time 0):
four scans at clock values 5, 12, 30 and 31 all read the column pressed; the scan at
5 is blocked, the scan at 12 records the key as down. -/
theorem held_key_one_keyDown_witness :
    (initialized keypadAReady = true ∧ wellFormed keypadAReady = true ∧
      handlersSet keypadAReady = true ∧ keypadAReady.keyDownHandler_.isSome = true ∧
      0 < keypadAReady.totalKeys_ ∧ keyFlag keypadAReady 0 = false) ∧
    (∃ s1 tr,
      scanAll keypadAReady
          [(5, allPressed), (12, allPressed), (30, allPressed), (31, allPressed)] =
        some (s1, tr) ∧
      tr.filter (Event.isKeyOf 0) = [Event.keyDown 0 (symbolOf keypadAReady 0)]) ∧
    (scanAll keypadAReady
        [(5, allPressed), (12, allPressed), (30, allPressed), (31, allPressed)]).map
      (fun r => r.2.filter Event.isKey) = some [Event.keyDown 0 'A'] :=
  ⟨⟨by decide, by decide, by decide, by decide, by decide, by decide⟩,
   held_key_one_keyDown keypadAReady 0
     [(5, allPressed), (12, allPressed), (30, allPressed), (31, allPressed)]
     (by decide) (by decide) (by decide) (by decide) (by decide) (by decide)
     (by decide) (by decide),
   by decide⟩

/-! ## The first occurrence of a symbol -/

theorem isKeyDownLoop_first (s : Keypad_Matrix) (c : Char) (i : Nat)
    (hc : s.keyMap_[i]? = some c) :
    ∀ (n start : Nat), start ≤ i → i < start + n →
      (∀ j, start ≤ j → j < i → s.keyMap_[j]? ≠ some c) →
      Keypad_Matrix.isKeyDownLoop s c start n =
        match s.testSetting i with
        | none => none
        | some b => some (b != 0) := by
  intro n
  induction n with
  | zero => intro start h1 h2 _; omega
  | succ n ih =>
    intro start h1 h2 hfirst
    by_cases he : start = i
    · subst he
      simp only [Keypad_Matrix.isKeyDownLoop, hc, if_true]
    · have hlt : start < i := by omega
      have hilen : i < s.keyMap_.length := by
        rcases Nat.lt_or_ge i s.keyMap_.length with h | h
        · exact h
        · rw [List.getElem?_eq_none h] at hc; cases hc
      have hslen : start < s.keyMap_.length := by omega
      have hne : ¬ s.keyMap_[start] = c := by
        intro e
        apply hfirst start (Nat.le_refl _) hlt
        rw [List.getElem?_eq_getElem hslen, e]
      simp only [Keypad_Matrix.isKeyDownLoop, List.getElem?_eq_getElem hslen, if_neg hne]
      exact ih (start + 1) (by omega) (by omega) (fun j h3 h4 => hfirst j (by omega) h4)

/-- C11: on an initialised scanner, for a symbol `c` whose lowest index in the keymap
is `i` (below `totalKeys_`), `isKeyDown (c)` returns the stored flag of key `i`; the
result depends on no other flag, in particular not on the flag of a later entry with
the same symbol. -/
theorem isKeyDown_first_occurrence (s : Keypad_Matrix) (c : Char) (i : Nat)
    (hi : initialized s = true) (hlt : i < s.totalKeys_)
    (hc : s.keyMap_[i]? = some c) (hfirst : ∀ j, j < i → s.keyMap_[j]? ≠ some c) :
    s.isKeyDown c = some (keyFlag s i) := by
  obtain ⟨b, t, hs, hb, _⟩ := initialized_elim s hi
  have hnn : s.lastKeySetting_.isNull = false := by rw [hs]; rfl
  unfold Keypad_Matrix.isKeyDown
  rw [hnn]
  simp only [Bool.false_eq_true, if_false]
  rw [isKeyDownLoop_first s c i hc s.totalKeys_ 0 (Nat.zero_le _) (by omega)
    (fun j _ h => hfirst j h)]
  have hslot : i / 8 < b.length := by rw [hb]; omega
  obtain ⟨v, hv, _⟩ := BITTEST_of_lt b i hslot
  have hts : s.testSetting i = some v := by rw [hs]; exact hv
  unfold keyFlag
  rw [hts]

/-- Witness of C11: the keymap has `'A'` at the indices 0 and 2; key 2 is down and
key 0 is up, and `isKeyDown ('A')` returns false. -/
theorem isKeyDown_first_occurrence_witness :
    (initialized keypadTwice = true ∧ 0 < keypadTwice.totalKeys_ ∧
      keypadTwice.keyMap_[0]? = some 'A' ∧ keypadTwice.keyMap_[2]? = some 'A' ∧
      keyFlag keypadTwice 2 = true ∧ keyFlag keypadTwice 0 = false) ∧
    keypadTwice.isKeyDown 'A' = some (keyFlag keypadTwice 0) ∧
    keypadTwice.isKeyDown 'A' = some false :=
  ⟨⟨by decide, by decide, by decide, by decide, by decide, by decide⟩,
   isKeyDown_first_occurrence keypadTwice 'A' 0 (by decide) (by decide) (by decide)
     (fun j h => absurd h (Nat.not_lt_zero j)),
   by decide⟩

/-! ## A scan that cannot run -/

/-- The first test of `scan`: when the flag array pointer is null or one of the
start-row, end-row and read handlers is unset, `scan` returns the scanner unchanged
(every member, so every flag, time and setting) and makes no call of any handler. -/
theorem scan_noop (s : Keypad_Matrix) (now : Nat) (levels : Nat → Nat → Int)
    (h : s.lastKeySetting_ = Ptr.null ∨ s.startRowHandler_ = none ∨
      s.endRowHandler_ = none ∨ s.readHandler_ = none) :
    s.scan now levels = some (s, []) := by
  unfold Keypad_Matrix.scan
  have hg : s.lastKeySetting_.isNull = true ∨ s.startRowHandler_ = none ∨
      s.endRowHandler_ = none ∨ s.readHandler_ = none := by
    rcases h with h | h
    · left; rw [h]; rfl
    · right; exact h
  rw [if_pos hg]

/-- Two scanners on which `scan` does nothing: the constructed 1x1 keypad before
`begin`, and the 2x2 keypad after its read handler has been unset. -/
theorem scan_noop_witness :
    (keypadA.lastKeySetting_ = Ptr.null ∧
      (Keypad_Matrix.setColumnReadHandler keypad2x2 none).readHandler_ = none) ∧
    keypadA.scan 50 allPressed = some (keypadA, []) ∧
    (Keypad_Matrix.setColumnReadHandler keypad2x2 none).scan 50 onlyKey0 =
      some (Keypad_Matrix.setColumnReadHandler keypad2x2 none, []) :=
  ⟨⟨rfl, rfl⟩, scan_noop keypadA 50 allPressed (Or.inl rfl),
   scan_noop (Keypad_Matrix.setColumnReadHandler keypad2x2 none) 50 onlyKey0
     (Or.inr (Or.inr (Or.inr rfl)))⟩

/-- C12 (evaluation of the code): the scanner a `begin` leaves when its first
allocation succeeds and its second fails is not initialised (the time array is null,
the flag array freed), but its flag array pointer is dangling, not null. `scan` then
passes its first test and reads the time array through the null pointer: it has no
defined result, and is not the no-op that returns the scanner unchanged. -/
theorem scan_after_failed_begin :
    keypadA.begin true false = some (keypadAFailed, []) ∧
    initialized keypadAFailed = false ∧
    keypadAFailed.lastKeyTime_ = Ptr.null ∧
    keypadAFailed.lastKeySetting_.isNull = false ∧
    handlersSet keypadAFailed = true ∧
    keypadAFailed.scan 50 allPressed = none ∧
    keypadAFailed.scan 50 allPressed ≠ some (keypadAFailed, []) := by
  decide

/-! ## The flag array as an array of independent flags -/

theorem or_mask_and_mask (x p q : Nat) (h : q ≠ p) :
    (x ||| 2 ^ p) &&& 2 ^ q = x &&& 2 ^ q := by
  apply Nat.eq_of_testBit_eq
  intro t
  rw [Nat.testBit_and, Nat.testBit_or, Nat.testBit_and, Nat.testBit_two_pow,
    Nat.testBit_two_pow]
  by_cases hq : q = t
  · have hp : ¬ p = t := fun e => h (hq.trans e.symm)
    simp [hq, hp]
  · simp [hq]

theorem clear_mask_and_mask (x p q : Nat) (h : q ≠ p) (hq8 : q < 8) :
    (x &&& (255 ^^^ 2 ^ p)) &&& 2 ^ q = x &&& 2 ^ q := by
  apply Nat.eq_of_testBit_eq
  intro t
  rw [Nat.testBit_and, Nat.testBit_and, Nat.testBit_xor, Nat.testBit_and,
    Nat.testBit_two_pow, Nat.testBit_two_pow]
  by_cases hq : q = t
  · have hp : ¬ p = t := fun e => h (hq.trans e.symm)
    have h255 : Nat.testBit 255 t = true := by
      have e : (255 : Nat) = 2 ^ 8 - 1 := by norm_num
      rw [e, Nat.testBit_two_pow_sub_one]
      exact decide_eq_true (by omega)
    simp [hq, hp, h255]
  · simp [hq]

theorem BITTEST_set_other (a : List Nat) (i j x : Nat) (hi : i / 8 < a.length)
    (hx : a[i / 8]? = some x) (hne : j ≠ i) :
    BITTEST (a.set (i / 8) (x ||| BITMASK i)) j = BITTEST a j := by
  unfold BITTEST BITSLOT CHAR_BIT
  by_cases hs : j / 8 = i / 8
  · rw [hs, List.getElem?_set_self hi, hx]
    have hb : j % 8 ≠ i % 8 := fun e => hne (key_eq_of_slot_bit hs e)
    simp only [BITMASK, CHAR_BIT, Nat.one_shiftLeft]
    rw [or_mask_and_mask x (i % 8) (j % 8) hb]
  · rw [List.getElem?_set_ne (Ne.symm hs)]

theorem BITTEST_clear_other (a : List Nat) (i j x : Nat) (hi : i / 8 < a.length)
    (hx : a[i / 8]? = some x) (hne : j ≠ i) :
    BITTEST (a.set (i / 8) (x &&& (255 ^^^ BITMASK i))) j = BITTEST a j := by
  unfold BITTEST BITSLOT CHAR_BIT
  by_cases hs : j / 8 = i / 8
  · rw [hs, List.getElem?_set_self hi, hx]
    have hb : j % 8 ≠ i % 8 := fun e => hne (key_eq_of_slot_bit hs e)
    simp only [BITMASK, CHAR_BIT, Nat.one_shiftLeft]
    rw [clear_mask_and_mask x (i % 8) (j % 8) hb (Nat.mod_lt _ (by norm_num))]
  · rw [List.getElem?_set_ne (Ne.symm hs)]

/-- C18: on a byte array `a` with key index `i` within its capacity, `BITSET (a, i)`
makes `BITTEST (a, i)` non-zero, `BITCLEAR (a, i)` makes it zero, and for every
`j` other than `i` neither changes the value of `BITTEST (a, j)`. Consequently, in
a scan of an initialised scanner, the stored flag of a key `k` changes only if the
guard of `k` passes and the sample of `k` itself differs from its stored flag. -/
theorem bitset_independent_flags (a : List Nat) (i : Nat) (s : Keypad_Matrix) (now : Nat)
    (levels : Nat → Nat → Int) (hi : i / CHAR_BIT < a.length)
    (hinit : initialized s = true) (hw : wellFormed s = true) (hh : handlersSet s = true) :
    (∃ a1, BITSET a i = some a1 ∧ a1.length = a.length ∧
      (∃ v, BITTEST a1 i = some v ∧ v ≠ 0) ∧
      ∀ j, j ≠ i → BITTEST a1 j = BITTEST a j) ∧
    (∃ a2, BITCLEAR a i = some a2 ∧ a2.length = a.length ∧
      BITTEST a2 i = some 0 ∧
      ∀ j, j ≠ i → BITTEST a2 j = BITTEST a j) ∧
    (∃ s1 tr, s.scan now levels = some (s1, tr) ∧
      ∀ k, k < s.totalKeys_ → keyFlag s1 k ≠ keyFlag s k →
        s.debounce_Time_ ≤ ulongSub now (keyTime s k) ∧
        pressed (levelOf s levels k) ≠ keyFlag s k) := by
  have hi8 : i / 8 < a.length := hi
  have hx : a[i / 8]? = some a[i / 8] := List.getElem?_eq_getElem hi8
  refine ⟨?_, ?_, ?_⟩
  · obtain ⟨a1, h1, hl, hb⟩ := BITSET_of_lt a i hi8
    refine ⟨a1, h1, hl, ?_, ?_⟩
    · obtain ⟨v, hv, hvb⟩ := BITTEST_of_lt a1 i (by omega)
      refine ⟨v, hv, ?_⟩
      have : bitOf a1 i = true := by rw [hb i]; simp
      rw [this] at hvb
      simpa using hvb
    · intro j hne
      have e : a1 = a.set (i / 8) (a[i / 8] ||| BITMASK i) := by
        simp only [BITSET, BITSLOT, CHAR_BIT, hx, Option.some.injEq] at h1
        exact h1.symm
      rw [e]
      exact BITTEST_set_other a i j _ hi8 hx hne
  · obtain ⟨a2, h2, hl, hb⟩ := BITCLEAR_of_lt a i hi8
    refine ⟨a2, h2, hl, ?_, ?_⟩
    · obtain ⟨v, hv, hvb⟩ := BITTEST_of_lt a2 i (by omega)
      have : bitOf a2 i = false := by rw [hb i]; simp
      rw [this] at hvb
      have hv0 : v = 0 := by simpa using hvb
      rw [hv, hv0]
    · intro j hne
      have e : a2 = a.set (i / 8) (a[i / 8] &&& (255 ^^^ BITMASK i)) := by
        simp only [BITCLEAR, BITSLOT, CHAR_BIT, hx, Option.some.injEq] at h2
        exact h2.symm
      rw [e]
      exact BITTEST_clear_other a i j _ hi8 hx hne
  · obtain ⟨s1, pre, hrun, _, _, hflag, _, _⟩ := scan_spec s now levels hinit hw hh
    refine ⟨s1, _, hrun, ?_⟩
    intro k hk hne
    rw [hflag k hk] at hne
    unfold keyNextFlag nextFlag at hne
    by_cases hg : guardOpen s.debounce_Time_ now (keyTime s k) = true
    · rw [if_pos hg] at hne
      refine ⟨?_, hne⟩
      unfold guardOpen at hg
      exact of_decide_eq_true hg
    · rw [if_neg hg] at hne
      exact absurd rfl hne

/-- Witness of C18 on a two-byte array and on the 2x2 keypad. -/
theorem bitset_independent_flags_witness :
    (9 / CHAR_BIT < [5, 0].length ∧ initialized keypad2x2 = true ∧
      wellFormed keypad2x2 = true ∧ handlersSet keypad2x2 = true) ∧
    ((∃ a1, BITSET [5, 0] 9 = some a1 ∧ a1.length = [5, 0].length ∧
      (∃ v, BITTEST a1 9 = some v ∧ v ≠ 0) ∧
      ∀ j, j ≠ 9 → BITTEST a1 j = BITTEST [5, 0] j) ∧
    (∃ a2, BITCLEAR [5, 0] 9 = some a2 ∧ a2.length = [5, 0].length ∧
      BITTEST a2 9 = some 0 ∧
      ∀ j, j ≠ 9 → BITTEST a2 j = BITTEST [5, 0] j) ∧
    (∃ s1 tr, keypad2x2.scan 50 onlyKey0 = some (s1, tr) ∧
      ∀ k, k < keypad2x2.totalKeys_ → keyFlag s1 k ≠ keyFlag keypad2x2 k →
        keypad2x2.debounce_Time_ ≤ ulongSub 50 (keyTime keypad2x2 k) ∧
        pressed (levelOf keypad2x2 onlyKey0 k) ≠ keyFlag keypad2x2 k)) :=
  ⟨⟨by decide, by decide, by decide, by decide⟩,
   bitset_independent_flags [5, 0] 9 keypad2x2 50 onlyKey0 (by decide) (by decide)
     (by decide) (by decide)⟩

/-! ## The guard across clock wraparound -/

theorem wrapSub_add (w T e : Nat) (he : e < 2 ^ w) : wrapSub w ((T + e) % 2 ^ w) T = e := by
  unfold wrapSub
  have hpos : 0 < 2 ^ w := Nat.two_pow_pos w
  have ht : T % 2 ^ w < 2 ^ w := Nat.mod_lt _ hpos
  rw [Nat.mod_mod, Nat.add_mod T e, Nat.mod_eq_of_lt he]
  by_cases hlt : T % 2 ^ w + e < 2 ^ w
  · rw [Nat.mod_eq_of_lt hlt]
    have : T % 2 ^ w + e + (2 ^ w - T % 2 ^ w) = e + 2 ^ w := by omega
    rw [this, Nat.add_mod_right, Nat.mod_eq_of_lt he]
  · have hge : 2 ^ w ≤ T % 2 ^ w + e := Nat.le_of_not_lt hlt
    have h1 : (T % 2 ^ w + e) % 2 ^ w = T % 2 ^ w + e - 2 ^ w := by
      rw [Nat.mod_eq_sub_mod hge, Nat.mod_eq_of_lt (by omega)]
    rw [h1]
    have : T % 2 ^ w + e - 2 ^ w + (2 ^ w - T % 2 ^ w) = e := by omega
    rw [this, Nat.mod_eq_of_lt he]

theorem ulongSub_eq_wrapSub (a b : Nat) : ulongSub a b = wrapSub ULONG_BITS a b := rfl

/-- C19: the guard is right across clock wraparound. For unsigned values of any
width `w`, the difference of the clock value `(T + e) mod 2^w` and the recorded time
`T` is the elapsed time `e < 2^w`; so with the `unsigned long` clock of the code the
guard `now - T >= d` passes exactly when `e >= d`, and a scan of an initialised
scanner at the clock value `(T + e) mod 2^32`, `T` being the recorded time of key
`k`, accepts the sample of `k` when `e >= d` and leaves `k` alone when `e < d`. -/
theorem guard_across_wraparound (s : Keypad_Matrix) (k e : Nat) (levels : Nat → Nat → Int)
    (hinit : initialized s = true) (hw : wellFormed s = true) (hh : handlersSet s = true)
    (hk : k < s.totalKeys_) (he : e < ULONG_MOD) :
    (∀ w T e1, e1 < 2 ^ w → wrapSub w ((T + e1) % 2 ^ w) T = e1) ∧
    (∀ T d, (d ≤ ulongSub ((T + e) % ULONG_MOD) T ↔ d ≤ e)) ∧
    (∃ s1 tr, s.scan ((keyTime s k + e) % ULONG_MOD) levels = some (s1, tr) ∧
      (s.debounce_Time_ ≤ e → keyFlag s1 k = pressed (levelOf s levels k)) ∧
      (e < s.debounce_Time_ → keyFlag s1 k = keyFlag s k ∧ keyTime s1 k = keyTime s k)) := by
  have harith : ∀ T, ulongSub ((T + e) % ULONG_MOD) T = e := by
    intro T
    rw [ulongSub_eq_wrapSub]
    exact wrapSub_add ULONG_BITS T e he
  refine ⟨wrapSub_add, ?_, ?_⟩
  · intro T d
    rw [harith T]
  · obtain ⟨s1, pre, hrun, _, _, hflag, htime, _⟩ :=
      scan_spec s ((keyTime s k + e) % ULONG_MOD) levels hinit hw hh
    refine ⟨s1, _, hrun, ?_, ?_⟩
    · intro hd
      rw [hflag k hk]
      unfold keyNextFlag nextFlag
      rw [guardOpen_true _ _ _ (by rw [harith]; exact hd)]
      rfl
    · intro hd
      obtain ⟨_, h2, h3⟩ := keyFlips_closed s ((keyTime s k + e) % ULONG_MOD) levels k
        (by rw [harith]; exact hd)
      exact ⟨by rw [hflag k hk, h2], by rw [htime k hk, h3]⟩

/-- Witness of C19: the recorded time is `2^32 - 6` and 10 time units have elapsed, so
the clock has wrapped to 4; the debounce interval is 10 and the sample is accepted. -/
theorem guard_across_wraparound_witness :
    (initialized keypadLate = true ∧ wellFormed keypadLate = true ∧
      handlersSet keypadLate = true ∧ 0 < keypadLate.totalKeys_ ∧ 10 < ULONG_MOD ∧
      (keyTime keypadLate 0 + 10) % ULONG_MOD = 4) ∧
    ((∀ w T e1, e1 < 2 ^ w → wrapSub w ((T + e1) % 2 ^ w) T = e1) ∧
    (∀ T d, (d ≤ ulongSub ((T + 10) % ULONG_MOD) T ↔ d ≤ 10)) ∧
    (∃ s1 tr, keypadLate.scan ((keyTime keypadLate 0 + 10) % ULONG_MOD) allPressed =
        some (s1, tr) ∧
      (keypadLate.debounce_Time_ ≤ 10 →
        keyFlag s1 0 = pressed (levelOf keypadLate allPressed 0)) ∧
      (10 < keypadLate.debounce_Time_ →
        keyFlag s1 0 = keyFlag keypadLate 0 ∧ keyTime s1 0 = keyTime keypadLate 0))) ∧
    (keypadLate.scan 4 allPressed).map (fun r => r.2.filter Event.isKey) =
      some [Event.keyDown 0 'A'] :=
  ⟨⟨by decide, by decide, by decide, by decide, by decide, by decide⟩,
   guard_across_wraparound keypadLate 0 10 allPressed (by decide) (by decide) (by decide)
     (by decide) (by decide),
   by decide⟩

/-! ## The number of keys and the state after `begin` -/

/-- A `begin` whose two allocations succeed, on a scanner whose flag array pointer is
null, gives the scanner with both arrays allocated and zeroed. -/
theorem begin_fresh_state (s s1 : Keypad_Matrix) (tr : List Event)
    (hnull : s.lastKeySetting_ = Ptr.null) (h : s.begin true true = some (s1, tr)) :
    s1 = withArrays s (List.replicate ((s.totalKeys_ + 7) / 8) 0)
      (List.replicate s.totalKeys_ 0) := by
  unfold Keypad_Matrix.begin at h
  simp only [hnull, Ptr.isNull, Bool.true_eq_false, if_false, if_true, CHAR_BIT,
    Bool.false_eq_true] at h
  split at h
  · split at h
    · cases h
    · simp only [Option.some.injEq, Prod.mk.injEq] at h
      rw [← h.1]; rfl
  · simp only [Option.some.injEq, Prod.mk.injEq] at h
    rw [← h.1]; rfl

theorem keyFlag_zeroed (s : Keypad_Matrix) (n m k : Nat) :
    keyFlag (withArrays s (List.replicate n 0) (List.replicate m 0)) k = false := by
  rw [keyFlag_withArrays]
  exact bitOf_replicate_zero n k

theorem keyTime_zeroed (s : Keypad_Matrix) (n m k : Nat) :
    keyTime (withArrays s (List.replicate n 0) (List.replicate m 0)) k = 0 := by
  rw [keyTime_withArrays, List.getD_eq_getElem?_getD]
  by_cases h : k < m
  · simp [List.getElem?_replicate, h]
  · simp [List.getElem?_replicate, h]

/-- C14 (as stated, refuted): for `numRows = 16` and `numCols = 16`, both accepted by
the constructor, `totalKeys_` is 0 and not the product 256, and a successful `begin`
allocates no key-state entry at all. -/
theorem totalKeys_16x16 :
    keypad16x16.numRows_ = 16 ∧ keypad16x16.numCols_ = 16 ∧
    keypad16x16.totalKeys_ = 0 ∧
    keypad16x16.totalKeys_ ≠ keypad16x16.numRows_ * keypad16x16.numCols_ ∧
    (keypad16x16.begin true true).map (fun r => (r.1.lastKeySetting_, r.1.lastKeyTime_)) =
      some (Ptr.live [], Ptr.live []) := by
  decide

/-- C14 (amended): when `numRows * numCols` is at most 255, the largest value of the
`uint8_t` member `totalKeys_`, `totalKeys_` is the product `numRows * numCols`, and
after a successful `begin` the scanner holds exactly `numRows * numCols` key-state
entries: one time per key, and one flag bit per key in `(numRows * numCols + 7) / 8`
bytes. -/
theorem totalKeys_product (keyMap : List Char) (rowPins colPins : List Nat)
    (numRows numCols : Nat) (enablePullups : Bool) (s1 : Keypad_Matrix) (tr : List Event)
    (hfit : numRows * numCols ≤ 255)
    (hbegin : (Keypad_Matrix.Keypad_Matrix keyMap rowPins colPins numRows numCols
      enablePullups).begin true true = some (s1, tr)) :
    (Keypad_Matrix.Keypad_Matrix keyMap rowPins colPins numRows numCols
      enablePullups).totalKeys_ = numRows * numCols ∧
    s1.totalKeys_ = numRows * numCols ∧
    ∃ bits times, s1.lastKeySetting_ = Ptr.live bits ∧ s1.lastKeyTime_ = Ptr.live times ∧
      times.length = numRows * numCols ∧ bits.length = (numRows * numCols + 7) / 8 := by
  have hmod : numRows * numCols % 256 = numRows * numCols := Nat.mod_eq_of_lt (by omega)
  have htk : (Keypad_Matrix.Keypad_Matrix keyMap rowPins colPins numRows numCols
      enablePullups).totalKeys_ = numRows * numCols := by
    show numRows * numCols % UINT8_MOD = numRows * numCols
    exact hmod
  have hs1 := begin_fresh_state _ s1 tr rfl hbegin
  rw [htk] at hs1
  refine ⟨htk, ?_, List.replicate ((numRows * numCols + 7) / 8) 0,
    List.replicate (numRows * numCols) 0, ?_, ?_, ?_, ?_⟩
  · rw [hs1]; exact htk
  · rw [hs1]; rfl
  · rw [hs1]; rfl
  · simp
  · simp

/-- Witness of C14 (amended) on the 2x2 keypad of the examples, as constructed. -/
theorem totalKeys_product_witness :
    (2 * 2 ≤ 255 ∧
      (Keypad_Matrix.Keypad_Matrix ['1', '2', '3', '4'] [6, 7] [2, 3] 2 2 true).begin
          true true =
        some (withArrays
          (Keypad_Matrix.Keypad_Matrix ['1', '2', '3', '4'] [6, 7] [2, 3] 2 2 true)
          [0] [0, 0, 0, 0], [Event.pinMode 2 INPUT_PULLUP, Event.pinMode 3 INPUT_PULLUP])) ∧
    (Keypad_Matrix.Keypad_Matrix ['1', '2', '3', '4'] [6, 7] [2, 3] 2 2 true).totalKeys_ =
      2 * 2 ∧
    (withArrays (Keypad_Matrix.Keypad_Matrix ['1', '2', '3', '4'] [6, 7] [2, 3] 2 2 true)
      [0] [0, 0, 0, 0]).totalKeys_ = 2 * 2 ∧
    ∃ bits times,
      (withArrays (Keypad_Matrix.Keypad_Matrix ['1', '2', '3', '4'] [6, 7] [2, 3] 2 2 true)
        [0] [0, 0, 0, 0]).lastKeySetting_ = Ptr.live bits ∧
      (withArrays (Keypad_Matrix.Keypad_Matrix ['1', '2', '3', '4'] [6, 7] [2, 3] 2 2 true)
        [0] [0, 0, 0, 0]).lastKeyTime_ = Ptr.live times ∧
      times.length = 2 * 2 ∧ bits.length = (2 * 2 + 7) / 8 :=
  ⟨⟨by decide, by decide⟩,
   totalKeys_product ['1', '2', '3', '4'] [6, 7] [2, 3] 2 2 true
     (withArrays (Keypad_Matrix.Keypad_Matrix ['1', '2', '3', '4'] [6, 7] [2, 3] 2 2 true)
       [0] [0, 0, 0, 0])
     [Event.pinMode 2 INPUT_PULLUP, Event.pinMode 3 INPUT_PULLUP] (by decide) (by decide)⟩

theorem first_occurrence (km : List Char) (c : Char) :
    ∀ n : Nat, (∀ j : Nat, j < n → km[j]? ≠ some c) ∨
      ∃ i : Nat, i < n ∧ km[i]? = some c ∧ ∀ j : Nat, j < i → km[j]? ≠ some c := by
  intro n
  induction n with
  | zero => left; intro j h; omega
  | succ n ih =>
    rcases ih with h | ⟨i, hi, hc, hf⟩
    · by_cases hn : km[n]? = some c
      · right; exact ⟨n, by omega, hn, h⟩
      · left
        intro j hj
        by_cases e : j = n
        · rw [e]; exact hn
        · exact h j (by omega)
    · right; exact ⟨i, by omega, hc, hf⟩

/-- On an initialised scanner whose keymap has `totalKeys_` entries, `isKeyDown`
returns, and returns true only if some key is recorded as down. -/
theorem isKeyDown_value (s : Keypad_Matrix) (c : Char) (hi : initialized s = true)
    (hlen : s.totalKeys_ ≤ s.keyMap_.length) :
    s.isKeyDown c = some false ∨ ∃ i, i < s.totalKeys_ ∧ s.isKeyDown c = some (keyFlag s i) := by
  rcases first_occurrence s.keyMap_ c s.totalKeys_ with h | ⟨i, hlt, hc, hf⟩
  · left
    apply isKeyDown_absent s c hlen
    intro hmem
    rw [List.mem_take_iff_getElem] at hmem
    obtain ⟨j, hj, e⟩ := hmem
    have hj2 : j < s.keyMap_.length := by omega
    exact h j (by omega) (by rw [List.getElem?_eq_getElem hj2, e])
  · right
    exact ⟨i, hlt, isKeyDown_first_occurrence s c i hi hlt hc hf⟩

/-- C16: on a freshly constructed scanner whose arguments fit together, a `begin`
whose allocations succeed returns, and afterwards every key state is up and every
time is zero: `isKeyDown` returns false for every symbol, and the first following
scan returns and records as down exactly the keys whose column reads pressed,
provided the clock value is at least the debounce interval after time 0. -/
theorem begin_all_up (keyMap : List Char) (rowPins colPins : List Nat)
    (numRows numCols : Nat) (enablePullups : Bool)
    (hfit : numRows * numCols < UINT8_MOD) (hrows : numRows ≤ rowPins.length)
    (hcols : numCols ≤ colPins.length) (hkeys : numRows * numCols ≤ keyMap.length) :
    ∃ s1 tr,
      (Keypad_Matrix.Keypad_Matrix keyMap rowPins colPins numRows numCols enablePullups).begin
          true true = some (s1, tr) ∧
      s1.totalKeys_ = numRows * numCols ∧
      (∀ k, keyFlag s1 k = false) ∧ (∀ k, keyTime s1 k = 0) ∧
      (∀ c, s1.isKeyDown c = some false) ∧
      ∀ now levels, ∃ s2 tr2, s1.scan now levels = some (s2, tr2) ∧
        ∀ k, k < s1.totalKeys_ →
          keyFlag s2 k =
            (decide (s1.debounce_Time_ ≤ ulongSub now 0) && pressed (levelOf s1 levels k)) := by
  obtain ⟨tr, hbegin, hinit, hwf⟩ := begin_constructed keyMap rowPins colPins numRows numCols
    enablePullups hfit hrows hcols hkeys
  have hflag := keyFlag_zeroed
    (Keypad_Matrix.Keypad_Matrix keyMap rowPins colPins numRows numCols enablePullups)
    ((numRows * numCols + 7) / 8) (numRows * numCols)
  have htime := keyTime_zeroed
    (Keypad_Matrix.Keypad_Matrix keyMap rowPins colPins numRows numCols enablePullups)
    ((numRows * numCols + 7) / 8) (numRows * numCols)
  have htk : (withArrays
      (Keypad_Matrix.Keypad_Matrix keyMap rowPins colPins numRows numCols enablePullups)
      (List.replicate ((numRows * numCols + 7) / 8) 0)
      (List.replicate (numRows * numCols) 0)).totalKeys_ = numRows * numCols := by
    show numRows * numCols % UINT8_MOD = numRows * numCols
    exact Nat.mod_eq_of_lt hfit
  refine ⟨_, tr, hbegin, htk, hflag, htime, ?_, ?_⟩
  · intro c
    rcases isKeyDown_value _ c hinit (by rw [htk]; exact hkeys) with h | ⟨i, _, h⟩
    · exact h
    · rw [h, hflag i]
  · intro now levels
    obtain ⟨s2, pre, hrun, _, _, hf2, _, _⟩ := scan_spec _ now levels hinit hwf rfl
    refine ⟨s2, _, hrun, ?_⟩
    intro k hk
    rw [hf2 k hk]
    unfold keyNextFlag nextFlag guardOpen
    rw [htime k, hflag k]
    by_cases hg : (withArrays
        (Keypad_Matrix.Keypad_Matrix keyMap rowPins colPins numRows numCols enablePullups)
        (List.replicate ((numRows * numCols + 7) / 8) 0)
        (List.replicate (numRows * numCols) 0)).debounce_Time_ ≤ ulongSub now 0
    · simp [hg]
    · simp [hg]

/-- Witness of C16 on the 4x4 keypad of the example of use. -/
theorem begin_all_up_witness :
    (4 * 4 < UINT8_MOD ∧ 4 ≤ [6, 7, 8, 9].length ∧ 4 ≤ [2, 3, 4, 5].length ∧
      4 * 4 ≤ ['1', '2', '3', 'A', '4', '5', '6', 'B', '7', '8', '9', 'C',
        '*', '0', '#', 'D'].length) ∧
    ∃ s1 tr,
      (Keypad_Matrix.Keypad_Matrix
        ['1', '2', '3', 'A', '4', '5', '6', 'B', '7', '8', '9', 'C', '*', '0', '#', 'D']
        [6, 7, 8, 9] [2, 3, 4, 5] 4 4 true).begin true true = some (s1, tr) ∧
      s1.totalKeys_ = 4 * 4 ∧
      (∀ k, keyFlag s1 k = false) ∧ (∀ k, keyTime s1 k = 0) ∧
      (∀ c, s1.isKeyDown c = some false) ∧
      ∀ now levels, ∃ s2 tr2, s1.scan now levels = some (s2, tr2) ∧
        ∀ k, k < s1.totalKeys_ →
          keyFlag s2 k =
            (decide (s1.debounce_Time_ ≤ ulongSub now 0) && pressed (levelOf s1 levels k)) :=
  ⟨⟨by decide, by decide, by decide, by decide⟩,
   begin_all_up
     ['1', '2', '3', 'A', '4', '5', '6', 'B', '7', '8', '9', 'C', '*', '0', '#', 'D']
     [6, 7, 8, 9] [2, 3, 4, 5] 4 4 true (by decide) (by decide) (by decide) (by decide)⟩

/-! ## Index safety -/

theorem scanAll_total :
    ∀ (scans : List (Nat × (Nat → Nat → Int))) (s : Keypad_Matrix),
      initialized s = true → wellFormed s = true →
      ∃ s2 tr2, scanAll s scans = some (s2, tr2) ∧ initialized s2 = true ∧
        wellFormed s2 = true ∧ ∃ b t, s2 = withArrays s b t := by
  intro scans
  induction scans with
  | nil =>
    intro s hi hw
    obtain ⟨b, t, hs, _, _⟩ := initialized_elim s hi
    exact ⟨s, [], rfl, hi, hw, b, t, hs⟩
  | cons p rest ih =>
    intro s hi hw
    obtain ⟨now, levels⟩ := p
    cases hh : handlersSet s with
    | false =>
      obtain ⟨s2, tr2, hrun2, hi2, hw2, hs2⟩ := ih s hi hw
      refine ⟨s2, [] ++ tr2, ?_, hi2, hw2, hs2⟩
      simp only [scanAll, scan_idle s now levels hh, hrun2]
    | true =>
      obtain ⟨s1, pre, hrun, ⟨b, t, hs1⟩, hi1, _, _, _⟩ := scan_spec s now levels hi hw hh
      have hw1 : wellFormed s1 = true := by rw [hs1]; exact hw
      obtain ⟨s2, tr2, hrun2, hi2, hw2, b2, t2, hs2⟩ := ih s1 hi1 hw1
      refine ⟨s2, (pre ++ upEvents s now levels ++ downEvents s now levels) ++ tr2, ?_,
        hi2, hw2, b2, t2, ?_⟩
      · simp only [scanAll, hrun, hrun2]
      · rw [hs2, hs1]; rfl

/-- The row loop of `scan` on an initialised scanner returns, and the key counter
then equals `totalKeys_`. -/
theorem rowLoop_keyNumber (s : Keypad_Matrix) (now : Nat) (levels : Nat → Nat → Int)
    (hi : initialized s = true) (hw : wellFormed s = true) :
    ∃ st, Keypad_Matrix.rowLoop now levels 0 s.numRows_
        ⟨s, 0, List.replicate ((s.totalKeys_ + CHAR_BIT - 1) / CHAR_BIT) 0, false, []⟩ =
          some st ∧
      st.keyNumber = s.totalKeys_ := by
  obtain ⟨b0, t0, hs, hb0, ht0⟩ := initialized_elim s hi
  simp only [wellFormed, Bool.and_eq_true, decide_eq_true_eq] at hw
  obtain ⟨⟨⟨⟨hfit, htk⟩, hrows⟩, hcols⟩, _⟩ := hw
  have hlen : b0.length = (t0.length + 7) / 8 := by rw [hb0, ht0]
  have hfit2 : t0.length < UINT8_MOD := by rw [ht0, htk]; exact hfit
  have hinv0 : ScanInv s b0 t0 now (fun k => levels (k / s.numCols_) (k % s.numCols_))
      (0 * s.numCols_)
      ⟨withArrays s b0 t0, 0, List.replicate ((s.totalKeys_ + CHAR_BIT - 1) / CHAR_BIT) 0,
        false, []⟩ := by
    refine ⟨b0, t0, List.replicate ((s.totalKeys_ + CHAR_BIT - 1) / CHAR_BIT) 0, false, [],
      ?_, rfl, rfl, ?_, ?_, ?_, ?_, ?_, ?_⟩
    · rw [Nat.zero_mul]
    · simp [CHAR_BIT, hb0]
    · intro j; simp
    · intro j; simp
    · intro j; rw [bitOf_replicate_zero]; simp
    · intro _ j; exact bitOf_replicate_zero _ _
    · intro e he; cases he
  obtain ⟨st1, hrun, hinv⟩ := rowLoop_inv s b0 t0 now levels hlen hfit2 hcols s.numRows_ 0 _
    (by omega) (by rw [Nat.zero_add, ht0, htk]) hinv0
  rw [← hs] at hrun
  refine ⟨st1, hrun, ?_⟩
  obtain ⟨b, t, kc, ch, tr, rfl, _⟩ := hinv
  show (0 + s.numRows_) * s.numCols_ = s.totalKeys_
  rw [Nat.zero_add, htk]

/-- C20: take a scanner constructed with `numRows * numCols <= 255`, a keymap of at
least `numRows * numCols` entries and pin arrays of `numRows` and `numCols` entries.
A `begin` whose allocations succeed returns; after it and after any number of scans
the time array has `totalKeys_` entries and the flag array
`(totalKeys_ + 7) / 8` bytes, every `isKeyDown` and every `scan` returns, that is, no
access of theirs to the time array, the keymap, the flag array or the array of
changed keys falls outside its bounds, and the key counter of `scan` equals
`totalKeys_` when the row loop ends, without having wrapped. -/
theorem index_safety (keyMap : List Char) (rowPins colPins : List Nat)
    (numRows numCols : Nat) (enablePullups : Bool)
    (scans : List (Nat × (Nat → Nat → Int)))
    (hfit : numRows * numCols ≤ 255) (hrows : numRows ≤ rowPins.length)
    (hcols : numCols ≤ colPins.length) (hkeys : numRows * numCols ≤ keyMap.length) :
    ∃ s1 tr1 s2 tr2,
      (Keypad_Matrix.Keypad_Matrix keyMap rowPins colPins numRows numCols enablePullups).begin
          true true = some (s1, tr1) ∧
      scanAll s1 scans = some (s2, tr2) ∧
      s2.totalKeys_ = numRows * numCols ∧ initialized s2 = true ∧
      (∀ c, ∃ r, s2.isKeyDown c = some r) ∧
      ∀ now levels,
        (∃ r, s2.scan now levels = some r) ∧
        ∃ st, Keypad_Matrix.rowLoop now levels 0 s2.numRows_
            ⟨s2, 0, List.replicate ((s2.totalKeys_ + CHAR_BIT - 1) / CHAR_BIT) 0, false, []⟩ =
              some st ∧
          st.keyNumber = s2.totalKeys_ := by
  have hfit2 : numRows * numCols < UINT8_MOD := by
    show numRows * numCols < 256
    omega
  obtain ⟨tr1, hbegin, hinit, hwf⟩ := begin_constructed keyMap rowPins colPins numRows numCols
    enablePullups hfit2 hrows hcols hkeys
  obtain ⟨s2, tr2, hrun, hi2, hw2, b, t, hs2⟩ := scanAll_total scans _ hinit hwf
  have htk : s2.totalKeys_ = numRows * numCols := by
    rw [hs2]
    show numRows * numCols % UINT8_MOD = numRows * numCols
    exact Nat.mod_eq_of_lt hfit2
  have hkm : s2.totalKeys_ ≤ s2.keyMap_.length := by
    have := hw2
    simp only [wellFormed, Bool.and_eq_true, decide_eq_true_eq] at this
    exact this.2
  refine ⟨_, tr1, s2, tr2, hbegin, hrun, htk, hi2, ?_, ?_⟩
  · intro c
    rcases isKeyDown_value s2 c hi2 hkm with h | ⟨i, _, h⟩
    · exact ⟨false, h⟩
    · exact ⟨keyFlag s2 i, h⟩
  · intro now levels
    constructor
    · cases hh : handlersSet s2 with
      | false => exact ⟨(s2, []), scan_idle s2 now levels hh⟩
      | true =>
        obtain ⟨s3, pre, hrun3, _⟩ := scan_spec s2 now levels hi2 hw2 hh
        exact ⟨_, hrun3⟩
    · exact rowLoop_keyNumber s2 now levels hi2 hw2

/-- Witness of C20 on the 2x2 keypad of the examples, as constructed, scanned twice. -/
theorem index_safety_witness :
    (2 * 2 ≤ 255 ∧ 2 ≤ [6, 7].length ∧ 2 ≤ [2, 3].length ∧
      2 * 2 ≤ ['1', '2', '3', '4'].length) ∧
    ∃ s1 tr1 s2 tr2,
      (Keypad_Matrix.Keypad_Matrix ['1', '2', '3', '4'] [6, 7] [2, 3] 2 2 true).begin
          true true = some (s1, tr1) ∧
      scanAll s1 [(20, onlyKey0), (40, allReleased)] = some (s2, tr2) ∧
      s2.totalKeys_ = 2 * 2 ∧ initialized s2 = true ∧
      (∀ c, ∃ r, s2.isKeyDown c = some r) ∧
      ∀ now levels,
        (∃ r, s2.scan now levels = some r) ∧
        ∃ st, Keypad_Matrix.rowLoop now levels 0 s2.numRows_
            ⟨s2, 0, List.replicate ((s2.totalKeys_ + CHAR_BIT - 1) / CHAR_BIT) 0, false, []⟩ =
              some st ∧
          st.keyNumber = s2.totalKeys_ :=
  ⟨⟨by decide, by decide, by decide, by decide⟩,
   index_safety ['1', '2', '3', '4'] [6, 7] [2, 3] 2 2 true
     [(20, onlyKey0), (40, allReleased)] (by decide) (by decide) (by decide) (by decide)⟩

/-! ## The times never decrease -/

theorem scanKey_self (now : Nat) (levels : Nat → Nat → Int) (row col : Nat)
    (st st1 : Keypad_Matrix.ScanState)
    (h : Keypad_Matrix.scanKey now levels row col st = some st1) :
    st1.self = st.self ∨
      ∃ self1, st.self.writeTime st.keyNumber now = some self1 ∧
        (self1.setSetting st.keyNumber = some st1.self ∨
          self1.clearSetting st.keyNumber = some st1.self) := by
  unfold Keypad_Matrix.scanKey at h
  simp only [bind, Option.bind, pure] at h
  cases h1 : st.self.readTime st.keyNumber with
  | none => rw [h1] at h; cases h
  | some lastTime =>
    rw [h1] at h
    simp only [] at h
    by_cases hg : ulongSub now lastTime ≥ st.self.debounce_Time_
    · rw [if_pos hg] at h
      cases h2 : st.self.colPins_[col]? with
      | none => rw [h2] at h; cases h
      | some pin =>
        rw [h2] at h
        simp only [] at h
        cases h3 : st.self.testSetting st.keyNumber with
        | none => rw [h3] at h; cases h
        | some old =>
          rw [h3] at h
          simp only [] at h
          by_cases hf : (decide (levels row col = LOW) != (old != 0)) = true
          · rw [if_pos hf] at h
            cases h4 : st.self.writeTime st.keyNumber now with
            | none => rw [h4] at h; cases h
            | some self1 =>
              rw [h4] at h
              simp only [] at h
              cases h5 : BITSET st.keyChanged st.keyNumber with
              | none => rw [h5] at h; cases h
              | some kc1 =>
                rw [h5] at h
                simp only [] at h
                by_cases hl : decide (levels row col = LOW) = true
                · rw [if_pos hl] at h
                  cases h6 : self1.setSetting st.keyNumber with
                  | none => rw [h6] at h; cases h
                  | some self2 =>
                    rw [h6] at h
                    simp only [Option.some.injEq] at h
                    rw [← h]
                    exact Or.inr ⟨self1, rfl, Or.inl h6⟩
                · rw [if_neg hl] at h
                  cases h6 : self1.clearSetting st.keyNumber with
                  | none => rw [h6] at h; cases h
                  | some self2 =>
                    rw [h6] at h
                    simp only [Option.some.injEq] at h
                    rw [← h]
                    exact Or.inr ⟨self1, rfl, Or.inr h6⟩
          · rw [if_neg hf] at h
            simp only [Option.some.injEq] at h
            rw [← h]; exact Or.inl rfl
    · rw [if_neg hg] at h
      simp only [Option.some.injEq] at h
      rw [← h]; exact Or.inl rfl

theorem keyTime_congr (s s1 : Keypad_Matrix) (h : s1.lastKeyTime_ = s.lastKeyTime_) (k : Nat) :
    keyTime s1 k = keyTime s k := by
  unfold keyTime Keypad_Matrix.readTime
  rw [h]

theorem writeTime_time (s s1 : Keypad_Matrix) (i v : Nat) (h : s.writeTime i v = some s1)
    (k : Nat) : keyTime s1 k = keyTime s k ∨ keyTime s1 k = v := by
  unfold Keypad_Matrix.writeTime at h
  cases hp : s.lastKeyTime_ with
  | null => rw [hp] at h; cases h
  | dangling => rw [hp] at h; cases h
  | live times =>
    rw [hp] at h
    simp only [Ptr.deref] at h
    split at h
    · rename_i hlt
      simp only [Option.some.injEq] at h
      by_cases hk : k = i
      · right
        rw [← h, hk]
        simp [keyTime, Keypad_Matrix.readTime, Ptr.deref, List.getElem?_set_self hlt]
      · left
        rw [← h]
        simp [keyTime, Keypad_Matrix.readTime, Ptr.deref, hp,
          List.getElem?_set_ne (Ne.symm hk)]
    · cases h

theorem setSetting_times (s s1 : Keypad_Matrix) (i : Nat) (h : s.setSetting i = some s1) :
    s1.lastKeyTime_ = s.lastKeyTime_ := by
  unfold Keypad_Matrix.setSetting at h
  split at h
  · split at h
    · cases h; rfl
    · cases h
  · cases h

theorem clearSetting_times (s s1 : Keypad_Matrix) (i : Nat) (h : s.clearSetting i = some s1) :
    s1.lastKeyTime_ = s.lastKeyTime_ := by
  unfold Keypad_Matrix.clearSetting at h
  split at h
  · split at h
    · cases h; rfl
    · cases h
  · cases h

theorem scanKey_time (now : Nat) (levels : Nat → Nat → Int) (row col : Nat)
    (st st1 : Keypad_Matrix.ScanState)
    (h : Keypad_Matrix.scanKey now levels row col st = some st1) (k : Nat) :
    keyTime st1.self k = keyTime st.self k ∨ keyTime st1.self k = now := by
  rcases scanKey_self now levels row col st st1 h with e | ⟨self1, hw, hs⟩
  · left; rw [e]
  · have e : keyTime st1.self k = keyTime self1 k := by
      rcases hs with hs | hs
      · exact keyTime_congr _ _ (setSetting_times _ _ _ hs) k
      · exact keyTime_congr _ _ (clearSetting_times _ _ _ hs) k
    rw [e]
    exact writeTime_time _ _ _ _ hw k

theorem colLoop_time (now : Nat) (levels : Nat → Nat → Int) (row : Nat) (k : Nat) :
    ∀ (m col : Nat) (st st1 : Keypad_Matrix.ScanState),
      Keypad_Matrix.colLoop now levels row col m st = some st1 →
      keyTime st1.self k = keyTime st.self k ∨ keyTime st1.self k = now := by
  intro m
  induction m with
  | zero =>
    intro col st st1 h
    simp only [Keypad_Matrix.colLoop, Option.some.injEq] at h
    left; rw [← h]
  | succ m ih =>
    intro col st st1 h
    simp only [Keypad_Matrix.colLoop] at h
    cases h1 : Keypad_Matrix.scanKey now levels row col st with
    | none => rw [h1] at h; cases h
    | some st2 =>
      rw [h1] at h
      rcases ih (col + 1) st2 st1 h with e | e
      · rw [e]; exact scanKey_time now levels row col st st2 h1 k
      · right; exact e

theorem rowLoop_time (now : Nat) (levels : Nat → Nat → Int) (k : Nat) :
    ∀ (m row : Nat) (st st1 : Keypad_Matrix.ScanState),
      Keypad_Matrix.rowLoop now levels row m st = some st1 →
      keyTime st1.self k = keyTime st.self k ∨ keyTime st1.self k = now := by
  intro m
  induction m with
  | zero =>
    intro row st st1 h
    simp only [Keypad_Matrix.rowLoop, Option.some.injEq] at h
    left; rw [← h]
  | succ m ih =>
    intro row st st1 h
    simp only [Keypad_Matrix.rowLoop] at h
    cases h1 : st.self.rowPins_[row]? with
    | none => rw [h1] at h; cases h
    | some pin =>
      rw [h1] at h
      simp only [] at h
      cases h2 : Keypad_Matrix.colLoop now levels row 0 st.self.numCols_
          { st with trace := st.trace ++ [Event.startRow pin] } with
      | none => rw [h2] at h; cases h
      | some st2 =>
        rw [h2] at h
        have hc := colLoop_time now levels row k _ _ _ _ h2
        rcases ih (row + 1) _ st1 h with e | e
        · rw [e]; exact hc
        · right; exact e

/-- After a scan that returns, the time of a key is what it was or the clock value
of the scan. -/
theorem scan_time (s s1 : Keypad_Matrix) (now : Nat) (levels : Nat → Nat → Int)
    (tr : List Event) (h : s.scan now levels = some (s1, tr)) (k : Nat) :
    keyTime s1 k = keyTime s k ∨ keyTime s1 k = now := by
  unfold Keypad_Matrix.scan at h
  split at h
  · simp only [Option.some.injEq, Prod.mk.injEq] at h
    left; rw [← h.1]
  · simp only [] at h
    split at h
    · cases h
    · rename_i st hrun
      have hst := rowLoop_time now levels k _ _ _ _ hrun
      split at h
      · split at h
        · cases h
        · split at h
          · cases h
          · simp only [Option.some.injEq, Prod.mk.injEq] at h
            rw [← h.1]; exact hst
      · simp only [Option.some.injEq, Prod.mk.injEq] at h
        rw [← h.1]; exact hst

theorem keyTime_of_null (s : Keypad_Matrix) (h : s.lastKeyTime_ = Ptr.null) (k : Nat) :
    keyTime s k = 0 := by
  unfold keyTime Keypad_Matrix.readTime
  rw [h]
  rfl

theorem begin_time (s s1 : Keypad_Matrix) (alloc1 alloc2 : Bool) (tr : List Event)
    (hgood : timesWithFlags s) (h : s.begin alloc1 alloc2 = some (s1, tr)) :
    timesWithFlags s1 ∧ ∀ k, keyTime s1 k = keyTime s k := by
  by_cases hn : s.lastKeySetting_.isNull = false
  · unfold Keypad_Matrix.begin at h
    rw [if_pos hn] at h
    simp only [Option.some.injEq, Prod.mk.injEq] at h
    rw [← h.1]
    exact ⟨hgood, fun _ => rfl⟩
  · have hnull : s.lastKeySetting_.isNull = true := by
      cases hx : s.lastKeySetting_.isNull
      · exact absurd hx hn
      · rfl
    have ht : s.lastKeyTime_ = Ptr.null := hgood hnull
    have h0 : ∀ k, keyTime s k = 0 := keyTime_of_null s ht
    unfold Keypad_Matrix.begin at h
    rw [if_neg hn] at h
    cases alloc1 with
    | false =>
      simp only [Bool.false_eq_true, if_false, Ptr.isNull, Bool.true_eq_false, ht,
        if_true, Option.some.injEq, Prod.mk.injEq] at h
      rw [← h.1]
      refine ⟨fun _ => rfl, ?_⟩
      intro k
      rw [h0 k]
      exact keyTime_of_null _ rfl k
    | true =>
      cases alloc2 with
      | false =>
        simp only [Bool.false_eq_true, if_false, if_true, Ptr.isNull, Ptr.free,
          Option.some.injEq, Prod.mk.injEq] at h
        rw [← h.1]
        refine ⟨fun hx => (by cases hx), ?_⟩
        intro k
        rw [h0 k]
        exact keyTime_of_null _ rfl k
      | true =>
        simp only [Bool.false_eq_true, if_false, if_true, Ptr.isNull] at h
        have hs1 : s1 = withArrays s
            (List.replicate ((s.totalKeys_ + CHAR_BIT - 1) / CHAR_BIT) 0)
            (List.replicate s.totalKeys_ 0) := by
          split at h
          · split at h
            · cases h
            · simp only [Option.some.injEq, Prod.mk.injEq] at h
              rw [← h.1]; rfl
          · simp only [Option.some.injEq, Prod.mk.injEq] at h
            rw [← h.1]; rfl
        rw [hs1]
        refine ⟨fun hx => (by cases hx), ?_⟩
        intro k
        rw [h0 k]
        exact keyTime_zeroed s _ _ k

theorem scan_good (s s1 : Keypad_Matrix) (now : Nat) (levels : Nat → Nat → Int)
    (tr : List Event) (hgood : timesWithFlags s) (h : s.scan now levels = some (s1, tr)) :
    timesWithFlags s1 := by
  by_cases hn : s.lastKeySetting_.isNull = false
  · intro hx
    rw [scan_nonnull s s1 now levels tr h hn] at hx
    cases hx
  · have hnull : s.lastKeySetting_.isNull = true := by
      cases hx : s.lastKeySetting_.isNull
      · exact absurd hx hn
      · rfl
    unfold Keypad_Matrix.scan at h
    rw [if_pos (Or.inl hnull)] at h
    simp only [Option.some.injEq, Prod.mk.injEq] at h
    rw [← h.1]
    exact hgood

/-- One call keeps the times below the latest clock value and never decreases them,
when the clock value of a scan is not below the bound reached so far. -/
theorem call_time (s s1 : Keypad_Matrix) (c : Call) (c0 : Nat)
    (hgood : timesWithFlags s) (hle : ∀ k, keyTime s k ≤ c0)
    (hclock : ∀ now, c.clock = some now → c0 ≤ now) (h : c.run s = some s1) :
    timesWithFlags s1 ∧ (∀ k, keyTime s k ≤ keyTime s1 k) ∧
      ∀ k, keyTime s1 k ≤ (match c.clock with
        | some now => now
        | none => c0) := by
  cases c with
  | begin a1 a2 =>
    simp only [Call.run, Option.map_eq_some'] at h
    obtain ⟨r, hr, e⟩ := h
    obtain ⟨s2, tr⟩ := r
    simp only at e
    subst e
    obtain ⟨hg1, ht⟩ := begin_time s s2 a1 a2 tr hgood hr
    exact ⟨hg1, fun k => by rw [ht k], fun k => by rw [ht k]; exact hle k⟩
  | scan now levels =>
    simp only [Call.run, Option.map_eq_some'] at h
    obtain ⟨r, hr, e⟩ := h
    obtain ⟨s2, tr⟩ := r
    simp only at e
    subst e
    have hnow : c0 ≤ now := hclock now rfl
    refine ⟨scan_good s s2 now levels tr hgood hr, ?_, ?_⟩
    · intro k
      rcases scan_time s s2 now levels tr hr k with e | e
      · rw [e]
      · rw [e]; exact Nat.le_trans (hle k) hnow
    · intro k
      show keyTime s2 k ≤ now
      rcases scan_time s s2 now levels tr hr k with e | e
      · rw [e]; exact Nat.le_trans (hle k) hnow
      · rw [e]
  | isKeyDown which =>
    simp only [Call.run, Option.map_eq_some'] at h
    obtain ⟨r, _, e⟩ := h
    subst e
    exact ⟨hgood, fun _ => Nat.le_refl _, hle⟩
  | setKeyDownHandler handler =>
    simp only [Call.run, Option.some.injEq] at h
    subst h
    exact ⟨hgood, fun _ => Nat.le_refl _, hle⟩
  | setKeyUpHandler handler =>
    simp only [Call.run, Option.some.injEq] at h
    subst h
    exact ⟨hgood, fun _ => Nat.le_refl _, hle⟩
  | setRowHandlers start finish =>
    simp only [Call.run, Option.some.injEq] at h
    subst h
    exact ⟨hgood, fun _ => Nat.le_refl _, hle⟩
  | setColumnReadHandler handler =>
    simp only [Call.run, Option.some.injEq] at h
    subst h
    exact ⟨hgood, fun _ => Nat.le_refl _, hle⟩
  | setDebounceTime d =>
    simp only [Call.run, Option.some.injEq] at h
    subst h
    exact ⟨hgood, fun _ => Nat.le_refl _, hle⟩

theorem latestClock_append (l : List Call) (c : Call) :
    ∀ c0, latestClock c0 (l ++ [c]) =
      match c.clock with
      | some now => now
      | none => latestClock c0 l := by
  induction l with
  | nil =>
    intro c0
    simp only [List.nil_append, latestClock]
  | cons d rest ih =>
    intro c0
    simp only [List.cons_append, latestClock]
    exact ih _

theorem latestClock_mem (l : List Call) :
    ∀ c0, latestClock c0 l = c0 ∨ latestClock c0 l ∈ l.filterMap Call.clock := by
  induction l with
  | nil => intro c0; left; rfl
  | cons d rest ih =>
    intro c0
    simp only [latestClock]
    cases hd : d.clock with
    | none =>
      simp only [List.filterMap_cons, hd]
      exact ih c0
    | some now =>
      simp only [List.filterMap_cons, hd]
      right
      rcases ih now with e | e
      · rw [e]; exact List.mem_cons_self _ _
      · exact List.mem_cons_of_mem _ e

theorem runCalls_time :
    ∀ (calls : List Call) (s s1 : Keypad_Matrix) (c0 : Nat),
      timesWithFlags s → (∀ k, keyTime s k ≤ c0) →
      (c0 :: calls.filterMap Call.clock).Pairwise (· ≤ ·) →
      runCalls s calls = some s1 →
      timesWithFlags s1 ∧ ∀ k, keyTime s1 k ≤ latestClock c0 calls := by
  intro calls
  induction calls with
  | nil =>
    intro s s1 c0 hg hle _ h
    simp only [runCalls, Option.some.injEq] at h
    rw [← h]
    exact ⟨hg, hle⟩
  | cons c rest ih =>
    intro s s1 c0 hg hle hs h
    simp only [runCalls] at h
    cases hc : c.run s with
    | none => rw [hc] at h; cases h
    | some s2 =>
      rw [hc] at h
      simp only [] at h
      have hclock : ∀ now, c.clock = some now → c0 ≤ now := by
        intro now hn
        simp only [List.filterMap_cons, hn] at hs
        exact (List.pairwise_cons.1 hs).1 now (List.mem_cons_self _ _)
      obtain ⟨hg2, _, hle2⟩ := call_time s s2 c c0 hg hle hclock hc
      have hs2 : ((match c.clock with
          | some now => now
          | none => c0) :: rest.filterMap Call.clock).Pairwise (· ≤ ·) := by
        cases hn : c.clock with
        | none =>
          simp only [List.filterMap_cons, hn] at hs
          exact hs
        | some now =>
          simp only [List.filterMap_cons, hn] at hs
          exact (List.pairwise_cons.1 hs).2
      exact ih s2 s1 _ hg2 hle2 hs2 h

/-- C15: start from a constructed scanner and make any sequence of calls of `begin`,
`scan`, `isKeyDown` and the setters in which the clock values of the scans never
decrease. Then from the state before a call to the state after it the recorded time
of a key `k` does not decrease, and the recorded time is at most the clock value of
the latest scan (0 while no scan has been made). -/
theorem timestamp_invariant (keyMap : List Char) (rowPins colPins : List Nat)
    (numRows numCols : Nat) (enablePullups : Bool) (k : Nat)
    (before : List Call) (c : Call) (s s1 : Keypad_Matrix)
    (hsorted : ((before ++ [c]).filterMap Call.clock).Pairwise (· ≤ ·))
    (h1 : runCalls
      (Keypad_Matrix.Keypad_Matrix keyMap rowPins colPins numRows numCols enablePullups)
      before = some s)
    (h2 : c.run s = some s1) :
    keyTime s k ≤ keyTime s1 k ∧ keyTime s1 k ≤ latestClock 0 (before ++ [c]) := by
  rw [List.filterMap_append] at hsorted
  obtain ⟨hsb, _, hcross⟩ := List.pairwise_append.1 hsorted
  obtain ⟨hg, hle⟩ := runCalls_time before _ s 0 (fun _ => rfl)
    (fun j => by rw [keyTime_of_null _ rfl j])
    (List.pairwise_cons.2 ⟨fun _ _ => Nat.zero_le _, hsb⟩) h1
  have hclock : ∀ now, c.clock = some now → latestClock 0 before ≤ now := by
    intro now hn
    rcases latestClock_mem before 0 with e | e
    · rw [e]; exact Nat.zero_le _
    · apply hcross _ e
      simp only [List.filterMap_cons, hn, List.filterMap_nil]
      exact List.mem_cons_self _ _
  obtain ⟨_, hmono, hle1⟩ := call_time s s1 c (latestClock 0 before) hg hle hclock h2
  refine ⟨hmono k, ?_⟩
  rw [latestClock_append]
  exact hle1 k

/-- Witness of C15 on the 1x1 keypad: `begin`, a scan at 20 that records the key as
down, then a scan at 40 that records it as up. -/
theorem timestamp_invariant_witness :
    (([Call.begin true true, Call.setDebounceTime 10, Call.scan 20 allPressed] ++
        [Call.scan 40 allReleased]).filterMap Call.clock).Pairwise (· ≤ ·) ∧
    runCalls (Keypad_Matrix.Keypad_Matrix ['A'] [6] [2] 1 1 true)
        [Call.begin true true, Call.setDebounceTime 10, Call.scan 20 allPressed] =
      some (withArrays keypadA [1] [20]) ∧
    (Call.scan 40 allReleased).run (withArrays keypadA [1] [20]) =
      some (withArrays keypadA [0] [40]) ∧
    keyTime (withArrays keypadA [1] [20]) 0 ≤ keyTime (withArrays keypadA [0] [40]) 0 ∧
    keyTime (withArrays keypadA [0] [40]) 0 ≤
      latestClock 0 ([Call.begin true true, Call.setDebounceTime 10,
        Call.scan 20 allPressed] ++ [Call.scan 40 allReleased]) :=
  ⟨by decide, by decide, by decide,
   timestamp_invariant ['A'] [6] [2] 1 1 true 0
     [Call.begin true true, Call.setDebounceTime 10, Call.scan 20 allPressed]
     (Call.scan 40 allReleased) (withArrays keypadA [1] [20]) (withArrays keypadA [0] [40])
     (by decide) (by decide) (by decide)⟩

/-! ## The order of the handler calls and the reads -/

theorem key_index_lt (nr nc r c : Nat) (hr : r < nr) (hc : c < nc) : r * nc + c < nr * nc := by
  have h1 : r * nc + c < (r + 1) * nc := by
    rw [Nat.add_mul, Nat.one_mul]; omega
  have h2 : (r + 1) * nc ≤ nr * nc := Nat.mul_le_mul_right nc hr
  omega

theorem levelOf_position (s : Keypad_Matrix) (levels : Nat → Nat → Int) (r c : Nat)
    (hc : c < s.numCols_) : levelOf s levels (r * s.numCols_ + c) = levels r c := by
  unfold levelOf
  have hpos : 0 < s.numCols_ := by omega
  have e1 : (r * s.numCols_ + c) / s.numCols_ = r := by
    rw [Nat.mul_comm, Nat.mul_add_div hpos, Nat.div_eq_of_lt hc, Nat.add_zero]
  have e2 : (r * s.numCols_ + c) % s.numCols_ = c := by
    rw [Nat.mul_comm, Nat.mul_add_mod, Nat.mod_eq_of_lt hc]
  rw [e1, e2]

/-- C17 (as stated, refuted): on the 2x2 keypad (4 keys, debounce interval 10, key 3
recorded as down at time 20) a scan at clock value 25 samples both columns while the
first row is active, but only column 0 while the second row is active: the key at
index 3 is within its debounce interval and its column is not sampled. -/
theorem row_sampling_skips_guarded_column :
    initialized keypad2x2 = true ∧ wellFormed keypad2x2 = true ∧
    handlersSet keypad2x2 = true ∧
    keypad2x2.numRows_ * keypad2x2.numCols_ ≤ 255 ∧
    keypad2x2.rowPins_ = [6, 7] ∧ keypad2x2.colPins_ = [2, 3] ∧
    (keypad2x2.scan 25 onlyKey0).map Prod.snd =
      some [Event.startRow 6, Event.readColumn 2, Event.readColumn 3, Event.endRow 6,
        Event.startRow 7, Event.readColumn 2, Event.endRow 7, Event.keyDown 0 '1'] ∧
    (keypad2x2.scan 25 onlyKey0).map (fun r => r.2.filter (fun e => !e.isKey)) ≠
      some [Event.startRow 6, Event.readColumn 2, Event.readColumn 3, Event.endRow 6,
        Event.startRow 7, Event.readColumn 2, Event.readColumn 3, Event.endRow 7] := by
  decide

/-- C17 (amended): one scan of an initialised scanner with at most 255 keys returns,
and its handler calls are, for each row `r` in increasing order, the call of the
start-row handler with `rowPins_ [r]`, then the samples of the row, taken in
increasing order of the column (each a call of the read handler with `colPins_ [c]`,
made for the keys that pass the debounce guard and for no other), then the call of
the end-row handler with `rowPins_ [r]`; the calls of the key handlers come after all
rows. The sample for
column `c` in row `r` decides the state of the key at index `r * numCols_ + c`, which
is below `totalKeys_`, and of no other key; the symbol reported for that key is
`keyMap_ [r * numCols_ + c]`. -/
theorem scan_order_and_indexing (s : Keypad_Matrix) (now : Nat) (levels : Nat → Nat → Int)
    (hi : initialized s = true) (hw : wellFormed s = true) (hh : handlersSet s = true) :
    ∃ s1,
      s.scan now levels =
        some (s1,
          (List.range s.numRows_).flatMap
            (fun r => Event.startRow (s.rowPins_.getD r 0) ::
              (((List.range s.numCols_).filter
                  (fun c => guardOpen s.debounce_Time_ now
                    (keyTime s (r * s.numCols_ + c)))).map
                  (fun c => Event.readColumn (s.colPins_.getD c 0)) ++
                [Event.endRow (s.rowPins_.getD r 0)])) ++
          upEvents s now levels ++ downEvents s now levels) ∧
      ∀ r c, r < s.numRows_ → c < s.numCols_ →
        r * s.numCols_ + c < s.totalKeys_ ∧
        keyFlag s1 (r * s.numCols_ + c) =
          nextFlag s.debounce_Time_ now (keyTime s (r * s.numCols_ + c))
            (keyFlag s (r * s.numCols_ + c)) (levels r c) ∧
        keyTime s1 (r * s.numCols_ + c) =
          nextTime s.debounce_Time_ now (keyTime s (r * s.numCols_ + c))
            (keyFlag s (r * s.numCols_ + c)) (levels r c) ∧
        ∀ e ∈ upEvents s now levels ++ downEvents s now levels,
          e.key = r * s.numCols_ + c →
          e = Event.keyUp (r * s.numCols_ + c) (symbolOf s (r * s.numCols_ + c)) ∨
          e = Event.keyDown (r * s.numCols_ + c) (symbolOf s (r * s.numCols_ + c)) := by
  obtain ⟨s1, hrun⟩ := scan_trace_spec s now levels hi hw hh
  obtain ⟨s2, pre, hrun2, _, _, hflag, htime, _⟩ := scan_spec s now levels hi hw hh
  have hs : s2 = s1 := by
    rw [hrun] at hrun2
    simp only [Option.some.injEq, Prod.mk.injEq] at hrun2
    exact hrun2.1.symm
  rw [hs] at hflag htime
  have htk : s.totalKeys_ = s.numRows_ * s.numCols_ := by
    have := hw
    simp only [wellFormed, Bool.and_eq_true, decide_eq_true_eq] at this
    exact this.1.1.1.2
  refine ⟨s1, hrun, ?_⟩
  intro r c hr hc
  have hk : r * s.numCols_ + c < s.totalKeys_ := by
    rw [htk]; exact key_index_lt _ _ _ _ hr hc
  refine ⟨hk, ?_, ?_, ?_⟩
  · rw [hflag _ hk]
    unfold keyNextFlag
    rw [levelOf_position s levels r c hc]
  · rw [htime _ hk]
    unfold keyNextTime
    rw [levelOf_position s levels r c hc]
  · intro e he hkey
    rcases List.mem_append.1 he with hu | hd
    · left
      unfold upEvents at hu
      split at hu
      · obtain ⟨j, _, rfl⟩ := List.mem_map.1 hu
        have hj : j = r * s.numCols_ + c := hkey
        rw [hj]
      · cases hu
    · right
      unfold downEvents at hd
      split at hd
      · obtain ⟨j, _, rfl⟩ := List.mem_map.1 hd
        have hj : j = r * s.numCols_ + c := hkey
        rw [hj]
      · cases hd

/-- Witness of C17 (amended) on the 2x2 keypad at clock value 50, with the whole
trace. -/
theorem scan_order_and_indexing_witness :
    (initialized keypad2x2 = true ∧ wellFormed keypad2x2 = true ∧
      handlersSet keypad2x2 = true) ∧
    (∃ s1,
      keypad2x2.scan 50 onlyKey0 =
        some (s1,
          (List.range keypad2x2.numRows_).flatMap
            (fun r => Event.startRow (keypad2x2.rowPins_.getD r 0) ::
              (((List.range keypad2x2.numCols_).filter
                  (fun c => guardOpen keypad2x2.debounce_Time_ 50
                    (keyTime keypad2x2 (r * keypad2x2.numCols_ + c)))).map
                  (fun c => Event.readColumn (keypad2x2.colPins_.getD c 0)) ++
                [Event.endRow (keypad2x2.rowPins_.getD r 0)])) ++
          upEvents keypad2x2 50 onlyKey0 ++ downEvents keypad2x2 50 onlyKey0) ∧
      ∀ r c, r < keypad2x2.numRows_ → c < keypad2x2.numCols_ →
        r * keypad2x2.numCols_ + c < keypad2x2.totalKeys_ ∧
        keyFlag s1 (r * keypad2x2.numCols_ + c) =
          nextFlag keypad2x2.debounce_Time_ 50 (keyTime keypad2x2 (r * keypad2x2.numCols_ + c))
            (keyFlag keypad2x2 (r * keypad2x2.numCols_ + c)) (onlyKey0 r c) ∧
        keyTime s1 (r * keypad2x2.numCols_ + c) =
          nextTime keypad2x2.debounce_Time_ 50 (keyTime keypad2x2 (r * keypad2x2.numCols_ + c))
            (keyFlag keypad2x2 (r * keypad2x2.numCols_ + c)) (onlyKey0 r c) ∧
        ∀ e ∈ upEvents keypad2x2 50 onlyKey0 ++ downEvents keypad2x2 50 onlyKey0,
          e.key = r * keypad2x2.numCols_ + c →
          e = Event.keyUp (r * keypad2x2.numCols_ + c)
            (symbolOf keypad2x2 (r * keypad2x2.numCols_ + c)) ∨
          e = Event.keyDown (r * keypad2x2.numCols_ + c)
            (symbolOf keypad2x2 (r * keypad2x2.numCols_ + c))) ∧
    (keypad2x2.scan 50 onlyKey0).map Prod.snd =
      some [Event.startRow 6, Event.readColumn 2, Event.readColumn 3, Event.endRow 6,
        Event.startRow 7, Event.readColumn 2, Event.readColumn 3, Event.endRow 7,
        Event.keyUp 3 '4', Event.keyDown 0 '1'] :=
  ⟨⟨by decide, by decide, by decide⟩,
   scan_order_and_indexing keypad2x2 50 onlyKey0 (by decide) (by decide) (by decide),
   by decide⟩

theorem rowReads_isRead (s : Keypad_Matrix) (now r : Nat) :
    (rowReads s now r).filter Event.isRead = rowReads s now r := by
  rw [List.filter_eq_self]
  intro e he
  unfold rowReads at he
  obtain ⟨c, _, rfl⟩ := List.mem_map.1 he
  rfl

theorem filter_isRead_keys (l : List Event) (h : ∀ e ∈ l, e.isKey = true) :
    l.filter Event.isRead = [] := by
  rw [List.filter_eq_nil_iff]
  intro e he
  have := h e he
  cases e <;> simp_all [Event.isKey, Event.isRead]

theorem scanTrace_reads (s : Keypad_Matrix) (now : Nat) :
    (scanTrace s now).filter Event.isRead = (List.range s.numRows_).flatMap (rowReads s now) := by
  unfold scanTrace
  rw [List.filter_flatMap]
  have : (fun r => List.filter Event.isRead
      (Event.startRow (s.rowPins_.getD r 0) ::
        (rowReads s now r ++ [Event.endRow (s.rowPins_.getD r 0)]))) = rowReads s now := by
    funext r
    rw [List.filter_cons, List.filter_append, rowReads_isRead]
    simp [Event.isRead]
  rw [this]

theorem flatMap_range_length_le (f : Nat → List Event) (c : Nat)
    (h : ∀ r, (f r).length ≤ c) : ∀ n, ((List.range n).flatMap f).length ≤ n * c := by
  intro n
  induction n with
  | zero => simp
  | succ n ih =>
    rw [List.range_succ, List.flatMap_append, List.length_append, Nat.succ_mul]
    have h1 : ([n].flatMap f).length = (f n).length := by simp
    rw [h1]
    exact Nat.add_le_add ih (h n)

theorem flatMap_range_congr (f g : Nat → List Event) :
    ∀ n, (∀ r, r < n → f r = g r) → (List.range n).flatMap f = (List.range n).flatMap g := by
  intro n
  induction n with
  | zero => intro _; rfl
  | succ n ih =>
    intro h
    rw [List.range_succ, List.flatMap_append, List.flatMap_append,
      ih (fun r hr => h r (by omega))]
    have h1 : [n].flatMap f = [n].flatMap g := by simp [h n (by omega)]
    rw [h1]

theorem flatMap_range_length (f : Nat → List Event) (c : Nat)
    (h : ∀ r, (f r).length = c) : ∀ n, ((List.range n).flatMap f).length = n * c := by
  intro n
  induction n with
  | zero => simp
  | succ n ih =>
    rw [List.range_succ, List.flatMap_append, List.length_append, Nat.succ_mul, ih]
    have h1 : ([n].flatMap f).length = (f n).length := by simp
    rw [h1, h n]

/-- C13 (as stated, refuted): on the 1x1 keypad after `begin`, with all handlers set,
a scan at clock value 5 (less than the debounce interval 10 after the recorded time
0) makes no call of the read handler, although `numRows * numCols` is 1. -/
theorem reads_skipped_by_guard :
    initialized keypadAReady = true ∧ handlersSet keypadAReady = true ∧
    keypadAReady.numRows_ * keypadAReady.numCols_ = 1 ∧
    keypadAReady.scan 5 allPressed =
      some (keypadAReady, [Event.startRow 6, Event.endRow 6]) ∧
    (keypadAReady.scan 5 allPressed).map (fun r => (r.2.filter Event.isRead).length) =
      some 0 := by
  decide

/-- C13 (amended): in a scan of an initialised scanner with its three handlers set,
while a row is scanned the read handler is called once, with the pin of the column
from `colPins_`, for each column whose key passes the debounce guard
(`now - lastKeyTime_ [key] >= debounce_Time_`), in column order, and not at all for
the other columns. One scan therefore makes at most `numRows * numCols` calls of the
read handler, and exactly `numRows * numCols`, one for every column in every row,
when every key passes the guard. -/
theorem reads_follow_guard (s : Keypad_Matrix) (now : Nat) (levels : Nat → Nat → Int)
    (hi : initialized s = true) (hw : wellFormed s = true) (hh : handlersSet s = true) :
    ∃ s1 tr, s.scan now levels = some (s1, tr) ∧
      tr.filter Event.isRead =
        (List.range s.numRows_).flatMap
          (fun r => ((List.range s.numCols_).filter
            (fun c => guardOpen s.debounce_Time_ now (keyTime s (r * s.numCols_ + c)))).map
            (fun c => Event.readColumn (s.colPins_.getD c 0))) ∧
      (tr.filter Event.isRead).length ≤ s.numRows_ * s.numCols_ ∧
      ((∀ k, k < s.totalKeys_ → s.debounce_Time_ ≤ ulongSub now (keyTime s k)) →
        tr.filter Event.isRead =
          (List.range s.numRows_).flatMap
            (fun _ => (List.range s.numCols_).map
              (fun c => Event.readColumn (s.colPins_.getD c 0))) ∧
        (tr.filter Event.isRead).length = s.numRows_ * s.numCols_) := by
  obtain ⟨s1, hrun⟩ := scan_trace_spec s now levels hi hw hh
  have htk : s.totalKeys_ = s.numRows_ * s.numCols_ := by
    have := hw
    simp only [wellFormed, Bool.and_eq_true, decide_eq_true_eq] at this
    exact this.1.1.1.2
  have hreads : (scanTrace s now ++ upEvents s now levels ++
      downEvents s now levels).filter Event.isRead =
      (List.range s.numRows_).flatMap (rowReads s now) := by
    rw [List.filter_append, List.filter_append, scanTrace_reads,
      filter_isRead_keys _ (fun e he => by
        have := upEvents_isKeyUp s now levels e he
        cases e <;> first | rfl | cases this),
      filter_isRead_keys _ (fun e he => by
        have := downEvents_isKeyDown s now levels e he
        cases e <;> first | rfl | cases this)]
    simp
  refine ⟨s1, _, hrun, ?_, ?_, ?_⟩
  · rw [hreads]; rfl
  · rw [hreads]
    apply flatMap_range_length_le
    intro r
    unfold rowReads
    rw [List.length_map]
    exact Nat.le_trans (List.length_filter_le _ _) (by rw [List.length_range])
  · intro hall
    have hrows : (List.range s.numRows_).flatMap (rowReads s now) =
        (List.range s.numRows_).flatMap
          (fun _ => (List.range s.numCols_).map
            (fun c => Event.readColumn (s.colPins_.getD c 0))) := by
      apply flatMap_range_congr
      intro r hr
      unfold rowReads
      have : (List.range s.numCols_).filter
          (fun col => guardOpen s.debounce_Time_ now (keyTime s (r * s.numCols_ + col))) =
          List.range s.numCols_ := by
        rw [List.filter_eq_self]
        intro c hc
        apply guardOpen_true
        apply hall
        rw [htk]
        exact key_index_lt _ _ _ _ hr (List.mem_range.1 hc)
      rw [this]
    rw [hreads, hrows]
    refine ⟨rfl, ?_⟩
    apply flatMap_range_length
    intro r
    rw [List.length_map, List.length_range]

/-- Witness of C13 (amended) on the 2x2 keypad at clock value 50: every key passes
the guard and the read handler is called four times. -/
theorem reads_follow_guard_witness :
    (initialized keypad2x2 = true ∧ wellFormed keypad2x2 = true ∧
      handlersSet keypad2x2 = true) ∧
    (∃ s1 tr, keypad2x2.scan 50 onlyKey0 = some (s1, tr) ∧
      tr.filter Event.isRead =
        (List.range keypad2x2.numRows_).flatMap
          (fun r => ((List.range keypad2x2.numCols_).filter
            (fun c => guardOpen keypad2x2.debounce_Time_ 50
              (keyTime keypad2x2 (r * keypad2x2.numCols_ + c)))).map
            (fun c => Event.readColumn (keypad2x2.colPins_.getD c 0))) ∧
      (tr.filter Event.isRead).length ≤ keypad2x2.numRows_ * keypad2x2.numCols_ ∧
      ((∀ k, k < keypad2x2.totalKeys_ →
          keypad2x2.debounce_Time_ ≤ ulongSub 50 (keyTime keypad2x2 k)) →
        tr.filter Event.isRead =
          (List.range keypad2x2.numRows_).flatMap
            (fun _ => (List.range keypad2x2.numCols_).map
              (fun c => Event.readColumn (keypad2x2.colPins_.getD c 0))) ∧
        (tr.filter Event.isRead).length = keypad2x2.numRows_ * keypad2x2.numCols_)) ∧
    (keypad2x2.scan 50 onlyKey0).map (fun r => r.2.filter Event.isRead) =
      some [Event.readColumn 2, Event.readColumn 3, Event.readColumn 2,
        Event.readColumn 3] ∧
    (keypad2x2.scan 25 onlyKey0).map (fun r => r.2.filter Event.isRead) =
      some [Event.readColumn 2, Event.readColumn 3, Event.readColumn 2] :=
  ⟨⟨by decide, by decide, by decide⟩,
   reads_follow_guard keypad2x2 50 onlyKey0 (by decide) (by decide) (by decide),
   by decide, by decide⟩

end Keypad
